import Mathlib

/-!
The wechat-matrix backtrace core: CFI index lookup, memory source, map registry.

Shallow embedding of

* `libwechatbacktrace/DwarfEhFrameWithHdrDecoder.cpp` (matrix 2.0.6),
* `libwechatbacktrace/QuickenMemory.cpp` (matrix 2.0.6),
* `libwechatbacktrace/QuickenMaps.cpp` (matrix 2.0.8).

Object state is passed explicitly. `uint64_t` values are natural numbers reduced
modulo `2 ^ 64` where the C++ arithmetic can wrap, `size_t` values are reduced
modulo `2 ^ size_bits`. A null pointer is `none`. Loops run on fuel and answer
`none` when the fuel runs out; the theorems show how much fuel is enough.
-/

set_option autoImplicit false

namespace wechat_backtrace

/-! ## Definitions: DwarfEhFrameWithHdrDecoder -/

/-- Error codes of `unwindstack/DwarfError.h`. -/
inductive DwarfErrorCode where
  | DWARF_ERROR_NONE
  | DWARF_ERROR_MEMORY_INVALID
  | DWARF_ERROR_ILLEGAL_VALUE
  | DWARF_ERROR_ILLEGAL_STATE
  | DWARF_ERROR_STACK_INDEX_NOT_VALID
  | DWARF_ERROR_NOT_IMPLEMENTED
  | DWARF_ERROR_TOO_MANY_ITERATIONS
  | DWARF_ERROR_CFA_NOT_DEFINED
  | DWARF_ERROR_UNSUPPORTED_VERSION
  | DWARF_ERROR_NO_FDES
  deriving DecidableEq, Repr

/-- The pair `last_error_` of a decoder: error code and offending address. -/
structure DwarfErrorData where
  code : DwarfErrorCode
  address : Nat
  deriving DecidableEq, Repr

/-- The fields of `unwindstack::DwarfFde` (the `cie` back pointer is left out). -/
structure DwarfFde where
  cie_offset : Nat
  cfa_instructions_offset : Nat
  cfa_instructions_end : Nat
  pc_start : Nat
  pc_end : Nat
  lsda_address : Nat
  deriving DecidableEq, Repr

/-- One entry of the binary search table: `struct FdeInfo { uint64_t pc; uint64_t offset; }`. -/
structure FdeInfo where
  pc : Nat
  offset : Nat
  deriving DecidableEq, Repr

/-- Cursor state of `unwindstack::DwarfMemory`. A cleared offset is `none`. -/
structure DwarfMemory where
  cur_offset : Nat
  data_offset : Nat
  pc_offset : Nat
  func_offset : Option Nat
  text_offset : Option Nat
  deriving DecidableEq, Repr

/-- What the decoder takes from outside this repository: the width of `size_t`
and the read primitives of `unwindstack::DwarfMemory` for the chosen
`AddressType`. A read answers the value (`none` when it fails) and the cursor
position it leaves in `cur_offset`. -/
structure DecoderEnv where
  size_bits : Nat
  ReadEncodedValue : DwarfMemory → Nat → Option Nat × Nat
  ReadBytes : DwarfMemory → Nat → Option (List Nat) × Nat
  GetEncodedSize : Nat → Nat

/-- State of the base class `DwarfSectionDecoder` that the header decoder uses:
the memory cursor, `last_error_`, the FDE records already visited by the
no-index scan (`fdes_`) and the records of the section the scan has not reached
yet (the bytes from `next_entries_offset_` to `entries_end_`, decoded). -/
structure DwarfSectionDecoder where
  memory_ : DwarfMemory
  last_error_ : DwarfErrorData
  fdes_ : List DwarfFde
  next_entries_ : List DwarfFde

/-- State of `DwarfEhFrameWithHdrDecoder<AddressType>`. -/
structure DwarfEhFrameWithHdrDecoder extends DwarfSectionDecoder where
  version_ : Nat
  table_encoding_ : Nat
  table_entry_size_ : Nat
  hdr_entries_offset_ : Nat
  hdr_entries_data_offset_ : Nat
  hdr_section_bias_ : Int
  fde_count_ : Nat
  fde_info_ : Nat → Option FdeInfo

/-- Constant `DW_EH_PE_funcrel` of `DwarfEncoding.h`. -/
def DW_EH_PE_funcrel : Nat := 0x40

/-- Source function `IsEncodingRelative`: the `uint8_t` encoding is shifted right by four and
compared with `DW_EH_PE_funcrel`. -/
def IsEncodingRelative (encoding : Nat) : Bool :=
  let encoding := (encoding % 256) / 16
  decide (0 < encoding) && decide (encoding ≤ DW_EH_PE_funcrel)

/-- The cursor position `hdr_entries_offset_ + 2 * index * table_entry_size_`.
The index is a `size_t`, and so is `table_entry_size_` in the class declaration
of unwindstack that this decoder follows (the header is not among the sources):
the product is `size_t` arithmetic, the sum is `uint64_t` arithmetic. -/
def entryCursor (env : DecoderEnv) (d : DwarfEhFrameWithHdrDecoder) (index : Nat) : Nat :=
  (d.hdr_entries_offset_
    + ((2 * index) % 2 ^ env.size_bits * d.table_entry_size_) % 2 ^ env.size_bits) % 2 ^ 64

/-- The part of `GetFdeInfoFromIndex` that reads entry `index` from memory: it
sets the three cursor fields, reads the pc value and the FDE offset, and adds
the section bias to a relative pc. Answers the entry, or `none` when a read
fails, and the memory cursor left behind. -/
def ReadFdeInfo (env : DecoderEnv) (d : DwarfEhFrameWithHdrDecoder) (index : Nat) :
    Option FdeInfo × DwarfMemory :=
  let m0 : DwarfMemory :=
    { d.memory_ with
      data_offset := d.hdr_entries_data_offset_
      cur_offset := entryCursor env d index
      pc_offset := 0 }
  match env.ReadEncodedValue m0 d.table_encoding_ with
  | (none, cur) => (none, { m0 with cur_offset := cur })
  | (some value, cur) =>
    let m1 : DwarfMemory := { m0 with cur_offset := cur }
    match env.ReadEncodedValue m1 d.table_encoding_ with
    | (none, cur2) => (none, { m1 with cur_offset := cur2 })
    | (some offset, cur2) =>
      let pc :=
        if IsEncodingRelative d.table_encoding_ then
          (((value : Int) + d.hdr_section_bias_) % 2 ^ 64).toNat
        else value
      (some { pc := pc, offset := offset }, { m1 with cur_offset := cur2 })

/-- Source function `DwarfEhFrameWithHdrDecoder::GetFdeInfoFromIndex`: a memoized entry is
answered from `fde_info_`; otherwise the entry is read, and either stored or,
when a read fails, erased again with `last_error_` set. -/
def GetFdeInfoFromIndex (env : DecoderEnv) (d : DwarfEhFrameWithHdrDecoder) (index : Nat) :
    Option FdeInfo × DwarfEhFrameWithHdrDecoder :=
  match d.fde_info_ index with
  | some info => (some info, d)
  | none =>
    match ReadFdeInfo env d index with
    | (none, m) =>
      (none,
        { d with
          memory_ := m
          last_error_ := { code := .DWARF_ERROR_MEMORY_INVALID, address := m.cur_offset }
          fde_info_ := fun j => if j = index then none else d.fde_info_ j })
    | (some info, m) =>
      (some info,
        { d with
          memory_ := m
          fde_info_ := fun j => if j = index then some info else d.fde_info_ j })

/-- How the `while (first < last)` loop of `GetFdeOffsetFromPc` ends: with a
`return` inside the loop, or by leaving the loop with the final bounds. -/
inductive SearchExit where
  | returned (ret : Bool) (fde_offset : Option Nat)
  | exited (first last : Nat)
  deriving DecidableEq, Repr

/-- The loop of `GetFdeOffsetFromPc`; `none` when the fuel runs out. -/
def searchLoop (env : DecoderEnv) (pc : Nat) :
    Nat → DwarfEhFrameWithHdrDecoder → Nat → Nat → Option (SearchExit × DwarfEhFrameWithHdrDecoder)
  | 0, d, first, last =>
    if first < last then none else some (.exited first last, d)
  | fuel + 1, d, first, last =>
    if first < last then
      let current := (first + last) % 2 ^ env.size_bits / 2
      match GetFdeInfoFromIndex env d current with
      | (none, d1) => some (.returned false none, d1)
      | (some info, d1) =>
        if pc = info.pc then some (.returned true (some info.offset), d1)
        else if pc < info.pc then searchLoop env pc fuel d1 first current
        else searchLoop env pc fuel d1 ((current + 1) % 2 ^ env.size_bits) last
    else some (.exited first last, d)

/-- Source function `DwarfEhFrameWithHdrDecoder::GetFdeOffsetFromPc`. The answer is the returned
`bool`, the value written to `*fde_offset` (`none` when nothing is written) and
the decoder state; `none` when the fuel runs out. -/
def GetFdeOffsetFromPc (env : DecoderEnv) (fuel : Nat) (d : DwarfEhFrameWithHdrDecoder)
    (pc : Nat) : Option ((Bool × Option Nat) × DwarfEhFrameWithHdrDecoder) :=
  if d.fde_count_ = 0 then some ((false, none), d)
  else
    match searchLoop env pc fuel d 0 (d.fde_count_ % 2 ^ env.size_bits) with
    | none => none
    | some (.returned ret out, d1) => some ((ret, out), d1)
    | some (.exited _ last, d1) =>
      if last ≠ 0 then
        match GetFdeInfoFromIndex env d1 (last - 1) with
        | (none, d2) => some ((false, none), d2)
        | (some info, d2) => some ((true, some info.offset), d2)
      else some ((false, none), d1)

/-- The entry that `GetFdeInfoFromIndex` answers for `index` in state `d`. -/
def fdeInfoAt (env : DecoderEnv) (d : DwarfEhFrameWithHdrDecoder) (index : Nat) :
    Option FdeInfo :=
  (GetFdeInfoFromIndex env d index).1

/-- Every memoized entry of `fde_info_` is the entry that reading its index
from memory gives: the state of a decoder whose table memory does not change. -/
def CacheConsistent (env : DecoderEnv) (d : DwarfEhFrameWithHdrDecoder) : Prop :=
  ∀ i e, d.fde_info_ i = some e → (ReadFdeInfo env d i).1 = some e

/-- Two decoder states look at the same search table in the same way. -/
structure SameTable (d d' : DwarfEhFrameWithHdrDecoder) : Prop where
  func : d'.memory_.func_offset = d.memory_.func_offset
  text : d'.memory_.text_offset = d.memory_.text_offset
  enc : d'.table_encoding_ = d.table_encoding_
  size : d'.table_entry_size_ = d.table_entry_size_
  off : d'.hdr_entries_offset_ = d.hdr_entries_offset_
  data : d'.hdr_entries_data_offset_ = d.hdr_entries_data_offset_
  bias : d'.hdr_section_bias_ = d.hdr_section_bias_
  count : d'.fde_count_ = d.fde_count_

/-- The first `n` index entries, as `GetFdeInfoFromIndex` answers them in state
`d`, are the pairs `(key i, off i)`. -/
def TableView (env : DecoderEnv) (d : DwarfEhFrameWithHdrDecoder) (key off : Nat → Nat)
    (n : Nat) : Prop :=
  ∀ i, i < n → fdeInfoAt env d i = some { pc := key i, offset := off i }

/-- A sequence of later calls of `GetFdeInfoFromIndex`, each for its own index
and with its own memory contents, run from state `d`. -/
def runGetFdeInfo (calls : List (DecoderEnv × Nat)) (d : DwarfEhFrameWithHdrDecoder) :
    DwarfEhFrameWithHdrDecoder :=
  calls.foldl (fun d c => (GetFdeInfoFromIndex c.1 d c.2).2) d

/-! ### `GetFdeFromPc` of the header decoder -/

/-- The two base-class functions that `GetFdeFromPc` calls. Their bodies
(`DwarfSectionDecoder.cpp`) are not among the sources, so they are parameters:
each answers an FDE or null and may change the decoder state. -/
structure SectionOps where
  GetFdeFromOffset :
    DwarfEhFrameWithHdrDecoder → Nat → Option DwarfFde × DwarfEhFrameWithHdrDecoder
  GetFdeFromPc :
    DwarfEhFrameWithHdrDecoder → Nat → Option DwarfFde × DwarfEhFrameWithHdrDecoder

/-- Lines 107-124 of `GetFdeFromPc`: the index lookup, `GetFdeFromOffset`, and
for a zero length FDE the no-index `DwarfSectionDecoder::GetFdeFromPc`. The
local `fde_offset` is read only after a `true` return, which always assigns
it. Answers the FDE found before the range check (`none` after a `return
nullptr`); the outer `none` means the search ran out of fuel. -/
def resolveFde (env : DecoderEnv) (ops : SectionOps) (fuel : Nat)
    (d : DwarfEhFrameWithHdrDecoder) (pc : Nat) :
    Option (Option DwarfFde × DwarfEhFrameWithHdrDecoder) :=
  match GetFdeOffsetFromPc env fuel d pc with
  | none => none
  | some ((false, _), d1) => some (none, d1)
  | some ((true, out), d1) =>
    match ops.GetFdeFromOffset d1 (out.getD 0) with
    | (none, d2) => some (none, d2)
    | (some fde, d2) =>
      if fde.pc_start = fde.pc_end then
        match ops.GetFdeFromPc d2 pc with
        | (none, d3) => some (none, d3)
        | (some fde2, d3) => some (some fde2, d3)
      else some (some fde, d2)

/-- Lines 126-131 of `GetFdeFromPc`: the FDE is returned when `pc < pc_end`,
otherwise `last_error_.code` is set and null is returned. -/
def checkPcInFde (pc : Nat) (fde : DwarfFde) (d : DwarfEhFrameWithHdrDecoder) :
    Option DwarfFde × DwarfEhFrameWithHdrDecoder :=
  if pc < fde.pc_end then (some fde, d)
  else
    (none, { d with last_error_ := { d.last_error_ with code := .DWARF_ERROR_ILLEGAL_STATE } })

/-- Source function `DwarfEhFrameWithHdrDecoder::GetFdeFromPc`. -/
def GetFdeFromPc (env : DecoderEnv) (ops : SectionOps) (fuel : Nat)
    (d : DwarfEhFrameWithHdrDecoder) (pc : Nat) :
    Option (Option DwarfFde × DwarfEhFrameWithHdrDecoder) :=
  match resolveFde env ops fuel d pc with
  | none => none
  | some (none, d1) => some (none, d1)
  | some (some fde, d1) => some (checkPcInFde pc fde d1)

/-- Whether `pc` falls inside the range of an FDE. -/
def fdeCovers (pc : Nat) (fde : DwarfFde) : Bool :=
  decide (fde.pc_start ≤ pc) && decide (pc < fde.pc_end)

/-- Modelled from the spec: the scan loop of the no-index
`DwarfSectionDecoder::GetFdeFromPc`, whose body is missing from the sources.
Section 4.2: "perform an incremental linear scan that fills and caches
newly-visited FDE records until the pc falls inside a found entry's range".
Answers the FDE found, the visited records and the records not yet reached. -/
def scanFdes (pc : Nat) :
    List DwarfFde → List DwarfFde → Option DwarfFde × List DwarfFde × List DwarfFde
  | visited, [] => (none, visited, [])
  | visited, fde :: rest =>
    if fdeCovers pc fde then (some fde, visited ++ [fde], rest)
    else scanFdes pc (visited ++ [fde]) rest

/-- Modelled from the spec: the no-index `DwarfSectionDecoder::GetFdeFromPc`,
whose body is missing from the sources. The records cached by earlier scans are
consulted first, then the scan goes on where it stopped (section 4.2). -/
def DwarfSectionDecoder.GetFdeFromPc (s : DwarfSectionDecoder) (pc : Nat) :
    Option DwarfFde × DwarfSectionDecoder :=
  match s.fdes_.find? (fdeCovers pc) with
  | some fde => (some fde, s)
  | none =>
    match scanFdes pc s.fdes_ s.next_entries_ with
    | (r, visited, rest) => (r, { s with fdes_ := visited, next_entries_ := rest })

/-- The no-index lookup run on the base part of a header decoder. -/
def baseGetFdeFromPc (d : DwarfEhFrameWithHdrDecoder) (pc : Nat) :
    Option DwarfFde × DwarfEhFrameWithHdrDecoder :=
  ((d.toDwarfSectionDecoder.GetFdeFromPc pc).1,
    { d with toDwarfSectionDecoder := (d.toDwarfSectionDecoder.GetFdeFromPc pc).2 })

/-! ### Example data for the decoder -/

/-- An example memory of 32-bit words on a 64-bit build: a read at a cursor that
is a multiple of four and lies inside `ws` gives that word and moves the cursor
by four; every other read fails. -/
def wordMemory (ws : List Nat) : DecoderEnv where
  size_bits := 64
  ReadEncodedValue := fun m _ =>
    if m.cur_offset % 4 = 0 then
      match ws[m.cur_offset / 4]? with
      | some v => (some v, m.cur_offset + 4)
      | none => (none, m.cur_offset)
    else (none, m.cur_offset)
  ReadBytes := fun m _ => (none, m.cur_offset)
  GetEncodedSize := fun _ => 4

/-- An example decoder state after `Init`: `count` table entries of two 4-byte
absolute values (`DW_EH_PE_udata4`) starting at offset 0, nothing memoized. -/
def exampleDecoder (count : Nat) : DwarfEhFrameWithHdrDecoder where
  memory_ := { cur_offset := 0, data_offset := 0, pc_offset := 0,
               func_offset := none, text_offset := none }
  last_error_ := { code := .DWARF_ERROR_NONE, address := 0 }
  fdes_ := []
  next_entries_ := []
  version_ := 1
  table_encoding_ := 0x03
  table_entry_size_ := 4
  hdr_entries_offset_ := 0
  hdr_entries_data_offset_ := 0
  hdr_section_bias_ := 0
  fde_count_ := count
  fde_info_ := fun _ => none

/-- An example FDE with the pc range `[a, b)`. -/
def exampleFde (a b : Nat) : DwarfFde where
  cie_offset := 0
  cfa_instructions_offset := 0
  cfa_instructions_end := 0
  pc_start := a
  pc_end := b
  lsda_address := 0

/-- Example base operations: `GetFdeFromOffset` looks the offset up in a list,
the no-index lookup is the modelled scan. -/
def exampleOps (byOffset : List (Nat × DwarfFde)) : SectionOps where
  GetFdeFromOffset := fun d offset => (byOffset.lookup offset, d)
  GetFdeFromPc := baseGetFdeFromPc

/-- An example section with the index `(10,100), (20,200), (30,300)`: the FDE
at offset 200 has zero length, the FDE that really covers `[20, 30)` is only
reached by the scan. -/
def exampleSection : DwarfEhFrameWithHdrDecoder :=
  { exampleDecoder 3 with
    next_entries_ := [exampleFde 10 20, exampleFde 20 20, exampleFde 20 30, exampleFde 30 40] }

/-- The FDEs that the index offsets of `exampleSection` point to. -/
def exampleByOffset : List (Nat × DwarfFde) :=
  [(100, exampleFde 10 20), (200, exampleFde 20 20), (300, exampleFde 30 40)]

/-! ## Definitions: QuickenMaps -/

/-- Flag values: `PROT_READ` and `PROT_EXEC` of `sys/mman.h`, and
`MAPS_FLAGS_DEVICE_MAP` of `unwindstack/MapInfo.h`. -/
def PROT_READ : Nat := 0x1

/-- See `PROT_READ`. -/
def PROT_EXEC : Nat := 0x4

/-- See `PROT_READ`. -/
def MAPS_FLAGS_DEVICE_MAP : Nat := 0x8000

/-- The fields of a neighbouring map entry that are read through the pointers
`prev_real_map` and `next_real_map_`. -/
structure MapInfoRef where
  start : Nat
  end_ : Nat
  offset : Nat
  flags : Nat
  name : String
  deriving DecidableEq, Repr

/-- The fields of `QuickenMapInfo` (with those of `unwindstack::MapInfo`) that
the map registry works on. The C++ field `end` is `end_` here. -/
structure QuickenMapInfo where
  start : Nat
  end_ : Nat
  offset : Nat
  flags : Nat
  name : String
  prev_real_map : Option MapInfoRef := none
  next_real_map_ : Option MapInfoRef := none
  elf_offset : Nat := 0
  elf_start_offset : Nat := 0
  memory_backed_elf : Bool := false
  deriving DecidableEq, Repr

/-- The snapshot `Maps`: the array `local_maps_` (`none` for a null pointer)
with its size and capacity. The array lives in memory, so its indices are far
below the range of `size_t` and `first + last` does not wrap. -/
structure Maps where
  local_maps_ : Option (List QuickenMapInfo)
  maps_size_ : Nat
  maps_capacity_ : Nat
  deriving DecidableEq, Repr

/-- Entry `i` of a snapshot: `local_maps_[i]` for `i < maps_size_`. -/
def Maps.entryAt (m : Maps) (i : Nat) : Option QuickenMapInfo :=
  if i < m.maps_size_ then m.local_maps_.bind (fun es => es[i]?) else none

/-- The loop of `Maps::Find` over the array `es`. The outer `none` means that
there is no defined answer: the fuel ran out, or the loop read past the array. -/
def Maps.findLoop (es : List QuickenMapInfo) (pc : Nat) :
    Nat → Nat → Nat → Option (Option QuickenMapInfo)
  | 0, first, last => if first < last then none else some none
  | fuel + 1, first, last =>
    if first < last then
      let index := (first + last) / 2
      match es[index]? with
      | none => none
      | some cur =>
        if pc ≥ cur.start ∧ pc < cur.end_ then some (some cur)
        else if pc < cur.start then Maps.findLoop es pc fuel first index
        else Maps.findLoop es pc fuel (index + 1) last
    else some none

/-- Source function `Maps::Find`. -/
def Maps.Find (m : Maps) (fuel : Nat) (pc : Nat) : Option (Option QuickenMapInfo) :=
  match m.local_maps_ with
  | none => some none
  | some es => Maps.findLoop es pc fuel 0 m.maps_size_

/-- An example map entry `[start, end)` of the file `name` at `offset`. -/
def exampleMap (start end_ offset flags : Nat) (name : String) : QuickenMapInfo where
  start := start
  end_ := end_
  offset := offset
  flags := flags
  name := name

/-- An example snapshot of three entries `[100,200)`, `[200,300)`, `[400,500)`
in an array of capacity 1024. -/
def exampleMaps : Maps where
  local_maps_ := some [exampleMap 100 200 0 1 "a.so", exampleMap 200 300 4096 5 "a.so",
    exampleMap 400 500 0 5 "b.so"]
  maps_size_ := 3
  maps_capacity_ := 1024

/-! ## Definitions: QuickenMemoryFile -/

/-- What `QuickenMemoryFile` takes from outside: `getpagesize()`, the constant
`QUICKEN_MEMORY_SLICE` of `QuickenMemory.h` (not among the sources), the files
that `open` and `fstat` succeed on with their bytes, and whether `mmap` of a
given length at a given aligned offset succeeds. The slice is assumed to be no
longer than a page, so copying it stays inside the first mapped page. -/
structure FileEnv where
  pagesize : Nat
  QUICKEN_MEMORY_SLICE : Nat
  files : String → Option (List Nat)
  mmap_ok : Nat → Nat → Bool

/-- State of `QuickenMemoryFile`. The private mapping is the function from an
index to its byte (`none` for a null `map_addr_`); `data_` is the mapping
shifted by `offset_`. -/
structure QuickenMemoryFile where
  map_addr_ : Option (Nat → Nat)
  map_size_ : Nat
  offset_ : Nat
  size_ : Nat
  slice_ : List Nat
  slice_size_ : Nat
  file_ : String
  init_offset_ : Nat
  init_size_ : Nat

/-- The byte `data_[i]`. -/
def QuickenMemoryFile.data_ (q : QuickenMemoryFile) (i : Nat) : Nat :=
  match q.map_addr_ with
  | some m => m (q.offset_ + i)
  | none => 0

/-- Source function `QuickenMemoryFile::Clear`. -/
def QuickenMemoryFile.Clear (q : QuickenMemoryFile) : QuickenMemoryFile :=
  match q.map_addr_ with
  | some _ => { q with map_addr_ := none, map_size_ := 0 }
  | none => q

/-- Source function `memory_copy`: the returned length and the bytes written to `dst`. -/
def memory_copy (data : Nat → Nat) (copy_size offset data_size : Nat) : Nat × List Nat :=
  if offset ≥ data_size then (0, [])
  else
    let bytes_left := data_size - offset
    let actual_len := min bytes_left copy_size
    (actual_len, (List.range actual_len).map (fun i => data (offset + i)))

/-- The bytes a fresh private mapping of the file shows from `aligned_offset`
on: the bytes of the file, and zero past its end. -/
def fileMapping (bytes : List Nat) (aligned_offset : Nat) : Nat → Nat :=
  fun i => bytes.getD (aligned_offset + i) 0

/-- The mapping offset `offset & ~(getpagesize() - 1)`, in 64 bits. -/
def alignedOffset (env : FileEnv) (offset : Nat) : Nat :=
  offset &&& (2 ^ 64 - 1 - (env.pagesize - 1))

/-- The length handed to `mmap`: `st_size - aligned_offset`, truncated to
`max_size = size + offset_` when that sum does not overflow 64 bits and is
smaller. -/
def mapLength (env : FileEnv) (st_size offset size : Nat) : Nat :=
  let max_size := size + (offset &&& (env.pagesize - 1))
  if max_size < 2 ^ 64 ∧ max_size < st_size - alignedOffset env offset then max_size
  else st_size - alignedOffset env offset

/-- Source function `QuickenMemoryFile::Init`: the returned `bool` and the state left behind.
`size` is a `uint64_t`. -/
def QuickenMemoryFile.Init (env : FileEnv) (q : QuickenMemoryFile) (file : String)
    (offset size : Nat) : Bool × QuickenMemoryFile :=
  let q := q.Clear
  let slice_size := if offset = 0 then env.QUICKEN_MEMORY_SLICE else 0
  let q := { q with slice_size_ := slice_size }
  match env.files file with
  | none => (false, q)
  | some bytes =>
    let st_size := bytes.length
    if offset ≥ st_size then (false, q)
    else
      let offset_ := offset &&& (env.pagesize - 1)
      let q := { q with offset_ := offset_ }
      let aligned_offset := alignedOffset env offset
      if aligned_offset > st_size ∨ offset > st_size then (false, q)
      else
        let size_ := mapLength env st_size offset size
        let q := { q with size_ := size_ }
        if env.mmap_ok size_ aligned_offset = false then (false, q)
        else
          let map := fileMapping bytes aligned_offset
          (true,
            { q with
              slice_ := if slice_size > 0 then (List.range slice_size).map map else q.slice_
              map_addr_ :=
                some (if slice_size > 0 then fun i => if i < slice_size then 0 else map i
                  else map)
              map_size_ := size_
              size_ := size_ - offset_
              file_ := file
              init_offset_ := offset
              init_size_ := size })

/-- Source function `QuickenMemoryFile::Read`: the returned length and the bytes written to
`dst`. The sum `addr + size` is `uint64_t` arithmetic; inside the inner branch
`size` is above `slice_size_ - addr`, so the subtraction does not wrap. -/
def QuickenMemoryFile.Read (q : QuickenMemoryFile) (addr size : Nat) : Nat × List Nat :=
  if addr < q.slice_size_ then
    let r1 := memory_copy (fun i => q.slice_.getD i 0) size addr q.slice_size_
    if (addr + size) % 2 ^ 64 > q.slice_size_ then
      let size := size - (q.slice_size_ - addr)
      let addr := q.slice_size_
      let r2 := memory_copy q.data_ size addr q.size_
      (r1.1 + r2.1, r1.2 ++ r2.2)
    else r1
  else memory_copy q.data_ size addr q.size_

/-- A `QuickenMemoryFile` right after construction. -/
def QuickenMemoryFile.fresh : QuickenMemoryFile where
  map_addr_ := none
  map_size_ := 0
  offset_ := 0
  size_ := 0
  slice_ := []
  slice_size_ := 0
  file_ := ""
  init_offset_ := 0
  init_size_ := 0

/-- An example environment: pages of 4096 bytes, a slice of `slice` bytes, one
file `"f"` with the given bytes, and `mmap` succeeding for every length above
zero. -/
def exampleFileEnv (slice : Nat) (bytes : List Nat) : FileEnv where
  pagesize := 4096
  QUICKEN_MEMORY_SLICE := slice
  files := fun name => if name = "f" then some bytes else none
  mmap_ok := fun len _ => decide (0 < len)

/-- The default `size` argument of `Init`, `UINT64_MAX`. -/
def UINT64_MAX : Nat := 2 ^ 64 - 1

/-! ### `QuickenMapInfo::CreateQuickenMemory` -/

/-- The arguments of `MemoryRange(process_memory, begin, length, offset)`. -/
structure MemoryRange where
  begin_ : Nat
  length : Nat
  offset : Nat
  deriving DecidableEq, Repr

/-- The memory object that `CreateQuickenMemory` returns: one `MemoryRange`, or
a `MemoryRanges` with the ranges inserted into it, in order of insertion. -/
inductive ProcessMemory where
  | range (r : MemoryRange)
  | ranges (rs : List MemoryRange)
  deriving DecidableEq, Repr

/-- Subtraction of two `uint64_t` values where the code has no guard against a
wrap (the length `end - start` of a neighbouring entry). The differences that
follow a guard (`end <= start`, `offset >= next->offset`,
`prev->offset >= offset`) cannot wrap and are plain subtractions. -/
def sub64 (a b : Nat) : Nat :=
  (a + 2 ^ 64 - b % 2 ^ 64) % 2 ^ 64

/-- Source function `QuickenMapInfo::CreateQuickenMemory`. `IsValidElf` stands for
`Elf::IsValidElf` on a range of the process memory. The answer is the returned
memory object (`none` for null), the entry with its updated fields and the
value of the reference parameter `range_offset_end`. -/
def QuickenMapInfo.CreateQuickenMemory (IsValidElf : MemoryRange → Bool) (mi : QuickenMapInfo)
    (range_offset_end : Nat) : Option ProcessMemory × QuickenMapInfo × Nat :=
  if mi.end_ ≤ mi.start then (none, mi, range_offset_end)
  else
    let mi := { mi with elf_offset := 0, elf_start_offset := 0 }
    if mi.flags &&& MAPS_FLAGS_DEVICE_MAP ≠ 0 then (none, mi, range_offset_end)
    else if mi.flags &&& PROT_READ = 0 ∧ mi.flags &&& PROT_EXEC = 0 then
      (none, mi, range_offset_end)
    else
      let memory : MemoryRange :=
        { begin_ := mi.start, length := mi.end_ - mi.start, offset := 0 }
      if IsValidElf memory then
        match mi.next_real_map_ with
        | none =>
          (some (.range memory), { mi with elf_start_offset := mi.offset },
            mi.end_ - mi.start)
        | some next =>
          if mi.offset ≠ 0 ∨ mi.name.isEmpty ∨ mi.offset ≥ next.offset ∨ next.name ≠ mi.name then
            (some (.range memory), { mi with elf_start_offset := mi.offset },
              mi.end_ - mi.start)
          else
            (some (.ranges [memory,
                { begin_ := next.start, length := sub64 next.end_ next.start,
                  offset := next.offset - mi.offset }]),
              { mi with elf_start_offset := mi.offset },
              ((next.offset - mi.offset) + sub64 next.end_ next.start) % 2 ^ 64)
      else
        match mi.prev_real_map with
        | none => (none, mi, range_offset_end)
        | some prev =>
          if mi.offset = 0 ∨ mi.name.isEmpty ∨ prev.name ≠ mi.name ∨ prev.offset ≥ mi.offset then
            (none, mi, range_offset_end)
          else
            let elf_offset := mi.offset - prev.offset
            (some (.ranges [
                { begin_ := prev.start, length := sub64 prev.end_ prev.start, offset := 0 },
                { begin_ := mi.start, length := mi.end_ - mi.start, offset := elf_offset }]),
              { mi with
                elf_offset := elf_offset
                elf_start_offset := prev.offset
                memory_backed_elf := true },
              (elf_offset + (mi.end_ - mi.start)) % 2 ^ 64)

/-- An example of a split image: the executable mapping `[0x2000, 0x5000)` of
`a.so` at file offset `0x1000`, after the read-only mapping `[0x1000, 0x2000)`
of the same file at offset 0. -/
def exampleExecMap : QuickenMapInfo where
  start := 0x2000
  end_ := 0x5000
  offset := 0x1000
  flags := 5
  name := "a.so"
  prev_real_map :=
    some { start := 0x1000, end_ := 0x2000, offset := 0, flags := 1, name := "a.so" }

/-! ### `QuickenMapInfo::CreateFileQuickenMemory` -/

/-- Whether the string `s` starts with `pre`: `android::base::StartsWith`, and
the test `strncmp(s, pre, strlen(pre)) == 0` on C strings. -/
def StartsWith (s pre : String) : Bool :=
  pre.toList.isPrefixOf s.toList

/-- The two probes of `unwindstack::Elf` on a file memory. `GetInfo` answers
the size it stores through its pointer argument, or `none` for `false`. -/
structure ElfProbe where
  GetInfo : QuickenMemoryFile → Option Nat
  IsValidElf : QuickenMemoryFile → Bool

/-- Source function `QuickenMapInfo::InitFileMemoryFromPreviousReadOnlyMap`: the
returned `bool`, the memory object and the entry. The differences
`end - prev_real_map->end` and `offset - prev_real_map->offset` have no guard
and are `uint64_t` subtractions. -/
def QuickenMapInfo.InitFileMemoryFromPreviousReadOnlyMap (env : FileEnv) (elf : ElfProbe)
    (mi : QuickenMapInfo) (memory : QuickenMemoryFile) :
    Bool × QuickenMemoryFile × QuickenMapInfo :=
  match mi.prev_real_map with
  | none => (false, memory, mi)
  | some prev =>
    if prev.flags ≠ PROT_READ then (false, memory, mi)
    else
      let map_size := sub64 mi.end_ prev.end_
      match memory.Init env mi.name prev.offset map_size with
      | (false, m1) => (false, m1, mi)
      | (true, m1) =>
        match elf.GetInfo m1 with
        | none => (false, m1, mi)
        | some max_size =>
          if max_size < map_size then (false, m1, mi)
          else
            match m1.Init env mi.name prev.offset max_size with
            | (false, m2) => (false, m2, mi)
            | (true, m2) =>
              (true, m2,
                { mi with
                  elf_offset := sub64 mi.offset prev.offset
                  elf_start_offset := prev.offset })

/-- Lines 315-339 of `CreateFileQuickenMemoryImpl`, reached when no ELF is
found at the mapped offset: the whole file is tried as an ELF, then the
previous read-only map, then the current map. `memory` is the memory object
after the first `Init`; `env` is as in `CreateFileQuickenMemoryImpl`. -/
def QuickenMapInfo.probeWholeFile (env : Nat → FileEnv) (elf : ElfProbe) (mi : QuickenMapInfo)
    (memory : QuickenMemoryFile) (map_size : Nat) : Option QuickenMemoryFile × QuickenMapInfo :=
  match memory.Init (env 1) mi.name 0 UINT64_MAX with
  | (ok, m2) =>
    if ok && elf.IsValidElf m2 then
      let mi1 := { mi with elf_offset := mi.offset }
      match mi.prev_real_map with
      | none => (some m2, { mi1 with elf_start_offset := mi.offset })
      | some prev =>
        if prev.offset ≠ 0 ∨ prev.flags ≠ PROT_READ ∨ prev.name ≠ mi.name then
          (some m2, { mi1 with elf_start_offset := mi.offset })
        else (some m2, mi1)
    else
      match mi.InitFileMemoryFromPreviousReadOnlyMap (env 2) elf m2 with
      | (true, m3, mi3) => (some m3, mi3)
      | (false, m3, mi3) =>
        match m3.Init (env 3) mi.name mi.offset map_size with
        | (true, m4) => (some m4, mi3)
        | (false, _) => (none, mi3)

/-- Source function `QuickenMapInfo::CreateFileQuickenMemoryImpl`: the returned
memory object (`none` for null) and the entry. `Init(name, 0)` uses the default
`size` argument `UINT64_MAX`. The function has no guard of its own on
`end - start`, which is a `uint64_t` subtraction.

Every `Init` opens and maps the file anew, and between two of them the file can
be removed or `mmap` can begin to fail. So each attempt to map the file has its
own file system: `env k` is what attempt number `k` on the path taken finds,
where an attempt is one call of `Init` in this function, or the call of
`InitFileMemoryFromPreviousReadOnlyMap`. A file system that does not change
during the call is the constant function. -/
def QuickenMapInfo.CreateFileQuickenMemoryImpl (env : Nat → FileEnv) (elf : ElfProbe)
    (mi : QuickenMapInfo) : Option QuickenMemoryFile × QuickenMapInfo :=
  if StartsWith mi.name "/memfd:" then (none, mi)
  else if mi.offset = 0 then
    match QuickenMemoryFile.fresh.Init (env 0) mi.name 0 UINT64_MAX with
    | (true, m) => (some m, mi)
    | (false, _) => (none, mi)
  else
    let map_size := sub64 mi.end_ mi.start
    match QuickenMemoryFile.fresh.Init (env 0) mi.name mi.offset map_size with
    | (false, _) => (none, mi)
    | (true, m1) =>
      match elf.GetInfo m1 with
      | some max_size =>
        let mi1 := { mi with elf_start_offset := mi.offset }
        if max_size > map_size then
          match m1.Init (env 1) mi.name mi.offset max_size with
          | (true, m2) => (some m2, mi1)
          | (false, m2) =>
            match m2.Init (env 2) mi.name mi.offset map_size with
            | (true, m3) => (some m3, mi1)
            | (false, _) => (none, { mi1 with elf_start_offset := 0 })
        else (some m1, mi1)
      | none => mi.probeWholeFile env elf m1 map_size

/-- Source function `QuickenMapInfo::CreateFileQuickenMemory`: the returned
memory object (`none` for null) and the entry; `env` is as in
`CreateFileQuickenMemoryImpl`. -/
def QuickenMapInfo.CreateFileQuickenMemory (env : Nat → FileEnv) (elf : ElfProbe)
    (mi : QuickenMapInfo) : Option QuickenMemoryFile × QuickenMapInfo :=
  if mi.end_ ≤ mi.start then (none, mi)
  else
    let mi := { mi with elf_offset := 0 }
    if mi.flags &&& MAPS_FLAGS_DEVICE_MAP ≠ 0 then (none, mi)
    else if !mi.name.isEmpty then mi.CreateFileQuickenMemoryImpl env elf
    else (none, mi)

/-- An example file system for the map registry: 4096-byte pages, a slice of 16
bytes, and the one file `"a.so"` of 0x5000 zero bytes. -/
def exampleSoEnv : FileEnv where
  pagesize := 4096
  QUICKEN_MEMORY_SLICE := 16
  files := fun name => if name = "a.so" then some (List.replicate 0x5000 0) else none
  mmap_ok := fun len _ => decide (0 < len)

/-- An example ELF probe: a file memory is a valid ELF exactly when it was
initialised at file offset 0, and then `GetInfo` reports its readable size. -/
def exampleElfProbe : ElfProbe where
  GetInfo := fun m => if m.init_offset_ = 0 then some m.size_ else none
  IsValidElf := fun m => decide (m.init_offset_ = 0)

/-- The executable mapping of `exampleExecMap` in a state in which
`elf_start_offset` holds the file offset `0x1000`, the value that line 408 of
`CreateQuickenMemory` writes, and not the 0 of an entry just constructed. -/
def exampleStaleMap : QuickenMapInfo :=
  { exampleExecMap with elf_start_offset := 0x1000 }

/-- An example of a self-contained image: the mapping `[0x7000, 0x9000)` of
`b.so` at file offset 0, with no following mapping of the same file. -/
def exampleWholeMap : QuickenMapInfo where
  start := 0x7000
  end_ := 0x9000
  offset := 0
  flags := 5
  name := "b.so"

/-- An example of an image embedded in a container: the mapping
`[0x2000, 0x5000)` of `a.so` at file offset `0x1000`. -/
def exampleEmbeddedMap : QuickenMapInfo where
  start := 0x2000
  end_ := 0x5000
  offset := 0x1000
  flags := 5
  name := "a.so"

/-- An example ELF probe that finds an ELF of `0x2000` bytes in every file
memory. -/
def exampleEmbeddedProbe : ElfProbe where
  GetInfo := fun _ => some 0x2000
  IsValidElf := fun _ => true

/-- An example ELF probe that finds an ELF of `0x4000` bytes, more than the
`0x3000` bytes of the mapping, in every file memory. -/
def exampleLargeProbe : ElfProbe where
  GetInfo := fun _ => some 0x4000
  IsValidElf := fun _ => true

/-- An example of a file that is removed during the call: the first attempt to
map it finds `exampleSoEnv`, every later one finds no file. -/
def exampleVanishingEnv : Nat → FileEnv :=
  fun k => if k = 0 then exampleSoEnv else { exampleSoEnv with files := fun _ => none }

/-! ### `Maps::ParseImpl` and `Maps::Parse` -/

/-- One mapping as `android::procinfo::ReadMapFile` hands it to the callback. -/
structure MapLine where
  start : Nat
  end_ : Nat
  flags : Nat
  pgoff : Nat
  name : String
  deriving DecidableEq, Repr

/-- What `ParseImpl` takes from outside: the mappings that `ReadMapFile` reports,
in order, its return value, and `MapInfo::IsBlank` of unwindstack. -/
structure ParseEnv where
  lines : List MapLine
  ret : Bool
  IsBlank : QuickenMapInfo → Bool

/-- The test of the callback: `strncmp(name, "/dev/", 5) == 0` and
`strncmp(name + 5, "ashmem/", 7) != 0`. -/
def isDeviceName (name : String) : Bool :=
  StartsWith name "/dev/" && !("ashmem/".toList.isPrefixOf (name.toList.drop 5))

/-- The flags of the callback after `flags |= MAPS_FLAGS_DEVICE_MAP` for a
device name. -/
def markDevice (flags : Nat) (name : String) : Nat :=
  if isDeviceName name then flags ||| MAPS_FLAGS_DEVICE_MAP else flags

/-- The fields of an entry as seen through a pointer to it. -/
def QuickenMapInfo.toRef (mi : QuickenMapInfo) : MapInfoRef where
  start := mi.start
  end_ := mi.end_
  offset := mi.offset
  flags := mi.flags
  name := mi.name

/-- Modelled from the spec: the constructor
`QuickenMapInfo(prev_map, prev_real_map, start, end, pgoff, flags, name)`, whose
declaration (`QuickenMaps.h`) is not among the sources. The entry holds its
range, file offset, flags and name and the link to `prev_real_map` (section 3,
MapEntry); the derived fields start at zero. The link `prev_map` is read by no
code among the sources and is left out. -/
def QuickenMapInfo.new (prev_real_map : Option MapInfoRef) (start end_ pgoff flags : Nat)
    (name : String) : QuickenMapInfo where
  start := start
  end_ := end_
  offset := pgoff
  flags := flags
  name := name
  prev_real_map := prev_real_map

/-- The local variables of `ParseImpl` that the callback works on; `prev_map` and
`prev_real_map` are pointers to entries already built. -/
structure ParseState where
  prev_map : Option MapInfoRef
  prev_real_map : Option MapInfoRef
  tmp_maps : List QuickenMapInfo
  tmp_idx : Nat
  tmp_capacity : Nat
  deriving DecidableEq, Repr

/-- The constant `CAPACITY_INCREMENT`. -/
def CAPACITY_INCREMENT : Nat := 1024

/-- The callback of `ParseImpl` for one mapping. The array `tmp_maps` is the
list of its written cells; the write at `tmp_idx` appends one cell. -/
def parseCallback (IsBlank : QuickenMapInfo → Bool) (st : ParseState) (l : MapLine) :
    ParseState :=
  let flags := markDevice l.flags l.name
  let entry := QuickenMapInfo.new st.prev_real_map l.start l.end_ l.pgoff flags l.name
  let st :=
    { st with
      prev_map := some entry.toRef
      tmp_maps := st.tmp_maps ++ [entry]
      tmp_idx := st.tmp_idx + 1 }
  let st := if !IsBlank entry then { st with prev_real_map := some entry.toRef } else st
  if st.tmp_idx = st.tmp_capacity then
    { st with tmp_capacity := st.tmp_capacity + CAPACITY_INCREMENT }
  else st

/-- The state of `ParseImpl` after all callbacks. -/
def parseLines (env : ParseEnv) (capacity : Nat) : ParseState :=
  env.lines.foldl (parseCallback env.IsBlank)
    { prev_map := none, prev_real_map := none, tmp_maps := [], tmp_idx := 0,
      tmp_capacity := capacity }

/-- Source function `Maps::ParseImpl`: the returned `bool` and the snapshot.
The answer is `none` when `CHECK(maps_capacity_ != 0)` aborts the process. -/
def Maps.ParseImpl (env : ParseEnv) (m : Maps) : Option (Bool × Maps) :=
  if m.maps_capacity_ = 0 then none
  else
    let st := parseLines env m.maps_capacity_
    if env.ret then
      some (true,
        { m with
          local_maps_ := some st.tmp_maps
          maps_capacity_ := st.tmp_capacity
          maps_size_ := st.tmp_idx })
    else some (false, m)

/-- Modelled from the spec: the constructor `Maps(capacity)`, whose declaration
(`QuickenMaps.h`) is not among the sources: an empty snapshot that remembers
the capacity to start from. -/
def Maps.new (capacity : Nat) : Maps where
  local_maps_ := none
  maps_size_ := 0
  maps_capacity_ := capacity

/-- The static members of `Maps` behind `maps_lock_`. The `Maps` objects built so
far are kept by address (their position in `objects`); `current_maps_` is the
address of the current snapshot. -/
structure MapsWorld where
  objects : List Maps
  current_maps_ : Option Nat
  latest_maps_capacity_ : Nat
  deriving DecidableEq, Repr

/-- Source function `Maps::Parse(maps)`: the returned `bool` and the static
members; `none` when the `CHECK` of `ParseImpl` aborts. A failed `new_maps` is
dropped at the end of the call. -/
def Maps.Parse (env : ParseEnv) (w : MapsWorld) (maps : Option Nat) :
    Option (Bool × MapsWorld) :=
  if maps ≠ none ∧ maps = w.current_maps_ then some (true, w)
  else
    match (Maps.new w.latest_maps_capacity_).ParseImpl env with
    | none => none
    | some (false, _) => some (false, w)
    | some (true, new_maps) =>
      some (true,
        { objects := w.objects ++ [new_maps]
          current_maps_ := some w.objects.length
          latest_maps_capacity_ := new_maps.maps_capacity_ })

/-- The definition of `MapInfo::IsBlank` in unwindstack. -/
def exampleIsBlank (mi : QuickenMapInfo) : Bool :=
  decide (mi.offset = 0) && decide (mi.flags = 0) && mi.name.isEmpty

/-- An example map file: `a.so` read-only at offset 0, a blank gap, a device
mapping, an ashmem mapping and `b.so`. -/
def exampleParseEnv : ParseEnv where
  lines := [
    { start := 0x1000, end_ := 0x2000, flags := 1, pgoff := 0, name := "a.so" },
    { start := 0x2000, end_ := 0x3000, flags := 0, pgoff := 0, name := "" },
    { start := 0x3000, end_ := 0x4000, flags := 3, pgoff := 0, name := "/dev/kgsl-3d0" },
    { start := 0x4000, end_ := 0x5000, flags := 3, pgoff := 0, name := "/dev/ashmem/x" },
    { start := 0x7000, end_ := 0x9000, flags := 5, pgoff := 0, name := "b.so" }]
  ret := true
  IsBlank := exampleIsBlank

/-- The pointer to the last entry of `es` that is not blank, null when there is
none. -/
def lastReal (IsBlank : QuickenMapInfo → Bool) (es : List QuickenMapInfo) : Option MapInfoRef :=
  (es.reverse.find? (fun e => !IsBlank e)).map QuickenMapInfo.toRef

/-- The mapping data of an entry, to compare it with a line of the map file. -/
def QuickenMapInfo.toLine (mi : QuickenMapInfo) : MapLine where
  start := mi.start
  end_ := mi.end_
  flags := mi.flags
  pgoff := mi.offset
  name := mi.name

/-- An example world before the first `Parse`. -/
def exampleMapsWorld : MapsWorld where
  objects := []
  current_maps_ := none
  latest_maps_capacity_ := CAPACITY_INCREMENT

/-- The snapshot that `ParseImpl` builds from the example map file. -/
def exampleParsedMaps : Maps :=
  (((Maps.new 1024).ParseImpl exampleParseEnv).map Prod.snd).getD (Maps.new 1024)

/-- The map file of the example split image: `a.so` read-only at offset 0, and
its executable part at offset `0x1000`. -/
def exampleSplitParseEnv : ParseEnv where
  lines := [
    { start := 0x1000, end_ := 0x2000, flags := 1, pgoff := 0, name := "a.so" },
    { start := 0x2000, end_ := 0x5000, flags := 5, pgoff := 0x1000, name := "a.so" }]
  ret := true
  IsBlank := exampleIsBlank

/-! ### `QuickenMapInfo::GetQuickenInterface` -/

/-- The values of `QutFileError` that `GetQuickenInterface` tells apart; every
other value is `other`. -/
inductive QutFileError where
  | NoneError
  | TryInvokeJavaRequestQutGenerate
  | other (code : Nat)
  deriving DecidableEq, Repr

/-- What `GetQuickenInterface` reads from an `ElfWrapper` after its `Init`. -/
structure ElfWrapper where
  IsJitCache : Bool
  GetSoname : String
  GetBuildId : String
  GetElfLoadBias : Nat
  HandOverGnuDebugData : Bool
  deriving DecidableEq, Repr

/-- The provider `QuickenInterface`: its address (the number of providers
constructed before it) and the members set by the constructor and by
`InitSoInfo`. The getters `GetLoadBias`, `GetElfOffset` and
`GetElfStartOffset` read the constructor's members. -/
structure QuickenInterface where
  address : Nat
  load_bias_ : Nat
  elf_offset_ : Nat
  elf_start_offset_ : Nat
  sopath_ : String
  soname_ : String
  build_id_ : String
  hash_ : String
  jit_cache_ : Bool
  deriving DecidableEq, Repr

/-- A `QuickenMapInfo` object with the members that hold its provider. -/
structure QuickenMapEntry extends QuickenMapInfo where
  quicken_interface_ : Option QuickenInterface := none
  quicken_interface_atomic_ : Option QuickenInterface := none
  quicken_interface_failed_ : Bool := false
  name_without_delete : String := ""
  maybe_java : Bool := false
  elf_load_bias_ : Nat := 0
  deriving DecidableEq, Repr

/-- What `GetQuickenInterface` takes from outside. `ElfWrapperInit` stands for
`ElfWrapper::Init(this, ...)`: it answers the wrapper (`none` when `Init`
returns false) and the values it leaves in `elf_offset`, `elf_start_offset`
and `memory_backed_elf` of the entry, the fields that `CreateFileQuickenMemory`
and `CreateQuickenMemory` set. -/
structure InterfaceEnv where
  RemoveMapsDeleteSuffix : String → String
  IsSoFile : String → Bool
  ElfWrapperInit : QuickenMapEntry → Option ElfWrapper × Nat × Nat × Bool
  FakeBuildId : String → String
  SplitSonameFromPath : String → String
  FileSize : String → Nat
  ToHash : String → String
  TryInitQuickenTable : QuickenInterface → QutFileError
  quicken_in_memory_enable_ : Bool

/-- A call that leaves `GetQuickenInterface`, as recorded in the world. -/
inductive Call where
  | ElfWrapperInit (name : String) (start end_ : Nat)
  | InitDebugJit (address : Nat)
  | TryInitQuickenTable (address : Nat)
  | FillQuickenInMemory (address : Nat)
  | RecordQutRequestInterface (address : Nat)
  | ReleaseFileBackedElf (address : Nat)
  deriving DecidableEq, Repr

/-- The static members behind `QuickenMapInfo::lock_`: the map
`cached_quicken_interface_` (the first pair with a key counts), the number of
providers constructed so far, and the calls made so far, oldest first. -/
structure InterfaceWorld where
  cached_quicken_interface_ : List (String × QuickenInterface)
  constructed : Nat
  calls : List Call
  deriving DecidableEq, Repr

/-- Source function `QuickenInterface::InitSoInfo` applied to a provider; the
argument `soname` is not used by the source. -/
def QuickenInterface.InitSoInfo (env : InterfaceEnv) (qi : QuickenInterface)
    (sopath _soname build_id : String) (elf_start_offset : Nat) (jit_cache : Bool) :
    QuickenInterface :=
  { qi with
    jit_cache_ := jit_cache
    soname_ := if jit_cache then sopath else env.SplitSonameFromPath sopath
    sopath_ := sopath
    build_id_ := build_id
    hash_ := env.ToHash (sopath ++ toString (env.FileSize sopath) ++ toString elf_start_offset) }

/-- Source function `QuickenMapInfo::CreateQuickenInterfaceFromElf`: the
provider built at `address`. -/
def CreateQuickenInterfaceFromElf (env : InterfaceEnv) (address : Nat) (so_path so_name : String)
    (load_bias_ elf_offset elf_start_offset : Nat) (build_id : String) (jit_cache : Bool) :
    QuickenInterface :=
  QuickenInterface.InitSoInfo env
    { address := address, load_bias_ := load_bias_, elf_offset_ := elf_offset,
      elf_start_offset_ := elf_start_offset, sopath_ := "", soname_ := "", build_id_ := "",
      hash_ := "", jit_cache_ := false }
    so_path so_name build_id elf_start_offset jit_cache

/-- The key `so_key` of `GetQuickenInterface`. -/
def so_key (name_without_delete : String) (start end_ : Nat) : String :=
  name_without_delete ++ ":" ++ toString start ++ ":" ++ toString end_

/-- Lines 135-151 of `GetQuickenInterface`: the calls made on a new provider. -/
def constructionCalls (env : InterfaceEnv) (interface : QuickenInterface)
    (elf_wrapper : ElfWrapper) : List Call :=
  (if elf_wrapper.IsJitCache then [Call.InitDebugJit interface.address]
    else
      let ret := env.TryInitQuickenTable interface
      [Call.TryInitQuickenTable interface.address]
        ++ (if ret ≠ .NoneError ∧ env.quicken_in_memory_enable_ = true then
              if elf_wrapper.HandOverGnuDebugData then
                [Call.FillQuickenInMemory interface.address]
              else []
            else [])
        ++ (if ret = .TryInvokeJavaRequestQutGenerate then
              [Call.RecordQutRequestInterface interface.address]
            else []))
    ++ [Call.ReleaseFileBackedElf interface.address]

/-- Lines 75-79 of `GetQuickenInterface`: the entry after `name_without_delete`
and `maybe_java` are set. -/
def QuickenMapEntry.withNames (env : InterfaceEnv) (mi : QuickenMapEntry) : QuickenMapEntry :=
  { mi with
    name_without_delete := env.RemoveMapsDeleteSuffix mi.name
    maybe_java := !env.IsSoFile (env.RemoveMapsDeleteSuffix mi.name) }

/-- The key under which `GetQuickenInterface` looks the entry up. -/
def QuickenMapEntry.key (env : InterfaceEnv) (mi : QuickenMapEntry) : String :=
  so_key (env.RemoveMapsDeleteSuffix mi.name) mi.start mi.end_

/-- Lines 93-154 of `GetQuickenInterface`, reached after a miss in the cache:
`ElfWrapper::Init`, and on success the construction of the provider, the calls
on it and its entry in the cache. `mi` is the entry with its names set. -/
def QuickenMapEntry.construct (env : InterfaceEnv) (w : InterfaceWorld) (mi : QuickenMapEntry)
    (key : String) : Option QuickenInterface × InterfaceWorld × QuickenMapEntry :=
  let w := { w with calls := w.calls ++ [Call.ElfWrapperInit mi.name mi.start mi.end_] }
  match env.ElfWrapperInit mi with
  | (none, elf_offset, elf_start_offset, memory_backed_elf) =>
    (none, w,
      { mi with
        elf_offset := elf_offset
        elf_start_offset := elf_start_offset
        memory_backed_elf := memory_backed_elf
        quicken_interface_failed_ := true })
  | (some elf_wrapper, elf_offset, elf_start_offset, memory_backed_elf) =>
    let is_jit_cache := elf_wrapper.IsJitCache
    let build_id := if is_jit_cache then "" else elf_wrapper.GetBuildId
    let elf_load_bias_ :=
      if is_jit_cache then mi.elf_load_bias_ else elf_wrapper.GetElfLoadBias
    let build_id :=
      if build_id.isEmpty then env.FakeBuildId mi.name_without_delete else build_id
    let interface :=
      CreateQuickenInterfaceFromElf env w.constructed mi.name_without_delete
        elf_wrapper.GetSoname elf_load_bias_ elf_offset elf_start_offset build_id
        is_jit_cache
    (some interface,
      { cached_quicken_interface_ := (key, interface) :: w.cached_quicken_interface_
        constructed := w.constructed + 1
        calls := w.calls ++ constructionCalls env interface elf_wrapper },
      { mi with
        elf_offset := elf_offset
        elf_start_offset := elf_start_offset
        memory_backed_elf := memory_backed_elf
        elf_load_bias_ := elf_load_bias_
        quicken_interface_ := some interface
        quicken_interface_atomic_ := some interface })

/-- Lines 75-154 of `GetQuickenInterface`, the body of
`if (!quicken_interface_ & !quicken_interface_failed_)`: the names are set, then
the provider comes from the cache or is constructed. -/
def QuickenMapEntry.lookupOrConstruct (env : InterfaceEnv) (w : InterfaceWorld)
    (mi : QuickenMapEntry) : Option QuickenInterface × InterfaceWorld × QuickenMapEntry :=
  match w.cached_quicken_interface_.lookup (mi.key env) with
  | some it =>
    (some it, w,
      { mi.withNames env with
        quicken_interface_ := some it
        elf_load_bias_ := it.load_bias_
        elf_offset := it.elf_offset_
        elf_start_offset := it.elf_start_offset_
        quicken_interface_atomic_ := some it })
  | none => (mi.withNames env).construct env w (mi.key env)

/-- Source function `QuickenMapInfo::GetQuickenInterface`, for one thread: the
returned pointer, the static members and the entry. -/
def QuickenMapEntry.GetQuickenInterface (env : InterfaceEnv) (w : InterfaceWorld)
    (mi : QuickenMapEntry) : Option QuickenInterface × InterfaceWorld × QuickenMapEntry :=
  match mi.quicken_interface_atomic_ with
  | some interface => (some interface, w, mi)
  | none =>
    if mi.quicken_interface_failed_ then (none, w, mi)
    else if mi.quicken_interface_.isNone && !mi.quicken_interface_failed_ then
      mi.lookupOrConstruct env w
    else (mi.quicken_interface_, w, { mi with quicken_interface_atomic_ := mi.quicken_interface_ })

/-- An example environment: the suffix " (deleted)" is not present in any name,
`ElfWrapper::Init` succeeds exactly for an entry at file offset 0 and leaves the
ELF fields of the entry as they are, and `TryInitQuickenTable` asks for a
deferred generation. -/
def exampleInterfaceEnv : InterfaceEnv where
  RemoveMapsDeleteSuffix := fun name => name
  IsSoFile := fun _ => true
  ElfWrapperInit := fun mi =>
    (if mi.offset = 0 then
        some { IsJitCache := false, GetSoname := "a.so", GetBuildId := "", GetElfLoadBias := 0,
               HandOverGnuDebugData := false }
      else none,
      mi.elf_offset, mi.elf_start_offset, mi.memory_backed_elf)
  FakeBuildId := fun name => name
  SplitSonameFromPath := fun path => path
  FileSize := fun _ => 0x5000
  ToHash := fun text => text
  TryInitQuickenTable := fun _ => .TryInvokeJavaRequestQutGenerate
  quicken_in_memory_enable_ := false

/-- An example world with an empty cache. -/
def exampleInterfaceWorld : InterfaceWorld where
  cached_quicken_interface_ := []
  constructed := 0
  calls := []

/-- An example entry: the mapping `[0x1000, 0x2000)` of `a.so` at the given file
offset, with no provider yet. -/
def exampleEntry (offset : Nat) : QuickenMapEntry where
  start := 0x1000
  end_ := 0x2000
  offset := offset
  flags := 5
  name := "a.so"

/-- The entry `exampleEntry 0x1000` after a call of `GetQuickenInterface` in
the example world: `ElfWrapper::Init` has failed for it. -/
def exampleFailedEntry : QuickenMapEntry :=
  ((exampleEntry 0x1000).GetQuickenInterface exampleInterfaceEnv exampleInterfaceWorld).2.2

/-- The world after the failed call on `exampleEntry 0x1000` and a call on
`exampleEntry 0`, an entry with the same name, start and end. -/
def exampleCachedWorld : InterfaceWorld :=
  ((exampleEntry 0).GetQuickenInterface exampleInterfaceEnv
    ((exampleEntry 0x1000).GetQuickenInterface exampleInterfaceEnv exampleInterfaceWorld).2.1).2.1

/-- The provider that the call on `exampleEntry 0` constructs. -/
def exampleProvider : QuickenInterface where
  address := 0
  load_bias_ := 0
  elf_offset_ := 0
  elf_start_offset_ := 0
  sopath_ := "a.so"
  soname_ := "a.so"
  build_id_ := "a.so"
  hash_ := "a.so204800"
  jit_cache_ := false

/-- The wrapper that `ElfWrapper::Init` of the example environment answers. -/
def exampleElfWrapper : ElfWrapper where
  IsJitCache := false
  GetSoname := "a.so"
  GetBuildId := ""
  GetElfLoadBias := 0
  HandOverGnuDebugData := false

/-! ### `QuickenInterface::InitSoInfo`: the input of the hash -/

/-- The argument of `ToHash` in `QuickenInterface::InitSoInfo` (lines 114-115):
`sopath_ + std::to_string(FileSize(sopath)) + std::to_string(elf_start_offset)`,
for the value `file_size` of `FileSize(sopath)`. -/
def hashInput (sopath : String) (file_size elf_start_offset : Nat) : String :=
  sopath ++ toString file_size ++ toString elf_start_offset

/-- The number that a list of decimal digits stands for, continuing from `acc`. -/
def decimalValue (cs : List Char) (acc : Nat) : Nat :=
  cs.foldl (fun a c => a * 10 + (c.toNat - 48)) acc

/-- The example environment with a file size of `size` for every path. -/
def exampleSizeEnv (size : Nat) : InterfaceEnv :=
  { exampleInterfaceEnv with FileSize := fun _ => size }

/-! ### `DwarfEhFrameWithHdrDecoder::Init` -/

/-- Lines 44-47 of `Init`: the memory cursor after `clear_func_offset`,
`clear_text_offset`, `set_data_offset(offset)` and `set_cur_offset(offset)`. -/
def DwarfEhFrameWithHdrDecoder.initMemory (d : DwarfEhFrameWithHdrDecoder) (offset : Nat) :
    DwarfMemory :=
  { d.memory_ with
    func_offset := none
    text_offset := none
    data_offset := offset
    cur_offset := offset }

/-- Source function `DwarfEhFrameWithHdrDecoder::Init`: the returned `bool` and
the decoder state. `ReadBytes` answers the four bytes `data[0..3]`. A read of an
encoded value that fails leaves the cursor where the environment says; what it
leaves in its output variable is not modelled (`fde_count_` keeps its value). -/
def DwarfEhFrameWithHdrDecoder.Init (env : DecoderEnv) (d : DwarfEhFrameWithHdrDecoder)
    (offset : Nat) (section_bias : Int) : Bool × DwarfEhFrameWithHdrDecoder :=
  let m0 := d.initMemory offset
  let d := { d with memory_ := m0, hdr_section_bias_ := section_bias }
  match env.ReadBytes m0 4 with
  | (none, cur) =>
    (false,
      { d with
        memory_ := { m0 with cur_offset := cur }
        last_error_ := { code := .DWARF_ERROR_MEMORY_INVALID, address := cur } })
  | (some data, cur) =>
    let d := { d with memory_ := { m0 with cur_offset := cur }, version_ := data.getD 0 0 }
    if data.getD 0 0 ≠ 1 then
      (false,
        { d with last_error_ := { d.last_error_ with code := .DWARF_ERROR_UNSUPPORTED_VERSION } })
    else
      let ptr_encoding := data.getD 1 0
      let fde_count_encoding := data.getD 2 0
      let d :=
        { d with
          table_encoding_ := data.getD 3 0
          table_entry_size_ := env.GetEncodedSize (data.getD 3 0) }
      if env.GetEncodedSize (data.getD 3 0) = 0 then
        (false,
          { d with last_error_ := { d.last_error_ with code := .DWARF_ERROR_ILLEGAL_VALUE } })
      else
        let m1 : DwarfMemory := { m0 with cur_offset := cur, pc_offset := cur }
        match env.ReadEncodedValue m1 ptr_encoding with
        | (none, cur2) =>
          (false,
            { d with
              memory_ := { m1 with cur_offset := cur2 }
              last_error_ := { code := .DWARF_ERROR_MEMORY_INVALID, address := cur2 } })
        | (some _, cur2) =>
          let m2 : DwarfMemory := { m1 with cur_offset := cur2, pc_offset := cur2 }
          match env.ReadEncodedValue m2 fde_count_encoding with
          | (none, cur3) =>
            (false,
              { d with
                memory_ := { m2 with cur_offset := cur3 }
                last_error_ := { code := .DWARF_ERROR_MEMORY_INVALID, address := cur3 } })
          | (some fde_count, cur3) =>
            let d := { d with memory_ := { m2 with cur_offset := cur3 }, fde_count_ := fde_count }
            if fde_count = 0 then
              (false,
                { d with last_error_ := { d.last_error_ with code := .DWARF_ERROR_NO_FDES } })
            else
              (true, { d with hdr_entries_offset_ := cur3, hdr_entries_data_offset_ := offset })

/-- An example memory that starts with the four header bytes `hdr`, followed by
32-bit words: `ReadBytes` at cursor 0 for the length of `hdr` gives `hdr`, and
the encoded values are the words of `ws` as in `wordMemory` (word 0 holds the
header). -/
def headerMemory (hdr ws : List Nat) : DecoderEnv :=
  { wordMemory ws with
    ReadBytes := fun m n =>
      if m.cur_offset = 0 ∧ n = hdr.length then (some hdr, n) else (none, m.cur_offset) }

/-- An example header: version 1, pointer encoding `0x1b`, count encoding
`0x03`, table encoding `0x3b`; then the pointer word, the count 2 and the table
`(10,100), (20,200)`. -/
def exampleHeaderMemory (version count : Nat) : DecoderEnv :=
  headerMemory [version, 0x1b, 0x03, 0x3b] [0, 0x40, count, 10, 100, 20, 200]

/-! ### `DwarfEhFrameDecoder` and `DwarfDebugFrameDecoder` -/

/-- State of `DwarfEhFrameDecoder<AddressType>`: the state of the base class; its
three functions read the cursor `memory_.cur_offset()`. -/
structure DwarfEhFrameDecoder extends DwarfSectionDecoder

/-- State of `DwarfDebugFrameDecoder<AddressType>`: the state of the base class
with the base member `entries_offset_`, which its functions read, and the two
CIE marker values that its constructor sets. -/
structure DwarfDebugFrameDecoder extends DwarfSectionDecoder where
  entries_offset_ : Nat
  cie32_value_ : Nat := 2 ^ 32 - 1
  cie64_value_ : Nat := 2 ^ 64 - 1

/-- Source function `DwarfEhFrameDecoder::GetCieOffsetFromFde32`:
`cur_offset() - pointer - 4` in `uint64_t` arithmetic, for a `uint32_t`
pointer. -/
def DwarfEhFrameDecoder.GetCieOffsetFromFde32 (d : DwarfEhFrameDecoder) (pointer : Nat) : Nat :=
  sub64 (sub64 (d.memory_.cur_offset % 2 ^ 64) (pointer % 2 ^ 32)) 4

/-- Source function `DwarfEhFrameDecoder::GetCieOffsetFromFde64`:
`cur_offset() - pointer - 8` in `uint64_t` arithmetic. -/
def DwarfEhFrameDecoder.GetCieOffsetFromFde64 (d : DwarfEhFrameDecoder) (pointer : Nat) : Nat :=
  sub64 (sub64 (d.memory_.cur_offset % 2 ^ 64) (pointer % 2 ^ 64)) 8

/-- Source function `DwarfEhFrameDecoder::AdjustPcFromFde`:
`pc + cur_offset() - 4` in `uint64_t` arithmetic. -/
def DwarfEhFrameDecoder.AdjustPcFromFde (d : DwarfEhFrameDecoder) (pc : Nat) : Nat :=
  sub64 ((pc % 2 ^ 64 + d.memory_.cur_offset % 2 ^ 64) % 2 ^ 64) 4

/-- Source function `DwarfDebugFrameDecoder::GetCieOffsetFromFde32`:
`entries_offset_ + pointer` in `uint64_t` arithmetic, for a `uint32_t` pointer. -/
def DwarfDebugFrameDecoder.GetCieOffsetFromFde32 (d : DwarfDebugFrameDecoder) (pointer : Nat) :
    Nat :=
  (d.entries_offset_ % 2 ^ 64 + pointer % 2 ^ 32) % 2 ^ 64

/-- Source function `DwarfDebugFrameDecoder::GetCieOffsetFromFde64`:
`entries_offset_ + pointer` in `uint64_t` arithmetic. -/
def DwarfDebugFrameDecoder.GetCieOffsetFromFde64 (d : DwarfDebugFrameDecoder) (pointer : Nat) :
    Nat :=
  (d.entries_offset_ % 2 ^ 64 + pointer % 2 ^ 64) % 2 ^ 64

/-- Source function `DwarfDebugFrameDecoder::AdjustPcFromFde`: `return pc;`. -/
def DwarfDebugFrameDecoder.AdjustPcFromFde (_d : DwarfDebugFrameDecoder) (pc : Nat) : Nat :=
  pc

/-- An example exception-frame decoder with the cursor at `cur`. -/
def exampleEhFrameDecoder (cur : Nat) : DwarfEhFrameDecoder where
  memory_ := { cur_offset := cur, data_offset := 0, pc_offset := 0,
               func_offset := none, text_offset := none }
  last_error_ := { code := .DWARF_ERROR_NONE, address := 0 }
  fdes_ := []
  next_entries_ := []

/-- An example debug-frame decoder whose section starts at `entries_offset`. -/
def exampleDebugFrameDecoder (entries_offset : Nat) : DwarfDebugFrameDecoder where
  memory_ := { cur_offset := 0, data_offset := 0, pc_offset := 0,
               func_offset := none, text_offset := none }
  last_error_ := { code := .DWARF_ERROR_NONE, address := 0 }
  fdes_ := []
  next_entries_ := []
  entries_offset_ := entries_offset

/-! ### `QuickenMemoryLocal` -/

/-- The bytes that `memcpy` reads from the `len` addresses starting at `src` of
the process memory `mem`, in which an address that is not mapped holds `none`;
the answer is `none` when one of the addresses is not mapped (the copy faults). -/
def copyLocal (mem : Nat → Option Nat) (src : Nat) : Nat → Option (List Nat)
  | 0 => some []
  | len + 1 =>
    match mem src, copyLocal mem (src + 1) len with
    | some b, some bs => some (b :: bs)
    | _, _ => none

/-- Source function `QuickenMemoryLocal::Read`: `memcpy(dst, (const void *)
remote_src, len); return len;` in a process with pointers of `ptr_bits` bits.
The answer is the returned count and the bytes written to `dst`, `none` when the
copy faults. -/
def QuickenMemoryLocal.Read (ptr_bits : Nat) (mem : Nat → Option Nat) (remote_src len : Nat) :
    Option (Nat × List Nat) :=
  match copyLocal mem (remote_src % 2 ^ ptr_bits) len with
  | some bytes => some (len, bytes)
  | none => none

/-- Source function `QuickenMemoryLocal::ReadTag`: `return -1;`. -/
def QuickenMemoryLocal.ReadTag (_addr : Nat) : Int :=
  -1

/-- An example process memory: the addresses `[0x1000, 0x1010)` are mapped and
hold the low byte of their address. -/
def exampleLocalMemory : Nat → Option Nat :=
  fun a => if 0x1000 ≤ a ∧ a < 0x1010 then some (a % 256) else none

/-! ### Example data for `InitFileMemoryFromPreviousReadOnlyMap` -/

/-- An example entry whose previous map belongs to another file: the executable
mapping `[0x3000, 0x5000)` of `a.so` at file offset `0x2000`, after the
read-only mapping `[0x2000, 0x3000)` of `c.so` at file offset `0x1000`. -/
def exampleForeignPrevMap : QuickenMapInfo where
  start := 0x3000
  end_ := 0x5000
  offset := 0x2000
  flags := 5
  name := "a.so"
  prev_real_map :=
    some { start := 0x2000, end_ := 0x3000, offset := 0x1000, flags := 1, name := "c.so" }

/-- An example ELF probe for a container file: an ELF of `0x3000` bytes is found
in a file memory exactly when it was initialised at file offset `0x1000`. -/
def exampleContainerProbe : ElfProbe where
  GetInfo := fun m => if m.init_offset_ = 0x1000 then some 0x3000 else none
  IsValidElf := fun m => decide (m.init_offset_ = 0x1000)

/-! ### Example data: an unordered snapshot -/

/-- An example snapshot whose entries are not in address order and overlap:
`[400,500)`, `[100,300)`, `[200,200)`. -/
def exampleUnorderedMaps : Maps where
  local_maps_ := some [exampleMap 400 500 0 5 "b.so", exampleMap 100 300 0 1 "a.so",
    exampleMap 200 200 0 5 "c.so"]
  maps_size_ := 3
  maps_capacity_ := 1024

/-! ### `QuickenMapInfo::CreateQuickenInterfaceForGenerate` -/

/-- The struct `FrameInfo`: the triple `{offset, section_bias, size}` that the
setters of `QuickenInterface` store. -/
structure FrameInfo where
  offset_ : Nat
  section_bias_ : Int
  size_ : Nat
  deriving DecidableEq, Repr

/-- The three frame sections that `FillQuickenInterfaceForGenerate` reads from an
`ElfInterface`. -/
structure FrameSections where
  eh_frame : FrameInfo
  eh_frame_hdr : FrameInfo
  debug_frame : FrameInfo
  deriving DecidableEq, Repr

/-- What `CreateQuickenInterfaceForGenerate` and
`FillQuickenInterfaceForGenerate` read from an `unwindstack::Elf`: its getters,
whether its arch is `ARCH_ARM`, the result of the cast to `ElfInterfaceArm`
(`start_offset()`, `total_entries()`; `none` when the cast fails), its frame
sections and those of `gnu_debugdata_interface()` (`none` for null). -/
structure Elf where
  GetSoname : String
  GetBuildID : String
  GetLoadBias : Nat
  arch_is_arm : Bool
  interface_arm : Option (Nat × Nat)
  interface : FrameSections
  gnu_debugdata_interface : Option FrameSections
  deriving DecidableEq, Repr

/-- A provider with the frame members that the setters of `QuickenInterface`
write; each starts as `{0}`. -/
structure GeneratingInterface extends QuickenInterface where
  arm_exidx_info_ : FrameInfo := ⟨0, 0, 0⟩
  eh_frame_hdr_info_ : FrameInfo := ⟨0, 0, 0⟩
  eh_frame_info_ : FrameInfo := ⟨0, 0, 0⟩
  debug_frame_info_ : FrameInfo := ⟨0, 0, 0⟩
  gnu_eh_frame_hdr_info_ : FrameInfo := ⟨0, 0, 0⟩
  gnu_eh_frame_info_ : FrameInfo := ⟨0, 0, 0⟩
  gnu_debug_frame_info_ : FrameInfo := ⟨0, 0, 0⟩
  deriving DecidableEq, Repr

/-- Source function `QuickenMapInfo::FillQuickenInterfaceForGenerate`. -/
def FillQuickenInterfaceForGenerate (qi : GeneratingInterface) (elf : Elf) :
    GeneratingInterface :=
  let qi :=
    if elf.arch_is_arm then
      match elf.interface_arm with
      | some (start_offset, total_entries) =>
        { qi with arm_exidx_info_ := ⟨start_offset, 0, total_entries⟩ }
      | none => qi
    else qi
  let qi :=
    { qi with
      eh_frame_info_ := elf.interface.eh_frame
      eh_frame_hdr_info_ := elf.interface.eh_frame_hdr
      debug_frame_info_ := elf.interface.debug_frame }
  match elf.gnu_debugdata_interface with
  | some gnu =>
    { qi with
      gnu_eh_frame_info_ := gnu.eh_frame
      gnu_eh_frame_hdr_info_ := gnu.eh_frame_hdr
      gnu_debug_frame_info_ := gnu.debug_frame }
  | none => qi

/-- Source function `QuickenMapInfo::CreateQuickenInterfaceForGenerate`: the
provider built at `address`. The local `build_id` is a default-constructed
string when it is tested with `empty()`; `build_id_hex` is read and not used.
`ToBuildId` is not among the sources and is a parameter. -/
def CreateQuickenInterfaceForGenerate (env : InterfaceEnv) (ToBuildId : String → String)
    (address : Nat) (sopath : String) (elf : Elf) (elf_start_offset : Nat) :
    GeneratingInterface :=
  let soname := elf.GetSoname
  let _build_id_hex := elf.GetBuildID
  let build_id := ""
  let build_id := if build_id.isEmpty then env.FakeBuildId sopath else ToBuildId sopath
  let quicken_interface_ :=
    CreateQuickenInterfaceFromElf env address sopath soname elf.GetLoadBias 0 elf_start_offset
      build_id false
  FillQuickenInterfaceForGenerate { toQuickenInterface := quicken_interface_ } elf

/-- An example ELF with the given build id. -/
def exampleElf (build_id : String) : Elf where
  GetSoname := "a.so"
  GetBuildID := build_id
  GetLoadBias := 0
  arch_is_arm := false
  interface_arm := none
  interface :=
    { eh_frame := ⟨0x100, 0, 0x40⟩, eh_frame_hdr := ⟨0x80, 0, 0x20⟩, debug_frame := ⟨0, 0, 0⟩ }
  gnu_debugdata_interface := none

/-! ## Definitions: LockFreeQueue (matrix-hooks, `lock_free_queue.h`) -/

/-- The struct `TaggedPointer<Node<T>>`: a node of the fixed storage by its index
(`none` for null) and a tag of type `size_t`. -/
structure TaggedPointer where
  ptr_ : Option Nat
  tag_ : Nat
  deriving DecidableEq, Repr

/-- The struct `Node<T>` for a value type `T` that converts to `bool` and whose
zero bytes are the value 0. -/
structure Node where
  t_ : Nat
  next_ : TaggedPointer
  deriving DecidableEq, Repr

/-- A node of zero bytes, as `objects[Reserved]{0}` and `memset` leave it. -/
def Node.zero : Node where
  t_ := 0
  next_ := { ptr_ := none, tag_ := 0 }

/-- State of a `LockFreeQueue<T>` together with its `FixedFreeList<T, Reserved>`,
which no other queue uses: the array `objects` and the counter `available_` of
the `FixedObjectStorage`, the pointer `free_` of the `FreeList`, and `head_` and
`tail_` of the queue. `size_bits` is the width of `size_t`. -/
structure LockFreeQueue where
  size_bits : Nat
  Reserved : Nat
  objects : Nat → Node
  available_ : Nat
  free_ : Option Nat
  head_ : TaggedPointer
  tail_ : TaggedPointer

/-- A store to the node at index `i`. -/
def LockFreeQueue.setNode (q : LockFreeQueue) (i : Nat) (n : Node) : LockFreeQueue :=
  { q with objects := fun j => if j = i then n else q.objects j }

/-- Source function `FixedObjectStorage::provide`: the index of the node handed
out (`none` for null) and the state. -/
def FixedObjectStorage.provide (q : LockFreeQueue) : Option Nat × LockFreeQueue :=
  let idx := q.available_
  if idx ≥ q.Reserved then (none, { q with available_ := q.Reserved })
  else (some idx, { q with available_ := idx + 1 })

/-- Source function `FreeList::allocate` in a run of one thread: the
compare-exchange finds in `free_` the value just loaded, so the loop body runs
once (a spurious failure of the weak form repeats it from the same state). -/
def FreeList.allocate (q : LockFreeQueue) : Option Nat × LockFreeQueue :=
  match q.free_ with
  | none => FixedObjectStorage.provide q
  | some free_node =>
    let next_node := (q.objects free_node).next_.ptr_
    (some free_node, ({ q with free_ := next_node }).setNode free_node Node.zero)

/-- Source function `FreeList::deallocate` in a run of one thread. -/
def FreeList.deallocate (q : LockFreeQueue) (node : Option Nat) : LockFreeQueue :=
  match node with
  | none => q
  | some node =>
    let q := q.setNode node { q.objects node with next_ := { ptr_ := q.free_, tag_ := 0 } }
    { q with free_ := some node }

/-- The constructor `LockFreeQueue(free_list)` for a new `FixedFreeList`: the
node that `allocate` hands out becomes the dummy, with tag 1. -/
def LockFreeQueue.new (size_bits Reserved : Nat) : LockFreeQueue :=
  let q : LockFreeQueue :=
    { size_bits := size_bits, Reserved := Reserved, objects := fun _ => Node.zero,
      available_ := 0, free_ := none,
      head_ := { ptr_ := none, tag_ := 0 }, tail_ := { ptr_ := none, tag_ := 0 } }
  let dummy : TaggedPointer :=
    { ptr_ := (FreeList.allocate q).1, tag_ := 1 % 2 ^ size_bits }
  { (FreeList.allocate q).2 with head_ := dummy, tail_ := dummy }

/-- The loop of `offer` in a run of one thread: every compare-exchange finds the
value just loaded. The answer is `none` when the loop does not return within
the fuel or dereferences a null `tail_`. -/
def LockFreeQueue.offerLoop (new_node : Nat) :
    Nat → LockFreeQueue → Option (Bool × LockFreeQueue)
  | 0, _ => none
  | fuel + 1, q =>
    let tail := q.tail_
    match tail.ptr_ with
    | none => none
    | some tail_node =>
      let next := (q.objects tail_node).next_
      match next.ptr_ with
      | none =>
        let q := q.setNode tail_node
          { q.objects tail_node with
            next_ := { ptr_ := some new_node, tag_ := (next.tag_ + 1) % 2 ^ q.size_bits } }
        some (true,
          { q with tail_ := { ptr_ := some new_node, tag_ := (tail.tag_ + 1) % 2 ^ q.size_bits } })
      | some next_node =>
        LockFreeQueue.offerLoop new_node fuel
          { q with tail_ := { ptr_ := some next_node, tag_ := (tail.tag_ + 1) % 2 ^ q.size_bits } }

/-- Source function `LockFreeQueue::offer`: the returned `bool` and the state;
`none` when a `HOOK_CHECK` fails or the loop does not return. -/
def LockFreeQueue.offer (fuel : Nat) (q : LockFreeQueue) (t : Nat) :
    Option (Bool × LockFreeQueue) :=
  if t = 0 then none
  else
    match FreeList.allocate q with
    | (none, q) => some (false, q)
    | (some new_node, q) =>
      let q := q.setNode new_node { q.objects new_node with t_ := t }
      if (q.objects new_node).next_.ptr_ ≠ none ∨ (q.objects new_node).next_.tag_ ≠ 0 then none
      else LockFreeQueue.offerLoop new_node fuel q

/-- Source function `LockFreeQueue::poll` in a run of one thread: the returned
`bool`, the content of `ret` after the call and the state; `none` when the loop
does not return within the fuel, `head_` is null or `HOOK_CHECK(ret)` fails. -/
def LockFreeQueue.poll : Nat → LockFreeQueue → Nat → Option ((Bool × Nat) × LockFreeQueue)
  | 0, _, _ => none
  | fuel + 1, q, ret =>
    let head := q.head_
    match head.ptr_ with
    | none => none
    | some head_node =>
      let tail := q.tail_
      let next := (q.objects head_node).next_
      if head = tail then
        match next.ptr_ with
        | none => some ((false, ret), q)
        | some next_node =>
          LockFreeQueue.poll fuel
            { q with
              tail_ := { ptr_ := some next_node, tag_ := (tail.tag_ + 1) % 2 ^ q.size_bits } }
            ret
      else
        match next.ptr_ with
        | none => LockFreeQueue.poll fuel q ret
        | some next_node =>
          let ret := (q.objects next_node).t_
          let q :=
            { q with
              head_ := { ptr_ := some next_node, tag_ := (head.tag_ + 1) % 2 ^ q.size_bits } }
          let q := FreeList.deallocate q (some head_node)
          if ret = 0 then none else some ((true, ret), q)

/-- One call on the queue: `offer(t)`, or `poll(ret)` with the content of its
output argument before the call. -/
inductive QueueOp where
  | offer (t : Nat)
  | poll (ret : Nat)
  deriving DecidableEq, Repr

/-- What a call answers: the `bool` of `offer`, or the `bool` of `poll` with the
content of its output argument after the call. -/
inductive QueueResult where
  | offered (ok : Bool)
  | polled (ok : Bool) (ret : Nat)
  deriving DecidableEq, Repr

/-- A run of one thread: the calls of `ops` one after the other, with their
answers; `none` when one of the calls does not return. -/
def LockFreeQueue.run (fuel : Nat) : LockFreeQueue → List QueueOp →
    Option (List QueueResult × LockFreeQueue)
  | q, [] => some ([], q)
  | q, QueueOp.offer t :: ops =>
    match q.offer fuel t with
    | none => none
    | some (ok, q1) =>
      match LockFreeQueue.run fuel q1 ops with
      | none => none
      | some (rs, q2) => some (QueueResult.offered ok :: rs, q2)
  | q, QueueOp.poll ret :: ops =>
    match q.poll fuel ret with
    | none => none
    | some ((ok, ret1), q1) =>
      match LockFreeQueue.run fuel q1 ops with
      | none => none
      | some (rs, q2) => some (QueueResult.polled ok ret1 :: rs, q2)

/-- The reference behaviour of a first-in first-out queue that holds the values
`vals`, oldest first, and at most `capacity` of them: `offer` appends when there
is room, `poll` takes the oldest value, and on an empty queue leaves `ret`. -/
def fifoRun (capacity : Nat) : List Nat → List QueueOp → List QueueResult
  | _, [] => []
  | vals, QueueOp.offer t :: ops =>
    if vals.length < capacity then QueueResult.offered true :: fifoRun capacity (vals ++ [t]) ops
    else QueueResult.offered false :: fifoRun capacity vals ops
  | vals, QueueOp.poll ret :: ops =>
    match vals with
    | [] => QueueResult.polled false ret :: fifoRun capacity [] ops
    | v :: rest => QueueResult.polled true v :: fifoRun capacity rest ops

/-- The values that the reference queue holds after the calls `ops`. -/
def fifoValues (capacity : Nat) : List Nat → List QueueOp → List Nat
  | vals, [] => vals
  | vals, QueueOp.offer t :: ops =>
    if vals.length < capacity then fifoValues capacity (vals ++ [t]) ops
    else fifoValues capacity vals ops
  | vals, QueueOp.poll _ :: ops =>
    match vals with
    | [] => fifoValues capacity [] ops
    | _ :: rest => fifoValues capacity rest ops

/-- The last node of the chain that starts with `h` and goes on with `body`. -/
def lastOf (h : Nat) : List Nat → Nat
  | [] => h
  | b :: rest => lastOf b rest

/-- The nodes of `l` are linked through `next_`, each to the one after it, the
last to null. -/
def Linked (objs : Nat → Node) : List Nat → Prop
  | [] => True
  | a :: rest => (objs a).next_.ptr_ = rest.head? ∧ Linked objs rest

/-- The state `q` holds the values `vals`: the chain from the dummy `h` through
`body` carries them, `fl` is the free list, `extra` are nodes handed out and not
linked yet, and the nodes from `available_` on are untouched. -/
structure Holds (q : LockFreeQueue) (h : Nat) (body fl extra : List Nat) (vals : List Nat) :
    Prop where
  head_ptr : q.head_.ptr_ = some h
  tail_ptr : q.tail_.ptr_ = some (lastOf h body)
  linked : Linked q.objects (h :: body)
  values : body.map (fun i => (q.objects i).t_) = vals
  nonzero : ∀ v ∈ vals, v ≠ 0
  free_ptr : q.free_ = fl.head?
  free_linked : Linked q.objects fl
  nodup : (h :: body ++ fl ++ extra).Nodup
  below : ∀ i ∈ h :: body ++ fl ++ extra, i < q.available_
  count : (h :: body ++ fl ++ extra).length = q.available_
  avail : q.available_ ≤ q.Reserved
  untouched : ∀ i, q.available_ ≤ i → q.objects i = Node.zero
  head_tag : q.head_.tag_ < 2 ^ q.size_bits
  tail_tag : q.tail_.tag_ = (q.head_.tag_ + vals.length) % 2 ^ q.size_bits

/-- The reference behaviour of a first-in first-out queue without a bound, for
runs whose offers all succeed: `offer` appends the value, a successful `poll`
returns the oldest value offered and not yet polled, and `poll` on an empty
queue returns false and leaves `ret` as it was. -/
def fifoAnswers : List Nat → List QueueOp → List QueueResult
  | _, [] => []
  | vals, QueueOp.offer t :: ops => QueueResult.offered true :: fifoAnswers (vals ++ [t]) ops
  | vals, QueueOp.poll ret :: ops =>
    match vals with
    | [] => QueueResult.polled false ret :: fifoAnswers [] ops
    | v :: rest => QueueResult.polled true v :: fifoAnswers rest ops

/-! ## Theorems -/

/-! ### Reading and memoizing index entries -/

theorem ReadFdeInfo_sameTable (env : DecoderEnv) {d d' : DwarfEhFrameWithHdrDecoder}
    (h : SameTable d d') (i : Nat) : ReadFdeInfo env d' i = ReadFdeInfo env d i := by
  simp only [ReadFdeInfo, entryCursor, h.func, h.text, h.enc, h.size, h.off, h.data, h.bias]

theorem ReadFdeInfo_func_offset (env : DecoderEnv) (d : DwarfEhFrameWithHdrDecoder) (i : Nat) :
    (ReadFdeInfo env d i).2.func_offset = d.memory_.func_offset
      ∧ (ReadFdeInfo env d i).2.text_offset = d.memory_.text_offset := by
  simp only [ReadFdeInfo]
  split
  · exact ⟨rfl, rfl⟩
  · split <;> exact ⟨rfl, rfl⟩

theorem GetFdeInfoFromIndex_sameTable (env : DecoderEnv) (d : DwarfEhFrameWithHdrDecoder)
    (i : Nat) : SameTable d (GetFdeInfoFromIndex env d i).2 := by
  have hm := ReadFdeInfo_func_offset env d i
  unfold GetFdeInfoFromIndex
  split
  · exact ⟨rfl, rfl, rfl, rfl, rfl, rfl, rfl, rfl⟩
  · split
    · rename_i m heq
      rw [heq] at hm
      exact ⟨hm.1, hm.2, rfl, rfl, rfl, rfl, rfl, rfl⟩
    · rename_i info m heq
      rw [heq] at hm
      exact ⟨hm.1, hm.2, rfl, rfl, rfl, rfl, rfl, rfl⟩

/-- A call of `GetFdeInfoFromIndex` does not change what any later call answers. -/
theorem fdeInfoAt_stable (env : DecoderEnv) (d : DwarfEhFrameWithHdrDecoder) (j i : Nat) :
    fdeInfoAt env (GetFdeInfoFromIndex env d j).2 i = fdeInfoAt env d i := by
  have hs := GetFdeInfoFromIndex_sameTable env d j
  have hr := ReadFdeInfo_sameTable env hs i
  revert hs hr
  unfold fdeInfoAt
  generalize hd' : (GetFdeInfoFromIndex env d j).2 = d'
  intro hs hr
  have hcache : (d'.fde_info_ i = d.fde_info_ i) ∨
      (i = j ∧ d.fde_info_ j = none ∧ d'.fde_info_ j = (ReadFdeInfo env d j).1) := by
    rw [← hd']
    unfold GetFdeInfoFromIndex
    split
    · exact Or.inl rfl
    · rename_i hnone
      split
      · rename_i m heq
        by_cases hij : i = j
        · right; subst hij; simp [hnone, heq]
        · left; simp [hij]
      · rename_i info m heq
        by_cases hij : i = j
        · right; subst hij; simp [hnone, heq]
        · left; simp [hij]
  rcases hcache with h | ⟨rfl, hnone, hnew⟩
  · unfold GetFdeInfoFromIndex
    rw [h, hr]
    cases hc : d.fde_info_ i with
    | some e => rfl
    | none =>
      simp only
      cases hread : ReadFdeInfo env d i with
      | mk a m => cases a <;> rfl
  · unfold GetFdeInfoFromIndex
    rw [hnew, hnone, hr]
    cases hread : ReadFdeInfo env d i with
    | mk a m => cases a <;> simp [hread]

theorem fdeInfoAt_of_consistent (env : DecoderEnv) (d : DwarfEhFrameWithHdrDecoder)
    (hc : CacheConsistent env d) (i : Nat) : fdeInfoAt env d i = (ReadFdeInfo env d i).1 := by
  unfold fdeInfoAt GetFdeInfoFromIndex
  cases hi : d.fde_info_ i with
  | some e => simp [hc i e hi]
  | none =>
    simp only
    cases hread : ReadFdeInfo env d i with
    | mk a m => cases a <;> rfl

theorem ReadFdeInfo_cursor (env : DecoderEnv) (d : DwarfEhFrameWithHdrDecoder) (i j : Nat)
    (h : entryCursor env d i = entryCursor env d j) : ReadFdeInfo env d i = ReadFdeInfo env d j := by
  simp only [ReadFdeInfo, h]

theorem GetFdeInfoFromIndex_eq (env : DecoderEnv) (d : DwarfEhFrameWithHdrDecoder) (i : Nat)
    (e : FdeInfo) (h : fdeInfoAt env d i = some e) :
    GetFdeInfoFromIndex env d i = (some e, (GetFdeInfoFromIndex env d i).2) :=
  Prod.ext h rfl

theorem TableView_step (env : DecoderEnv) (d : DwarfEhFrameWithHdrDecoder) (key off : Nat → Nat)
    (n j : Nat) (h : TableView env d key off n) :
    TableView env (GetFdeInfoFromIndex env d j).2 key off n := by
  intro i hi
  rw [fdeInfoAt_stable]
  exact h i hi

/-- A decoder with nothing memoized is consistent with its table. -/
theorem CacheConsistent_of_empty (env : DecoderEnv) (d : DwarfEhFrameWithHdrDecoder)
    (h : ∀ i, d.fde_info_ i = none) : CacheConsistent env d := by
  intro i e hi
  rw [h i] at hi
  cases hi

/-- A call of `GetFdeInfoFromIndex` keeps the memoized entries consistent with
the table. -/
theorem CacheConsistent_step (env : DecoderEnv) (d : DwarfEhFrameWithHdrDecoder) (j : Nat)
    (hc : CacheConsistent env d) : CacheConsistent env (GetFdeInfoFromIndex env d j).2 := by
  intro i e hi
  rw [ReadFdeInfo_sameTable env (GetFdeInfoFromIndex_sameTable env d j) i]
  have hview := fdeInfoAt_stable env d j i
  rw [fdeInfoAt_of_consistent env d hc i] at hview
  rw [← hview]
  generalize (GetFdeInfoFromIndex env d j).2 = d1 at hi
  unfold fdeInfoAt GetFdeInfoFromIndex
  rw [hi]

/-! ### The binary search of `GetFdeOffsetFromPc` -/

theorem key_mono_le (key : Nat → Nat) (n : Nat)
    (hmono : ∀ i j, i < j → j < n → key i < key j) (i j : Nat) (hij : i ≤ j) (hj : j < n) :
    key i ≤ key j := by
  rcases Nat.eq_or_lt_of_le hij with h | h
  · rw [h]
  · exact Nat.le_of_lt (hmono i j h hj)

/-- The loop ends, either on an exact match or with `first = last` at the
boundary between the keys below `pc` and the keys above it. -/
theorem searchLoop_spec (env : DecoderEnv) (pc : Nat) (key off : Nat → Nat) (n : Nat)
    (hmono : ∀ i j, i < j → j < n → key i < key j)
    (hbound : 2 * n ≤ 2 ^ env.size_bits) :
    ∀ (fuel : Nat) (d : DwarfEhFrameWithHdrDecoder) (first last : Nat),
      first ≤ last → last ≤ n → last - first ≤ fuel →
      TableView env d key off n →
      (∀ i, i < first → key i < pc) →
      (∀ i, last ≤ i → i < n → pc < key i) →
      ∃ d', TableView env d' key off n ∧
        ((∃ j, j < n ∧ key j = pc ∧
            searchLoop env pc fuel d first last = some (.returned true (some (off j)), d')) ∨
         (∃ l, l ≤ n ∧ (∀ i, i < l → key i < pc) ∧ (∀ i, l ≤ i → i < n → pc < key i) ∧
            searchLoop env pc fuel d first last = some (.exited l l, d'))) := by
  intro fuel
  induction fuel with
  | zero =>
    intro d first last hfl hln hfuel hview hlow hhigh
    have heq : first = last := by omega
    subst heq
    refine ⟨d, hview, Or.inr ⟨first, hln, hlow, hhigh, ?_⟩⟩
    simp [searchLoop]
  | succ fuel ih =>
    intro d first last hfl hln hfuel hview hlow hhigh
    by_cases hlt : first < last
    · have hsum : (first + last) % 2 ^ env.size_bits = first + last :=
        Nat.mod_eq_of_lt (by omega)
      have hc1 : first ≤ (first + last) / 2 := by omega
      have hc2 : (first + last) / 2 < last := by omega
      have hcn : (first + last) / 2 < n := by omega
      have hnext : ((first + last) / 2 + 1) % 2 ^ env.size_bits = (first + last) / 2 + 1 :=
        Nat.mod_eq_of_lt (by omega)
      have hg := GetFdeInfoFromIndex_eq env d _ _ (hview _ hcn)
      have hview1 := TableView_step env d key off n ((first + last) / 2) hview
      rw [searchLoop, if_pos hlt]
      simp only [hsum, hnext]
      rw [hg]
      simp only
      by_cases heq : pc = key ((first + last) / 2)
      · rw [if_pos heq]
        exact ⟨_, hview1, Or.inl ⟨_, hcn, heq.symm, rfl⟩⟩
      · rw [if_neg heq]
        by_cases hless : pc < key ((first + last) / 2)
        · rw [if_pos hless]
          refine ih _ first _ hc1 (by omega) (by omega) hview1 hlow ?_
          intro i hi hin
          exact Nat.lt_of_lt_of_le hless (key_mono_le key n hmono _ i hi hin)
        · rw [if_neg hless]
          refine ih _ _ last (by omega) hln (by omega) hview1 ?_ hhigh
          intro i hi
          have hle := key_mono_le key n hmono i ((first + last) / 2) (by omega) hcn
          omega
    · have heq : first = last := by omega
      subst heq
      refine ⟨d, hview, Or.inr ⟨first, hln, hlow, hhigh, ?_⟩⟩
      simp [searchLoop]

/-- On a table of `n >= 1` strictly increasing keys the call ends with "not
found" when `pc` is below the first key, and otherwise with the offset of the
entry with the greatest key `<= pc`. -/
theorem GetFdeOffsetFromPc_spec (env : DecoderEnv) (d : DwarfEhFrameWithHdrDecoder)
    (key off : Nat → Nat) (pc fuel : Nat)
    (hn : 1 ≤ d.fde_count_)
    (hview : TableView env d key off d.fde_count_)
    (hmono : ∀ i j, i < j → j < d.fde_count_ → key i < key j)
    (hbound : 2 * d.fde_count_ ≤ 2 ^ env.size_bits)
    (hfuel : d.fde_count_ ≤ fuel) :
    ∃ d', (pc < key 0 ∧ GetFdeOffsetFromPc env fuel d pc = some ((false, none), d')) ∨
      (∃ j, j < d.fde_count_ ∧ key j ≤ pc ∧ (∀ i, i < d.fde_count_ → key i ≤ pc → i ≤ j) ∧
        GetFdeOffsetFromPc env fuel d pc = some ((true, some (off j)), d')) := by
  have hmod : d.fde_count_ % 2 ^ env.size_bits = d.fde_count_ := Nat.mod_eq_of_lt (by omega)
  have hne : ¬ d.fde_count_ = 0 := by omega
  obtain ⟨d1, hview1, hloop⟩ :=
    searchLoop_spec env pc key off d.fde_count_ hmono hbound fuel d 0 d.fde_count_
      (Nat.zero_le _) (Nat.le_refl _) (by omega) hview
      (fun i hi => absurd hi (Nat.not_lt_zero i)) (fun i hi hin => absurd hin (by omega))
  rcases hloop with ⟨j, hj, hkey, hrun⟩ | ⟨l, hl, hlow, hhigh, hrun⟩
  · refine ⟨d1, Or.inr ⟨j, hj, Nat.le_of_eq hkey, ?_, ?_⟩⟩
    · intro i hi hle
      by_contra hcon
      have := hmono j i (by omega) hi
      omega
    · simp only [GetFdeOffsetFromPc, if_neg hne, hmod, hrun]
  · by_cases hl0 : l = 0
    · subst hl0
      refine ⟨d1, Or.inl ⟨hhigh 0 (Nat.le_refl 0) (by omega), ?_⟩⟩
      simp [GetFdeOffsetFromPc, hne, hmod, hrun]
    · have hl1 : l - 1 < d.fde_count_ := by omega
      have hg := GetFdeInfoFromIndex_eq env d1 _ _ (hview1 _ hl1)
      refine ⟨(GetFdeInfoFromIndex env d1 (l - 1)).2, Or.inr ⟨l - 1, hl1, ?_, ?_, ?_⟩⟩
      · exact Nat.le_of_lt (hlow (l - 1) (by omega))
      · intro i hi hle
        by_contra hcon
        have := hhigh i (by omega) hi
        omega
      · simp only [GetFdeOffsetFromPc, if_neg hne, hmod, hrun, ne_eq, hl0, not_false_eq_true,
          if_true]
        rw [hg]

/-- Two indices whose doubled value agrees modulo the width of `size_t` are read
from the same place; with strictly increasing keys the table therefore has at
most `2 ^ (size_bits - 1)` entries and the midpoint sum cannot wrap. -/
theorem fde_count_bound (env : DecoderEnv) (d : DwarfEhFrameWithHdrDecoder)
    (key off : Nat → Nat) (n : Nat)
    (hw : 0 < env.size_bits)
    (hdec : ∀ i, i < n → (ReadFdeInfo env d i).1 = some { pc := key i, offset := off i })
    (hmono : ∀ i j, i < j → j < n → key i < key j) :
    2 * n ≤ 2 ^ env.size_bits := by
  by_contra hcon
  obtain ⟨w, hwe⟩ : ∃ w, env.size_bits = w + 1 := ⟨env.size_bits - 1, by omega⟩
  have hpow : 2 ^ env.size_bits = 2 * 2 ^ w := by rw [hwe, pow_succ, Nat.mul_comm]
  have hpos : 0 < 2 ^ w := Nat.two_pow_pos w
  have hlt : 2 ^ w < n := by omega
  have hcur : entryCursor env d (2 ^ w) = entryCursor env d 0 := by
    simp only [entryCursor, hpow, Nat.mod_self, Nat.mul_zero, Nat.zero_mod]
  have h0 := hdec 0 (by omega)
  have h1 := hdec (2 ^ w) hlt
  rw [ReadFdeInfo_cursor env d _ _ hcur, h0] at h1
  have hk : key 0 = key (2 ^ w) := by
    have := Option.some.inj h1
    exact congrArg FdeInfo.pc this
  have := hmono 0 (2 ^ w) hpos hlt
  omega

theorem TableView_of_consistent (env : DecoderEnv) (d : DwarfEhFrameWithHdrDecoder)
    (key off : Nat → Nat) (n : Nat) (hcache : CacheConsistent env d)
    (hdec : ∀ i, i < n → (ReadFdeInfo env d i).1 = some { pc := key i, offset := off i }) :
    TableView env d key off n := by
  intro i hi
  rw [fdeInfoAt_of_consistent env d hcache i]
  exact hdec i hi

/-! ### Claims on `GetFdeOffsetFromPc` -/

/-- C1: for an index of `N >= 1` entries that all decode, with strictly
increasing pc keys, and a pc with `key[0] <= pc <= key[N-1]`, the call
`GetFdeOffsetFromPc` returns true and writes to `*fde_offset` the offset of the
entry with the greatest key `<= pc`; fuel `N` is enough for the loop. -/
theorem GetFdeOffsetFromPc_in_range (env : DecoderEnv) (d : DwarfEhFrameWithHdrDecoder)
    (key off : Nat → Nat) (pc fuel : Nat)
    (hw : 0 < env.size_bits)
    (hcache : CacheConsistent env d)
    (hn : 1 ≤ d.fde_count_)
    (hdec : ∀ i, i < d.fde_count_ →
      (ReadFdeInfo env d i).1 = some { pc := key i, offset := off i })
    (hmono : ∀ i j, i < j → j < d.fde_count_ → key i < key j)
    (hlo : key 0 ≤ pc) (_hhi : pc ≤ key (d.fde_count_ - 1))
    (hfuel : d.fde_count_ ≤ fuel) :
    ∃ j d', j < d.fde_count_ ∧ key j ≤ pc ∧ (∀ i, i < d.fde_count_ → key i ≤ pc → i ≤ j) ∧
      GetFdeOffsetFromPc env fuel d pc = some ((true, some (off j)), d') := by
  obtain ⟨d', h⟩ := GetFdeOffsetFromPc_spec env d key off pc fuel hn
    (TableView_of_consistent env d key off _ hcache hdec) hmono
    (fde_count_bound env d key off _ hw hdec hmono) hfuel
  rcases h with ⟨hlt, _⟩ | ⟨j, hj, hle, hmax, hrun⟩
  · omega
  · exact ⟨j, d', hj, hle, hmax, hrun⟩

/-- C1, witness: in the table `(10,100), (20,200), (30,300)` the pc 25 resolves
to the offset 200 of the entry with key 20. -/
theorem GetFdeOffsetFromPc_in_range_witness :
    (GetFdeOffsetFromPc (wordMemory [10, 100, 20, 200, 30, 300]) 3 (exampleDecoder 3) 25).map
      Prod.fst = some (true, some 200) := by
  obtain ⟨j, d', hj, hle, hmax, hrun⟩ :=
    GetFdeOffsetFromPc_in_range (wordMemory [10, 100, 20, 200, 30, 300]) (exampleDecoder 3)
      (fun i => 10 * (i + 1)) (fun i => 100 * (i + 1)) 25 3 (by decide)
      (by intro i e h; cases h) (by decide)
      (by
        intro i hi
        have hi3 : i < 3 := hi
        interval_cases i <;> rfl)
      (by
        intro i j hij _
        show 10 * (i + 1) < 10 * (j + 1)
        omega)
      (by decide) (by decide) (by decide)
  have h1 : 1 ≤ j := hmax 1 (by decide) (by decide)
  have h2 : 10 * (j + 1) ≤ 25 := hle
  have hj1 : j = 1 := by omega
  subst hj1
  rw [hrun]
  rfl

/-- C2: for an index of `N >= 1` entries that all decode, with strictly
increasing pc keys, and a pc below `key[0]`, the call `GetFdeOffsetFromPc`
returns false and writes nothing to `*fde_offset`. -/
theorem GetFdeOffsetFromPc_below_min (env : DecoderEnv) (d : DwarfEhFrameWithHdrDecoder)
    (key off : Nat → Nat) (pc fuel : Nat)
    (hw : 0 < env.size_bits)
    (hcache : CacheConsistent env d)
    (hn : 1 ≤ d.fde_count_)
    (hdec : ∀ i, i < d.fde_count_ →
      (ReadFdeInfo env d i).1 = some { pc := key i, offset := off i })
    (hmono : ∀ i j, i < j → j < d.fde_count_ → key i < key j)
    (hlo : pc < key 0)
    (hfuel : d.fde_count_ ≤ fuel) :
    ∃ d', GetFdeOffsetFromPc env fuel d pc = some ((false, none), d') := by
  obtain ⟨d', h⟩ := GetFdeOffsetFromPc_spec env d key off pc fuel hn
    (TableView_of_consistent env d key off _ hcache hdec) hmono
    (fde_count_bound env d key off _ hw hdec hmono) hfuel
  rcases h with ⟨_, hrun⟩ | ⟨j, hj, hle, _, _⟩
  · exact ⟨d', hrun⟩
  · have := key_mono_le key _ hmono 0 j (Nat.zero_le j) hj
    omega

/-- C2, witness: in the table `(10,100), (20,200), (30,300)` the pc 5 is not
found and nothing is written. -/
theorem GetFdeOffsetFromPc_below_min_witness :
    (GetFdeOffsetFromPc (wordMemory [10, 100, 20, 200, 30, 300]) 3 (exampleDecoder 3) 5).map
      Prod.fst = some (false, none) := by
  obtain ⟨d', hrun⟩ :=
    GetFdeOffsetFromPc_below_min (wordMemory [10, 100, 20, 200, 30, 300]) (exampleDecoder 3)
      (fun i => 10 * (i + 1)) (fun i => 100 * (i + 1)) 5 3 (by decide)
      (by intro i e h; cases h) (by decide)
      (by
        intro i hi
        have hi3 : i < 3 := hi
        interval_cases i <;> rfl)
      (by
        intro i j hij _
        show 10 * (i + 1) < 10 * (j + 1)
        omega)
      (by decide) (by decide)
  rw [hrun]
  rfl

/-- C3, counterexample: the index has two entries, entry 0 is `(10, 100)` and
entry 1 lies past the readable memory. For pc 20 the first probe is entry 1,
its read fails and the call returns false, although pc is not smaller than the
key 10 of entry 0. -/
theorem GetFdeOffsetFromPc_false_on_read_failure :
    (GetFdeOffsetFromPc (wordMemory [10, 100]) 2 (exampleDecoder 2) 20).map Prod.fst
        = some (false, none)
      ∧ fdeInfoAt (wordMemory [10, 100]) (exampleDecoder 2) 0 = some { pc := 10, offset := 100 }
      ∧ fdeInfoAt (wordMemory [10, 100]) (exampleDecoder 2) 1 = none
      ∧ ¬ (20 < 10) := by
  refine ⟨by rfl, by rfl, by rfl, by decide⟩

/-- C3, amended: for a strictly increasing index all of whose entries decode,
if `GetFdeOffsetFromPc` returns false then pc is smaller than the pc key of
every index entry. -/
theorem GetFdeOffsetFromPc_false_only_below (env : DecoderEnv) (d : DwarfEhFrameWithHdrDecoder)
    (key off : Nat → Nat) (pc fuel : Nat) (out : Option Nat) (d' : DwarfEhFrameWithHdrDecoder)
    (hw : 0 < env.size_bits)
    (hcache : CacheConsistent env d)
    (hdec : ∀ i, i < d.fde_count_ →
      (ReadFdeInfo env d i).1 = some { pc := key i, offset := off i })
    (hmono : ∀ i j, i < j → j < d.fde_count_ → key i < key j)
    (hfuel : d.fde_count_ ≤ fuel)
    (hret : GetFdeOffsetFromPc env fuel d pc = some ((false, out), d')) :
    ∀ i, i < d.fde_count_ → pc < key i := by
  intro i hi
  obtain ⟨d1, h⟩ := GetFdeOffsetFromPc_spec env d key off pc fuel (by omega)
    (TableView_of_consistent env d key off _ hcache hdec) hmono
    (fde_count_bound env d key off _ hw hdec hmono) hfuel
  rcases h with ⟨hlt, _⟩ | ⟨j, _, _, _, hrun⟩
  · exact Nat.lt_of_lt_of_le hlt (key_mono_le key _ hmono 0 i (Nat.zero_le i) hi)
  · rw [hrun] at hret
    simp at hret

/-- C3, witness of the amended statement: in the table `(10,100), (20,200),
(30,300)` the call for pc 5 returns false, and 5 is below the key 30 of the
last entry. -/
theorem GetFdeOffsetFromPc_false_only_below_witness :
    (GetFdeOffsetFromPc (wordMemory [10, 100, 20, 200, 30, 300]) 3 (exampleDecoder 3) 5).map
        Prod.fst = some (false, none)
      ∧ 5 < 10 * (2 + 1) :=
  ⟨by rfl,
    GetFdeOffsetFromPc_false_only_below (wordMemory [10, 100, 20, 200, 30, 300])
      (exampleDecoder 3) (fun i => 10 * (i + 1)) (fun i => 100 * (i + 1)) 5 3 none
      (((GetFdeOffsetFromPc (wordMemory [10, 100, 20, 200, 30, 300]) 3 (exampleDecoder 3) 5).map
        Prod.snd).getD (exampleDecoder 3))
      (by decide) (by intro i e h; cases h)
      (by
        intro i hi
        have hi3 : i < 3 := hi
        interval_cases i <;> rfl)
      (by
        intro i j hij _
        show 10 * (i + 1) < 10 * (j + 1)
        omega)
      (by decide) (by rfl) 2 (by decide)⟩

/-! ### Claims on `GetFdeFromPc` -/

theorem scanFdes_covers (pc : Nat) (rest visited : List DwarfFde) (f : DwarfFde)
    (h : (scanFdes pc visited rest).1 = some f) : fdeCovers pc f = true := by
  induction rest generalizing visited with
  | nil => simp [scanFdes] at h
  | cons fde rest ih =>
    by_cases hc : fdeCovers pc fde = true
    · simp only [scanFdes, hc, if_true] at h
      cases h
      exact hc
    · simp only [scanFdes, hc] at h
      exact ih _ h

theorem DwarfSectionDecoder_GetFdeFromPc_covers (s : DwarfSectionDecoder) (pc : Nat)
    (f : DwarfFde) (h : (s.GetFdeFromPc pc).1 = some f) : fdeCovers pc f = true := by
  unfold DwarfSectionDecoder.GetFdeFromPc at h
  cases hfind : s.fdes_.find? (fdeCovers pc) with
  | some fde =>
    rw [hfind] at h
    cases h
    exact List.find?_some hfind
  | none =>
    rw [hfind] at h
    exact scanFdes_covers pc s.next_entries_ s.fdes_ f h

theorem fdeCovers_iff (pc : Nat) (f : DwarfFde) :
    fdeCovers pc f = true ↔ f.pc_start ≤ pc ∧ pc < f.pc_end := by
  simp [fdeCovers]

/-- C4: when the index lookup yields an FDE with `pc_start == pc_end`, the
result of `GetFdeFromPc` is the result of the no-index scan
`DwarfSectionDecoder::GetFdeFromPc(pc)`: the FDE of the scan, which has
`pc_start <= pc < pc_end` and so is not of zero length, and null when the scan
finds none. -/
theorem GetFdeFromPc_zero_length_uses_scan (env : DecoderEnv) (ops : SectionOps) (fuel : Nat)
    (d : DwarfEhFrameWithHdrDecoder) (pc offset : Nat) (d1 d2 : DwarfEhFrameWithHdrDecoder)
    (fde : DwarfFde)
    (hops : ops.GetFdeFromPc = baseGetFdeFromPc)
    (hidx : GetFdeOffsetFromPc env fuel d pc = some ((true, some offset), d1))
    (hfde : ops.GetFdeFromOffset d1 offset = (some fde, d2))
    (hzero : fde.pc_start = fde.pc_end) :
    (GetFdeFromPc env ops fuel d pc).map Prod.fst
        = some (d2.toDwarfSectionDecoder.GetFdeFromPc pc).1
      ∧ ∀ f, (d2.toDwarfSectionDecoder.GetFdeFromPc pc).1 = some f →
          f.pc_start ≤ pc ∧ pc < f.pc_end ∧ f.pc_start ≠ f.pc_end := by
  have hcov : ∀ f, (d2.toDwarfSectionDecoder.GetFdeFromPc pc).1 = some f →
      f.pc_start ≤ pc ∧ pc < f.pc_end := fun f hf =>
    (fdeCovers_iff pc f).1 (DwarfSectionDecoder_GetFdeFromPc_covers _ pc f hf)
  refine ⟨?_, fun f hf => ⟨(hcov f hf).1, (hcov f hf).2, by have := hcov f hf; omega⟩⟩
  simp only [GetFdeFromPc, resolveFde, hidx, Option.getD_some, hfde, hzero, if_true, hops,
    baseGetFdeFromPc]
  cases hscan : (d2.toDwarfSectionDecoder.GetFdeFromPc pc).1 with
  | none => rfl
  | some f =>
    have hlt := (hcov f hscan).2
    simp [checkPcInFde, hlt]

/-- C4, witness: pc 25 is resolved by the index to the zero length FDE at
offset 200, and the call returns the FDE `[20, 30)` found by the scan. -/
theorem GetFdeFromPc_zero_length_uses_scan_witness :
    (GetFdeFromPc (wordMemory [10, 100, 20, 200, 30, 300]) (exampleOps exampleByOffset) 3
        exampleSection 25).map Prod.fst = some (some (exampleFde 20 30)) :=
  (GetFdeFromPc_zero_length_uses_scan (wordMemory [10, 100, 20, 200, 30, 300])
    (exampleOps exampleByOffset) 3 exampleSection 25 200
    (((GetFdeOffsetFromPc (wordMemory [10, 100, 20, 200, 30, 300]) 3 exampleSection 25).map
      Prod.snd).getD exampleSection)
    (((GetFdeOffsetFromPc (wordMemory [10, 100, 20, 200, 30, 300]) 3 exampleSection 25).map
      Prod.snd).getD exampleSection)
    (exampleFde 20 20) (by rfl) (by rfl) (by rfl) (by rfl)).1

/-- C5: every FDE that `GetFdeFromPc` returns has `pc < pc_end`, and whenever
the FDE it resolved (from the index or through the fallback scan) has
`pc_end <= pc`, it returns null with `last_error_.code` set to
`DWARF_ERROR_ILLEGAL_STATE`. The base-class functions are arbitrary. -/
theorem GetFdeFromPc_range_check (env : DecoderEnv) (ops : SectionOps) (fuel : Nat)
    (d : DwarfEhFrameWithHdrDecoder) (pc : Nat) (fde : DwarfFde)
    (d1 : DwarfEhFrameWithHdrDecoder) :
    (GetFdeFromPc env ops fuel d pc = some (some fde, d1) → pc < fde.pc_end)
      ∧ (resolveFde env ops fuel d pc = some (some fde, d1) → fde.pc_end ≤ pc →
          ∃ d2, GetFdeFromPc env ops fuel d pc = some (none, d2)
            ∧ d2.last_error_.code = .DWARF_ERROR_ILLEGAL_STATE) := by
  constructor
  · intro h
    unfold GetFdeFromPc at h
    cases hres : resolveFde env ops fuel d pc with
    | none => rw [hres] at h; cases h
    | some r =>
      obtain ⟨o, d0⟩ := r
      cases o with
      | none => rw [hres] at h; simp at h
      | some f0 =>
        rw [hres] at h
        simp only [checkPcInFde] at h
        by_cases hlt : pc < f0.pc_end
        · rw [if_pos hlt] at h
          simp only [Option.some.injEq, Prod.mk.injEq] at h
          rw [← h.1]
          exact hlt
        · rw [if_neg hlt] at h
          simp at h
  · intro hres hle
    have hnot : ¬ pc < fde.pc_end := by omega
    refine ⟨{ d1 with
      last_error_ := { d1.last_error_ with code := .DWARF_ERROR_ILLEGAL_STATE } }, ?_, rfl⟩
    simp only [GetFdeFromPc, hres, checkPcInFde, if_neg hnot]

/-- C5, witness: for pc 25 the call returns the FDE `[20, 30)` and 25 < 30; for
pc 45 the index resolves to the FDE `[30, 40)`, whose end is not above 45, and
the call returns null with `DWARF_ERROR_ILLEGAL_STATE`. -/
theorem GetFdeFromPc_range_check_witness :
    25 < (exampleFde 20 30).pc_end
      ∧ (GetFdeFromPc (wordMemory [10, 100, 20, 200, 30, 300]) (exampleOps exampleByOffset) 3
          exampleSection 45).map (fun r => (r.1, r.2.last_error_.code))
        = some (none, DwarfErrorCode.DWARF_ERROR_ILLEGAL_STATE) := by
  constructor
  · exact (GetFdeFromPc_range_check (wordMemory [10, 100, 20, 200, 30, 300])
      (exampleOps exampleByOffset) 3 exampleSection 25 (exampleFde 20 30)
      (((GetFdeFromPc (wordMemory [10, 100, 20, 200, 30, 300]) (exampleOps exampleByOffset) 3
        exampleSection 25).map Prod.snd).getD exampleSection)).1 (by rfl)
  · obtain ⟨d2, hrun, hcode⟩ :=
      (GetFdeFromPc_range_check (wordMemory [10, 100, 20, 200, 30, 300])
        (exampleOps exampleByOffset) 3 exampleSection 45 (exampleFde 30 40)
        (((resolveFde (wordMemory [10, 100, 20, 200, 30, 300]) (exampleOps exampleByOffset) 3
          exampleSection 45).map Prod.snd).getD exampleSection)).2 (by rfl) (by decide)
    rw [hrun]
    simp [hcode]

/-! ### Claims on `Maps::Find` -/

theorem entries_disjoint (es : List QuickenMapInfo) (n : Nat) (hn : n ≤ es.length)
    (hrange : ∀ i a, i < n → es[i]? = some a → a.start ≤ a.end_)
    (hdisj : ∀ i a b, i + 1 < n → es[i]? = some a → es[i + 1]? = some b → a.end_ ≤ b.start) :
    ∀ j i a b, i < j → j < n → es[i]? = some a → es[j]? = some b → a.end_ ≤ b.start := by
  intro j
  induction j with
  | zero => intro i a b hij; omega
  | succ k ih =>
    intro i a b hij hj ha hb
    by_cases hik : i = k
    · subst hik
      exact hdisj i a b hj ha hb
    · have hk : k < es.length := by omega
      have hc : es[k]? = some es[k] := List.getElem?_eq_getElem hk
      have h1 := ih i a es[k] (by omega) (by omega) ha hc
      have h2 := hrange k es[k] (by omega) hc
      have h3 := hdisj k es[k] b hj hc hb
      omega

/-- The loop of `Find` ends: it returns an entry that contains `pc`, or null
when no entry below `n` contains `pc`. -/
theorem findLoop_spec (es : List QuickenMapInfo) (pc n : Nat) (hn : n ≤ es.length)
    (hrange : ∀ i a, i < n → es[i]? = some a → a.start ≤ a.end_)
    (hdisj : ∀ i a b, i + 1 < n → es[i]? = some a → es[i + 1]? = some b → a.end_ ≤ b.start) :
    ∀ (fuel first last : Nat), first ≤ last → last ≤ n → last - first ≤ fuel →
      (∀ i a, i < first → es[i]? = some a → a.end_ ≤ pc) →
      (∀ i a, last ≤ i → i < n → es[i]? = some a → pc < a.start) →
      (∃ i e, i < n ∧ es[i]? = some e ∧ e.start ≤ pc ∧ pc < e.end_ ∧
          Maps.findLoop es pc fuel first last = some (some e)) ∨
        ((∀ i a, i < n → es[i]? = some a → ¬ (a.start ≤ pc ∧ pc < a.end_)) ∧
          Maps.findLoop es pc fuel first last = some none) := by
  have hpair := entries_disjoint es n hn hrange hdisj
  have hdone : ∀ first, first ≤ n → (∀ i a, i < first → es[i]? = some a → a.end_ ≤ pc) →
      (∀ i a, first ≤ i → i < n → es[i]? = some a → pc < a.start) →
      ∀ i a, i < n → es[i]? = some a → ¬ (a.start ≤ pc ∧ pc < a.end_) := by
    intro first _ hlow hhigh i a hi ha hcon
    by_cases hif : i < first
    · have := hlow i a hif ha
      omega
    · have := hhigh i a (by omega) hi ha
      omega
  intro fuel
  induction fuel with
  | zero =>
    intro first last hfl hln hfuel hlow hhigh
    have heq : first = last := by omega
    subst heq
    exact Or.inr ⟨hdone first hln hlow hhigh, by simp [Maps.findLoop]⟩
  | succ fuel ih =>
    intro first last hfl hln hfuel hlow hhigh
    by_cases hlt : first < last
    · have hc1 : first ≤ (first + last) / 2 := by omega
      have hc2 : (first + last) / 2 < last := by omega
      have hcn : (first + last) / 2 < es.length := by omega
      have hcur : es[(first + last) / 2]? = some es[(first + last) / 2] :=
        List.getElem?_eq_getElem hcn
      have hr := hrange _ _ (by omega) hcur
      rw [Maps.findLoop, if_pos hlt]
      simp only [hcur]
      by_cases hin : pc ≥ es[(first + last) / 2].start ∧ pc < es[(first + last) / 2].end_
      · rw [if_pos hin]
        exact Or.inl ⟨_, _, by omega, hcur, hin.1, hin.2, rfl⟩
      · rw [if_neg hin]
        by_cases hless : pc < es[(first + last) / 2].start
        · rw [if_pos hless]
          refine ih first _ hc1 (by omega) (by omega) hlow ?_
          intro i a hi hin2 ha
          by_cases hie : i = (first + last) / 2
          · subst hie
            rw [hcur] at ha
            cases ha
            exact hless
          · have := hpair i ((first + last) / 2) _ a (by omega) hin2 hcur ha
            omega
        · rw [if_neg hless]
          refine ih _ last (by omega) hln (by omega) ?_ hhigh
          intro i a hi ha
          by_cases hie : i = (first + last) / 2
          · subst hie
            rw [hcur] at ha
            cases ha
            omega
          · have h1 := hpair ((first + last) / 2) i a _ (by omega) (by omega) ha hcur
            omega
    · have heq : first = last := by omega
      subst heq
      exact Or.inr ⟨hdone first hln hlow hhigh, by simp [Maps.findLoop]⟩

theorem Maps_entryAt_some (m : Maps) (es : List QuickenMapInfo) (h : m.local_maps_ = some es)
    (i : Nat) (hi : i < m.maps_size_) : m.entryAt i = es[i]? := by
  simp [Maps.entryAt, hi, h]

theorem Maps_entryAt_lt (m : Maps) (i : Nat) (a : QuickenMapInfo) (h : m.entryAt i = some a) :
    i < m.maps_size_ := by
  unfold Maps.entryAt at h
  by_contra hcon
  rw [if_neg hcon] at h
  cases h

/-- C6: in a snapshot whose entries are ordered by start and pairwise disjoint
(`entry[i].end <= entry[i+1].start`, `start <= end`), `Find(pc)` returns the
one entry with `start <= pc < end` if there is one and null otherwise; fuel
`maps_size_` is enough for the loop. -/
theorem Maps_Find_correct (m : Maps) (pc fuel : Nat)
    (hwf : ∀ es, m.local_maps_ = some es → m.maps_size_ ≤ es.length)
    (hrange : ∀ i a, m.entryAt i = some a → a.start ≤ a.end_)
    (hdisj : ∀ i a b, m.entryAt i = some a → m.entryAt (i + 1) = some b → a.end_ ≤ b.start)
    (hfuel : m.maps_size_ ≤ fuel) :
    (∃ i e, m.entryAt i = some e ∧ e.start ≤ pc ∧ pc < e.end_
        ∧ (∀ j a, m.entryAt j = some a → a.start ≤ pc → pc < a.end_ → j = i)
        ∧ m.Find fuel pc = some (some e))
      ∨ ((∀ i a, m.entryAt i = some a → ¬ (a.start ≤ pc ∧ pc < a.end_))
        ∧ m.Find fuel pc = some none) := by
  cases hes : m.local_maps_ with
  | none =>
    right
    refine ⟨?_, by simp [Maps.Find, hes]⟩
    intro i a ha
    simp [Maps.entryAt, hes] at ha
  | some es =>
    have hn := hwf es hes
    have hrange1 : ∀ i a, i < m.maps_size_ → es[i]? = some a → a.start ≤ a.end_ := by
      intro i a hi ha
      exact hrange i a (by rw [Maps_entryAt_some m es hes i hi]; exact ha)
    have hdisj1 : ∀ i a b, i + 1 < m.maps_size_ → es[i]? = some a → es[i + 1]? = some b →
        a.end_ ≤ b.start := by
      intro i a b hi ha hb
      exact hdisj i a b (by rw [Maps_entryAt_some m es hes i (by omega)]; exact ha)
        (by rw [Maps_entryAt_some m es hes (i + 1) hi]; exact hb)
    have hpair := entries_disjoint es m.maps_size_ hn hrange1 hdisj1
    have hloop := findLoop_spec es pc m.maps_size_ hn hrange1 hdisj1 fuel 0 m.maps_size_
      (Nat.zero_le _) (Nat.le_refl _) (by omega)
      (fun i a hi _ => absurd hi (Nat.not_lt_zero i))
      (fun i a hi hin _ => absurd hin (by omega))
    rcases hloop with ⟨i, e, hi, he, hs, hend, hrun⟩ | ⟨hnone, hrun⟩
    · left
      refine ⟨i, e, by rw [Maps_entryAt_some m es hes i hi]; exact he, hs, hend, ?_,
        by simp only [Maps.Find, hes, hrun]⟩
      intro j a ha has hae
      have hj := Maps_entryAt_lt m j a ha
      rw [Maps_entryAt_some m es hes j hj] at ha
      have hre := hrange1 i e hi he
      have hra := hrange1 j a hj ha
      rcases Nat.lt_trichotomy j i with hlt | heq | hgt
      · have := hpair i j a e hlt hi ha he
        omega
      · exact heq
      · have := hpair j i e a hgt hj he ha
        omega
    · right
      refine ⟨?_, by simp only [Maps.Find, hes, hrun]⟩
      intro i a ha
      have hi := Maps_entryAt_lt m i a ha
      rw [Maps_entryAt_some m es hes i hi] at ha
      exact hnone i a hi ha

/-- C6, witness: in the snapshot `[100,200)`, `[200,300)`, `[400,500)` the pc
250 is found in the second entry. -/
theorem Maps_Find_correct_witness :
    exampleMaps.Find 3 250 = some (some (exampleMap 200 300 4096 5 "a.so")) := by
  have hcases : ∀ i a, exampleMaps.entryAt i = some a →
      (i = 0 ∧ a = exampleMap 100 200 0 1 "a.so") ∨ (i = 1 ∧ a = exampleMap 200 300 4096 5 "a.so")
        ∨ (i = 2 ∧ a = exampleMap 400 500 0 5 "b.so") := by
    intro i a ha
    have hi : i < 3 := Maps_entryAt_lt exampleMaps i a ha
    interval_cases i
    · exact Or.inl ⟨rfl, (Option.some.inj ha).symm⟩
    · exact Or.inr (Or.inl ⟨rfl, (Option.some.inj ha).symm⟩)
    · exact Or.inr (Or.inr ⟨rfl, (Option.some.inj ha).symm⟩)
  have h := Maps_Find_correct exampleMaps 250 3
    (by intro es hes; cases hes; decide)
    (by
      intro i a ha
      rcases hcases i a ha with ⟨_, rfl⟩ | ⟨_, rfl⟩ | ⟨_, rfl⟩ <;> decide)
    (by
      intro i a b ha hb
      rcases hcases i a ha with ⟨rfl, rfl⟩ | ⟨rfl, rfl⟩ | ⟨rfl, rfl⟩ <;>
        rcases hcases _ b hb with ⟨hi, rfl⟩ | ⟨hi, rfl⟩ | ⟨hi, rfl⟩ <;>
        first | decide | (exact absurd hi (by decide)))
    (by decide)
  rcases h with ⟨i, e, he, _, _, huniq, hrun⟩ | ⟨hnone, _⟩
  · have hi : 1 = i := huniq 1 (exampleMap 200 300 4096 5 "a.so") rfl (by decide) (by decide)
    subst hi
    have he1 : e = exampleMap 200 300 4096 5 "a.so" := (Option.some.inj he).symm
    rw [hrun, he1]
  · exact absurd ⟨by decide, by decide⟩ (hnone 1 (exampleMap 200 300 4096 5 "a.so") rfl)

/-! ### Claims on `QuickenMemoryFile` -/
/-- What a successful `Init` leaves behind. -/
theorem Init_success (env : FileEnv) (q q1 : QuickenMemoryFile) (file : String)
    (offset size : Nat) (h : QuickenMemoryFile.Init env q file offset size = (true, q1)) :
    ∃ bytes, env.files file = some bytes ∧ offset < bytes.length
      ∧ q1.slice_size_ = (if offset = 0 then env.QUICKEN_MEMORY_SLICE else 0)
      ∧ q1.slice_ = (if q1.slice_size_ > 0 then
            (List.range q1.slice_size_).map (fileMapping bytes (alignedOffset env offset))
          else q.Clear.slice_)
      ∧ q1.map_addr_ = some (if q1.slice_size_ > 0 then
            fun i => if i < q1.slice_size_ then 0
              else fileMapping bytes (alignedOffset env offset) i
          else fileMapping bytes (alignedOffset env offset))
      ∧ q1.offset_ = offset &&& (env.pagesize - 1)
      ∧ q1.map_size_ = mapLength env bytes.length offset size
      ∧ q1.size_ = mapLength env bytes.length offset size - (offset &&& (env.pagesize - 1)) := by
  unfold QuickenMemoryFile.Init at h
  cases hf : env.files file with
  | none => rw [hf] at h; simp at h
  | some bytes =>
    rw [hf] at h
    simp only at h
    split_ifs at h with h1 h2 h3 <;>
      simp only [Prod.mk.injEq, Bool.false_eq_true, false_and, true_and] at h
    all_goals subst h
    all_goals refine ⟨bytes, rfl, by omega, ?_, ?_, ?_, rfl, rfl, rfl⟩
    all_goals first | omega | simp [*]

theorem range_map_eq_take_drop (f : Nat → Nat) (bytes : List Nat) (off n : Nat)
    (h : off + n ≤ bytes.length) (hf : ∀ i, i < n → f (off + i) = bytes.getD (off + i) 0) :
    (List.range n).map (fun i => f (off + i)) = (bytes.drop off).take n := by
  apply List.ext_getElem
  · simp
    omega
  · intro i h1 h2
    simp at h1
    have := hf i h1
    simp [this, List.getD_eq_getElem?_getD]
    have hlt : off + i < bytes.length := by omega
    simp [List.getElem?_eq_getElem hlt]

theorem memory_copy_bytes (f : Nat → Nat) (bytes : List Nat) (len off dsize : Nat)
    (hd : dsize ≤ bytes.length) (hf : ∀ i, off ≤ i → i < dsize → f i = bytes.getD i 0) :
    (memory_copy f len off dsize).1 = (if off ≥ dsize then 0 else min (dsize - off) len)
      ∧ (memory_copy f len off dsize).2 = (bytes.drop off).take (memory_copy f len off dsize).1 := by
  unfold memory_copy
  by_cases h : off ≥ dsize
  · simp [h]
  · simp only [h, if_false, true_and]
    exact range_map_eq_take_drop f bytes off _ (by omega) (fun i hi => hf _ (by omega) (by omega))
theorem mapLength_le (env : FileEnv) (st_size offset size : Nat) :
    mapLength env st_size offset size ≤ st_size - alignedOffset env offset := by
  unfold mapLength
  simp only
  split_ifs with h
  · omega
  · exact Nat.le_refl _

/-- After a successful `Init` at offset 0 of a file that has at least
`QUICKEN_MEMORY_SLICE` bytes, every `Read` delivers exactly the bytes of the
file at `[addr, addr + returned count)`. -/
theorem Read_file_bytes (env : FileEnv) (q q1 : QuickenMemoryFile) (file : String)
    (size : Nat) (bytes : List Nat)
    (h : QuickenMemoryFile.Init env q file 0 size = (true, q1))
    (hfile : env.files file = some bytes)
    (hK : env.QUICKEN_MEMORY_SLICE ≤ bytes.length) (addr len : Nat) :
    (q1.Read addr len).2 = (bytes.drop addr).take (q1.Read addr len).1
      ∧ (q1.Read addr len).2.length = (q1.Read addr len).1 := by
  obtain ⟨bytes1, hf, _, hss, hslice, hmap, hoff, _, hsz⟩ := Init_success env q q1 file 0 size h
  rw [hfile] at hf
  cases hf
  have ha : alignedOffset env 0 = 0 := by simp [alignedOffset]
  rw [if_pos rfl] at hss
  rw [Nat.zero_and] at hoff hsz
  rw [hss, ha] at hslice hmap
  have hsize : q1.size_ ≤ bytes.length := by
    have := mapLength_le env bytes.length 0 size
    omega
  have hsl : ∀ i, addr ≤ i → i < env.QUICKEN_MEMORY_SLICE →
      (fun i => q1.slice_.getD i 0) i = bytes.getD i 0 := by
    intro i _ hi
    have hk : env.QUICKEN_MEMORY_SLICE > 0 := by omega
    simp [hslice, hk, hi, fileMapping, List.getElem?_range]
  have hdata : ∀ i, env.QUICKEN_MEMORY_SLICE ≤ i → q1.data_ i = bytes.getD i 0 := by
    intro i hi
    have hni : ¬ i < env.QUICKEN_MEMORY_SLICE := by omega
    unfold QuickenMemoryFile.data_
    rw [hmap, hoff]
    by_cases hk : env.QUICKEN_MEMORY_SLICE > 0
    · simp [hk, hni, fileMapping]
    · simp [hk, fileMapping]
  have key : (q1.Read addr len).2 = (bytes.drop addr).take (q1.Read addr len).1
      ∧ (q1.Read addr len).1 ≤ bytes.length - addr := by
    unfold QuickenMemoryFile.Read
    rw [hss]
    by_cases haddr : addr < env.QUICKEN_MEMORY_SLICE
    · rw [if_pos haddr]
      obtain ⟨hn1, hb1⟩ := memory_copy_bytes (fun i => q1.slice_.getD i 0) bytes len addr
        env.QUICKEN_MEMORY_SLICE hK hsl
      rw [if_neg (by omega)] at hn1
      by_cases hspan : (addr + len) % 2 ^ 64 > env.QUICKEN_MEMORY_SLICE
      · rw [if_pos hspan]
        have hmod : (addr + len) % 2 ^ 64 ≤ addr + len := Nat.mod_le _ _
        obtain ⟨hn2, hb2⟩ := memory_copy_bytes q1.data_ bytes
          (len - (env.QUICKEN_MEMORY_SLICE - addr)) env.QUICKEN_MEMORY_SLICE q1.size_ hsize
          (fun i h1 _ => hdata i h1)
        have hn1' : (memory_copy (fun i => q1.slice_.getD i 0) len addr
            env.QUICKEN_MEMORY_SLICE).1 = env.QUICKEN_MEMORY_SLICE - addr := by
          rw [hn1]; omega
        simp only
        rw [hb1, hb2, hn1', List.take_add, List.drop_drop]
        have hk : addr + (env.QUICKEN_MEMORY_SLICE - addr) = env.QUICKEN_MEMORY_SLICE := by omega
        refine ⟨by rw [hk], ?_⟩
        rw [hn2]
        split_ifs <;> omega
      · rw [if_neg hspan]
        exact ⟨hb1, by rw [hn1]; omega⟩
    · rw [if_neg haddr]
      obtain ⟨hn, hb⟩ := memory_copy_bytes q1.data_ bytes len addr q1.size_ hsize
        (fun i h1 _ => hdata i (by omega))
      refine ⟨hb, ?_⟩
      rw [hn]
      split_ifs <;> omega
  refine ⟨key.1, ?_⟩
  rw [key.1, List.length_take, List.length_drop]
  omega

theorem memory_copy_count (f : Nat → Nat) (len off dsize : Nat) :
    (memory_copy f len off dsize).1 = if off ≥ dsize then 0 else min (dsize - off) len := by
  unfold memory_copy
  split_ifs <;> rfl

/-- When the readable length is at least the slice size and `addr + size` fits
64 bits, `Read` returns 0 for `addr >= size_` and `min(size, size_ - addr)`
otherwise. -/
theorem Read_count_of_slice_le_size (q : QuickenMemoryFile) (addr size : Nat)
    (hs : q.slice_size_ ≤ q.size_) (hfit : addr + size < 2 ^ 64) :
    (q.Read addr size).1 = if addr ≥ q.size_ then 0 else min size (q.size_ - addr) := by
  have hmod : (addr + size) % 2 ^ 64 = addr + size := Nat.mod_eq_of_lt hfit
  unfold QuickenMemoryFile.Read
  rw [hmod]
  by_cases haddr : addr < q.slice_size_
  · rw [if_pos haddr]
    by_cases hspan : addr + size > q.slice_size_
    · rw [if_pos hspan]
      simp only [memory_copy_count]
      split_ifs <;> omega
    · rw [if_neg hspan, memory_copy_count]
      split_ifs <;> omega
  · rw [if_neg haddr, memory_copy_count]
    split_ifs <;> omega

/-- C9, counterexample: `Init` at offset 8 of a 32-byte file succeeds and maps
from the aligned offset 0, so the mapping covers offset 0 of the file, but
`slice_size_` is 0, not `QUICKEN_MEMORY_SLICE`, and byte 1 of the mapping still
holds the byte of the file. -/
theorem Init_unaligned_offset_keeps_header :
    (QuickenMemoryFile.Init (exampleFileEnv 16 (List.range 32)) .fresh "f" 8 UINT64_MAX).1 = true
      ∧ alignedOffset (exampleFileEnv 16 (List.range 32)) 8 = 0
      ∧ (QuickenMemoryFile.Init (exampleFileEnv 16 (List.range 32)) .fresh "f" 8
          UINT64_MAX).2.slice_size_ = 0
      ∧ (exampleFileEnv 16 (List.range 32)).QUICKEN_MEMORY_SLICE = 16
      ∧ ((QuickenMemoryFile.Init (exampleFileEnv 16 (List.range 32)) .fresh "f" 8
          UINT64_MAX).2.map_addr_.map (fun m => m 1)) = some 1 := by
  refine ⟨by rfl, by rfl, by rfl, by rfl, by rfl⟩

/-- C9, amended: a successful `Init` with `offset == 0` copies the first
`QUICKEN_MEMORY_SLICE` bytes of the mapping into `slice_` and zeroes them in
the mapping (`slice_size_ == QUICKEN_MEMORY_SLICE`); a successful `Init` with
any other offset, also one whose aligned mapping offset is 0, leaves
`slice_size_` at 0 and the mapping as mapped. -/
theorem Init_redaction_condition (env : FileEnv) (q q1 : QuickenMemoryFile) (file : String)
    (offset size : Nat) (h : QuickenMemoryFile.Init env q file offset size = (true, q1)) :
    (offset = 0 →
        q1.slice_size_ = env.QUICKEN_MEMORY_SLICE
        ∧ ∃ bytes m, env.files file = some bytes ∧ q1.map_addr_ = some m
          ∧ q1.slice_.take env.QUICKEN_MEMORY_SLICE
              = (List.range env.QUICKEN_MEMORY_SLICE).map (fileMapping bytes 0)
          ∧ (∀ i, i < env.QUICKEN_MEMORY_SLICE → m i = 0)
          ∧ (∀ i, env.QUICKEN_MEMORY_SLICE ≤ i → m i = fileMapping bytes 0 i))
      ∧ (offset ≠ 0 →
        q1.slice_size_ = 0
        ∧ ∃ bytes, env.files file = some bytes
          ∧ q1.map_addr_ = some (fileMapping bytes (alignedOffset env offset))) := by
  obtain ⟨bytes, hf, _, hss, hslice, hmap, _, _, _⟩ := Init_success env q q1 file offset size h
  constructor
  · intro h0
    subst h0
    have ha : alignedOffset env 0 = 0 := by simp [alignedOffset]
    rw [if_pos rfl] at hss
    rw [hss, ha] at hslice hmap
    refine ⟨hss, bytes, _, hf, hmap, ?_, ?_, ?_⟩
    · rw [hslice]
      by_cases hk : env.QUICKEN_MEMORY_SLICE > 0
      · rw [if_pos hk]
        exact List.take_of_length_le (by simp)
      · have hk0 : env.QUICKEN_MEMORY_SLICE = 0 := by omega
        simp [hk0]
    · intro i hi
      have hk : env.QUICKEN_MEMORY_SLICE > 0 := by omega
      simp [hk, hi]
    · intro i hi
      by_cases hk : env.QUICKEN_MEMORY_SLICE > 0
      · have hni : ¬ i < env.QUICKEN_MEMORY_SLICE := by omega
        simp [hk, hni]
      · simp [hk]
  · intro h0
    rw [if_neg h0] at hss
    rw [hss] at hmap
    exact ⟨hss, bytes, hf, by simpa using hmap⟩

/-- C9, witness of the amended statement: `Init` at offset 0 of a 32-byte file
sets `slice_size_` to the slice size 16. -/
theorem Init_redaction_condition_witness :
    (QuickenMemoryFile.Init (exampleFileEnv 16 (List.range 32)) .fresh "f" 0
      UINT64_MAX).2.slice_size_ = 16 :=
  ((Init_redaction_condition (exampleFileEnv 16 (List.range 32)) .fresh
    (QuickenMemoryFile.Init (exampleFileEnv 16 (List.range 32)) .fresh "f" 0 UINT64_MAX).2
    "f" 0 UINT64_MAX (by rfl)).1 rfl).1

/-- C8, failing input: a file of one byte, `Init` at offset 0 with any slice
size of at least two bytes. `Init` succeeds with `size_ == 1`, and
`Read(1, dst, 1)` returns 1 although `addr >= size_`: the byte comes from
`slice_`, which is bounded by `slice_size_` only. -/
theorem Read_beyond_size_from_slice (k : Nat) :
    (QuickenMemoryFile.Init (exampleFileEnv (k + 2) [127]) .fresh "f" 0 UINT64_MAX).1 = true
      ∧ (QuickenMemoryFile.Init (exampleFileEnv (k + 2) [127]) .fresh "f" 0 UINT64_MAX).2.size_ = 1
      ∧ ((QuickenMemoryFile.Init (exampleFileEnv (k + 2) [127]) .fresh "f" 0
          UINT64_MAX).2.Read 1 1).1 = 1 := by
  have h3 : min (k + 2 - 1) 1 = 1 := by omega
  have r1 : List.range 1 = [0] := rfl
  refine ⟨?_, ?_, ?_⟩ <;>
    simp [QuickenMemoryFile.Init, exampleFileEnv, QuickenMemoryFile.Clear,
      QuickenMemoryFile.fresh, UINT64_MAX, QuickenMemoryFile.Read, memory_copy, fileMapping,
      mapLength, alignedOffset, h3, r1, List.getElem?_range]

/-- C7, failing input: a file holding the single byte 127, `Init` at offset 0
with any slice size of at least two bytes. `Read(0, dst, 2)` returns 2 and
delivers the bytes 127 and 0, but the file has only one byte at `[0, 2)`. -/
theorem Read_delivers_bytes_past_file_end (k : Nat) :
    (QuickenMemoryFile.Init (exampleFileEnv (k + 2) [127]) .fresh "f" 0 UINT64_MAX).1 = true
      ∧ (QuickenMemoryFile.Init (exampleFileEnv (k + 2) [127]) .fresh "f" 0
          UINT64_MAX).2.Read 0 2 = (2, [127, 0])
      ∧ (([127] : List Nat).drop 0).take 2 = [127] := by
  have h3 : min (k + 2) 2 = 2 := by omega
  have r2 : List.range 2 = [0, 1] := rfl
  refine ⟨?_, ?_, rfl⟩ <;>
    simp [QuickenMemoryFile.Init, exampleFileEnv, QuickenMemoryFile.Clear,
      QuickenMemoryFile.fresh, UINT64_MAX, QuickenMemoryFile.Read, memory_copy, fileMapping,
      mapLength, alignedOffset, h3, r2, List.getElem?_range]

/-! ### Claims on `QuickenMapInfo::CreateQuickenMemory` -/

/-- C10: for a readable or executable, non-device entry with `end > start`, a
non-empty name and `offset != 0`, whose own start is not a valid ELF and whose
`prev_real_map` has the same name and file offset 0, `CreateQuickenMemory`
sets `elf_start_offset = 0` and `elf_offset = offset`, sets `range_offset_end`
to `offset + (end - start)` (a `uint64_t` sum, equal to the plain sum when that
fits 64 bits) and marks the entry `memory_backed_elf`; it returns the two
ranges of the previous map and of the entry. -/
theorem CreateQuickenMemory_split_image (IsValidElf : MemoryRange → Bool) (mi : QuickenMapInfo)
    (prev : MapInfoRef) (range_offset_end : Nat)
    (hrange : mi.start < mi.end_)
    (hdev : mi.flags &&& MAPS_FLAGS_DEVICE_MAP = 0)
    (hprot : mi.flags &&& PROT_READ ≠ 0 ∨ mi.flags &&& PROT_EXEC ≠ 0)
    (hname : mi.name ≠ "")
    (hoffset : mi.offset ≠ 0)
    (helf : IsValidElf { begin_ := mi.start, length := mi.end_ - mi.start, offset := 0 } = false)
    (hprev : mi.prev_real_map = some prev)
    (hpname : prev.name = mi.name)
    (hpoff : prev.offset = 0) :
    (mi.CreateQuickenMemory IsValidElf range_offset_end).2.1.elf_start_offset = 0
      ∧ (mi.CreateQuickenMemory IsValidElf range_offset_end).2.1.elf_offset = mi.offset
      ∧ (mi.CreateQuickenMemory IsValidElf range_offset_end).2.2
          = (mi.offset + (mi.end_ - mi.start)) % 2 ^ 64
      ∧ (mi.offset + (mi.end_ - mi.start) < 2 ^ 64 →
          (mi.CreateQuickenMemory IsValidElf range_offset_end).2.2
            = mi.offset + (mi.end_ - mi.start))
      ∧ (mi.CreateQuickenMemory IsValidElf range_offset_end).2.1.memory_backed_elf = true
      ∧ (mi.CreateQuickenMemory IsValidElf range_offset_end).1
          = some (.ranges [
              { begin_ := prev.start, length := sub64 prev.end_ prev.start, offset := 0 },
              { begin_ := mi.start, length := mi.end_ - mi.start, offset := mi.offset }]) := by
  have h1 : ¬ mi.end_ ≤ mi.start := by omega
  have h2 : ¬ (mi.flags &&& PROT_READ = 0 ∧ mi.flags &&& PROT_EXEC = 0) := by
    intro hboth
    rcases hprot with h | h
    · exact h hboth.1
    · exact h hboth.2
  have h3 : mi.name.isEmpty = false := by
    cases hn : mi.name.isEmpty
    · rfl
    · exact absurd ((String.isEmpty_iff _).1 hn) hname
  have hrun : mi.CreateQuickenMemory IsValidElf range_offset_end
      = (some (.ranges [
            { begin_ := prev.start, length := sub64 prev.end_ prev.start, offset := 0 },
            { begin_ := mi.start, length := mi.end_ - mi.start, offset := mi.offset }]),
          { mi with elf_offset := mi.offset, elf_start_offset := 0, memory_backed_elf := true },
          (mi.offset + (mi.end_ - mi.start)) % 2 ^ 64) := by
    unfold QuickenMapInfo.CreateQuickenMemory
    simp [h1, hdev, h2, helf, hprev, hoffset, h3, hpname, hpoff]
  rw [hrun]
  refine ⟨rfl, rfl, rfl, ?_, rfl, rfl⟩
  intro hfit
  exact Nat.mod_eq_of_lt hfit

/-- C10, witness: the executable mapping `[0x2000, 0x5000)` of `a.so` at file
offset `0x1000`, after the read-only mapping of `a.so` at offset 0, resolves to
`elf_start_offset = 0`, `elf_offset = 0x1000`, `range_offset_end = 0x4000`. -/
theorem CreateQuickenMemory_split_image_witness :
    (exampleExecMap.CreateQuickenMemory (fun _ => false) 0).2.1.elf_start_offset = 0
      ∧ (exampleExecMap.CreateQuickenMemory (fun _ => false) 0).2.1.elf_offset = 0x1000
      ∧ (exampleExecMap.CreateQuickenMemory (fun _ => false) 0).2.2 = 0x4000
      ∧ (exampleExecMap.CreateQuickenMemory (fun _ => false) 0).2.1.memory_backed_elf = true := by
  have h := CreateQuickenMemory_split_image (fun _ => false) exampleExecMap
    { start := 0x1000, end_ := 0x2000, offset := 0, flags := 1, name := "a.so" } 0
    (by decide) (by decide) (by decide) (by decide) (by decide) rfl rfl rfl rfl
  exact ⟨h.1, h.2.1, h.2.2.2.1 (by decide), h.2.2.2.2.1⟩

/-! ### Claims on the memoization of `GetFdeInfoFromIndex` -/

theorem GetFdeInfoFromIndex_stores (env : DecoderEnv) (d d1 : DwarfEhFrameWithHdrDecoder)
    (i : Nat) (e : FdeInfo) (h : GetFdeInfoFromIndex env d i = (some e, d1)) :
    d1.fde_info_ i = some e := by
  unfold GetFdeInfoFromIndex at h
  cases hc : d.fde_info_ i with
  | some info =>
    rw [hc] at h
    simp only [Prod.mk.injEq, Option.some.injEq] at h
    rw [← h.2, ← h.1]
    exact hc
  | none =>
    rw [hc] at h
    simp only at h
    cases hr : ReadFdeInfo env d i with
    | mk a m =>
      rw [hr] at h
      cases a with
      | none => simp at h
      | some info =>
        simp only [Prod.mk.injEq, Option.some.injEq] at h
        rw [← h.2, ← h.1]
        simp

theorem GetFdeInfoFromIndex_keeps (env : DecoderEnv) (d : DwarfEhFrameWithHdrDecoder)
    (i j : Nat) (e : FdeInfo) (h : d.fde_info_ i = some e) :
    (GetFdeInfoFromIndex env d j).2.fde_info_ i = some e := by
  unfold GetFdeInfoFromIndex
  cases hc : d.fde_info_ j with
  | some info => exact h
  | none =>
    have hij : i ≠ j := by
      intro hij
      rw [hij, hc] at h
      cases h
    simp only
    cases hr : ReadFdeInfo env d j with
    | mk a m => cases a <;> simp [hij, h]

theorem runGetFdeInfo_keeps (calls : List (DecoderEnv × Nat)) (d : DwarfEhFrameWithHdrDecoder)
    (i : Nat) (e : FdeInfo) (h : d.fde_info_ i = some e) :
    (runGetFdeInfo calls d).fde_info_ i = some e := by
  induction calls generalizing d with
  | nil => exact h
  | cons c rest ih =>
    exact ih _ (GetFdeInfoFromIndex_keeps c.1 d i c.2 e h)

/-- C16: after a call of `GetFdeInfoFromIndex` for index `i` has succeeded,
every later call for `i`, after any further calls for any indices and whatever
the memory then contains, returns the same `(pc, offset)` pair from `fde_info_`
and leaves the decoder, with its memory cursor, untouched. -/
theorem GetFdeInfoFromIndex_memoized (env : DecoderEnv) (d d1 : DwarfEhFrameWithHdrDecoder)
    (i : Nat) (e : FdeInfo) (h : GetFdeInfoFromIndex env d i = (some e, d1))
    (later : List (DecoderEnv × Nat)) (env1 : DecoderEnv) :
    GetFdeInfoFromIndex env1 (runGetFdeInfo later d1) i = (some e, runGetFdeInfo later d1)
      ∧ (runGetFdeInfo later d1).fde_info_ i = some e := by
  have hk := runGetFdeInfo_keeps later d1 i e (GetFdeInfoFromIndex_stores env d d1 i e h)
  refine ⟨?_, hk⟩
  unfold GetFdeInfoFromIndex
  rw [hk]

/-- C16, witness: entry 1 of the table `(10,100), (20,200), (30,300)` is read
once; after a call for entry 0, a call for entry 1 on a memory without any
readable word still answers `(20, 200)`. -/
theorem GetFdeInfoFromIndex_memoized_witness :
    (GetFdeInfoFromIndex (wordMemory [])
      (runGetFdeInfo [(wordMemory [10, 100, 20, 200, 30, 300], 0)]
        (GetFdeInfoFromIndex (wordMemory [10, 100, 20, 200, 30, 300]) (exampleDecoder 3) 1).2)
      1).1 = some { pc := 20, offset := 200 } := by
  have h := (GetFdeInfoFromIndex_memoized (wordMemory [10, 100, 20, 200, 30, 300])
    (exampleDecoder 3)
    (GetFdeInfoFromIndex (wordMemory [10, 100, 20, 200, 30, 300]) (exampleDecoder 3) 1).2
    1 { pc := 20, offset := 200 } (by rfl)
    [(wordMemory [10, 100, 20, 200, 30, 300], 0)] (wordMemory [])).1
  rw [h]

/-! ### Claims on `QuickenMapInfo::CreateFileQuickenMemory` -/

theorem isEmpty_eq_false_of_ne (name : String) (h : name ≠ "") : name.isEmpty = false := by
  cases hn : name.isEmpty
  · rfl
  · exact absurd ((String.isEmpty_iff _).1 hn) h

/-- When no ELF is found at the mapped offset, the whole file is a valid ELF and
`prev_real_map` is a read-only mapping of the same file at offset 0,
`CreateFileQuickenMemory` returns the whole-file memory, sets `elf_offset` to
the file offset and assigns nothing to `elf_start_offset`. -/
theorem CreateFileQuickenMemory_whole_file_elf (env : Nat → FileEnv) (elf : ElfProbe)
    (mi : QuickenMapInfo) (prev : MapInfoRef) (m1 m2 : QuickenMemoryFile)
    (hrange : mi.start < mi.end_)
    (hdev : mi.flags &&& MAPS_FLAGS_DEVICE_MAP = 0)
    (hname : mi.name ≠ "")
    (hmemfd : StartsWith mi.name "/memfd:" = false)
    (hoffset : mi.offset ≠ 0)
    (hinit : QuickenMemoryFile.fresh.Init (env 0) mi.name mi.offset (sub64 mi.end_ mi.start)
      = (true, m1))
    (hnoelf : elf.GetInfo m1 = none)
    (hwhole : m1.Init (env 1) mi.name 0 UINT64_MAX = (true, m2))
    (hvalid : elf.IsValidElf m2 = true)
    (hprev : mi.prev_real_map = some prev)
    (hpflags : prev.flags = PROT_READ)
    (hpname : prev.name = mi.name)
    (hpoff : prev.offset = 0) :
    mi.CreateFileQuickenMemory env elf = (some m2, { mi with elf_offset := mi.offset }) := by
  have h1 : ¬ mi.end_ ≤ mi.start := by omega
  have h3 := isEmpty_eq_false_of_ne mi.name hname
  unfold QuickenMapInfo.CreateFileQuickenMemory
  simp only [h1, if_false, hdev, ne_eq, not_true_eq_false, h3, Bool.not_false, if_true]
  unfold QuickenMapInfo.CreateFileQuickenMemoryImpl
  simp only [hmemfd, Bool.false_eq_true, if_false, hoffset, hinit, hnoelf]
  unfold QuickenMapInfo.probeWholeFile
  simp [hwhole, hvalid, hprev, hpflags, hpname, hpoff]

/-- The conditions under which `Init` succeeds. -/
theorem Init_of_ok (env : FileEnv) (q : QuickenMemoryFile) (file : String) (offset size : Nat)
    (bytes : List Nat) (hf : env.files file = some bytes) (hlt : offset < bytes.length)
    (hal : alignedOffset env offset ≤ bytes.length)
    (hm : env.mmap_ok (mapLength env bytes.length offset size) (alignedOffset env offset) = true) :
    (q.Init env file offset size).1 = true
      ∧ (q.Init env file offset size).2.init_offset_ = offset
      ∧ (q.Init env file offset size).2.size_
          = mapLength env bytes.length offset size - (offset &&& (env.pagesize - 1)) := by
  have h1 : ¬ offset ≥ bytes.length := by omega
  have h2 : ¬ (alignedOffset env offset > bytes.length ∨ offset > bytes.length) := by omega
  unfold QuickenMemoryFile.Init
  simp only [hf, h1, h2, if_false, hm, Bool.true_eq_false]
  simp

/-- A file that `open` does not find: `Init` fails. -/
theorem Init_of_no_file (env : FileEnv) (q : QuickenMemoryFile) (file : String)
    (offset size : Nat) (hf : env.files file = none) :
    (q.Init env file offset size).1 = false := by
  unfold QuickenMemoryFile.Init
  simp only [hf]

theorem exampleSoEnv_Init (q : QuickenMemoryFile) (offset size : Nat) (h : offset < 0x5000)
    (hal : alignedOffset exampleSoEnv offset ≤ 0x5000)
    (hpos : 0 < mapLength exampleSoEnv 0x5000 offset size) :
    (q.Init exampleSoEnv "a.so" offset size).1 = true
      ∧ (q.Init exampleSoEnv "a.so" offset size).2.init_offset_ = offset := by
  have hf : exampleSoEnv.files "a.so" = some (List.replicate 0x5000 0) := by
    show (if "a.so" = "a.so" then some (List.replicate 0x5000 0) else none) = _
    exact if_pos rfl
  have hl : (List.replicate 0x5000 0).length = 0x5000 := List.length_replicate _ _
  have := Init_of_ok exampleSoEnv q "a.so" offset size _ hf (by rw [hl]; exact h)
    (by rw [hl]; exact hal) (by rw [hl]; exact decide_eq_true hpos)
  exact ⟨this.1, this.2.1⟩

theorem prod_eq_of_fst {α β : Type} (p : α × β) (a : α) (h : p.1 = a) : p = (a, p.2) := by
  cases p
  simp only at h
  rw [h]

theorem exampleElfProbe_GetInfo (m : QuickenMemoryFile) :
    exampleElfProbe.GetInfo m = if m.init_offset_ = 0 then some m.size_ else none :=
  rfl

theorem exampleElfProbe_IsValidElf (m : QuickenMemoryFile) :
    exampleElfProbe.IsValidElf m = decide (m.init_offset_ = 0) :=
  rfl

/-- The run of `CreateFileQuickenMemory` on the executable mapping
`[0x2000, 0x5000)` of `a.so` at file offset `0x1000`, after the read-only
mapping of `a.so` at offset 0, with whatever the entry holds in its derived
fields: no ELF is found at offset `0x1000`, the whole file is a valid ELF, and
the call returns a memory object, sets `elf_offset` and leaves the other fields
as they were. -/
theorem exampleExecMap_whole_file (mi : QuickenMapInfo) (hs : mi.start = 0x2000)
    (he : mi.end_ = 0x5000) (ho : mi.offset = 0x1000) (hfl : mi.flags = 5)
    (hn : mi.name = "a.so")
    (hp : mi.prev_real_map
      = some { start := 0x1000, end_ := 0x2000, offset := 0, flags := 1, name := "a.so" }) :
    ∃ m2, mi.CreateFileQuickenMemory (fun _ => exampleSoEnv) exampleElfProbe
      = (some m2, { mi with elf_offset := mi.offset }) := by
  have h1 := exampleSoEnv_Init QuickenMemoryFile.fresh 0x1000 0x3000 (by decide) (by decide)
    (by decide)
  have h2 := exampleSoEnv_Init
    (QuickenMemoryFile.fresh.Init exampleSoEnv "a.so" 0x1000 0x3000).2 0 UINT64_MAX
    (by decide) (by decide) (by decide)
  have e3 : sub64 mi.end_ mi.start = 0x3000 := by rw [hs, he]; decide
  have hinit : QuickenMemoryFile.fresh.Init exampleSoEnv mi.name
      mi.offset (sub64 mi.end_ mi.start)
      = (true, (QuickenMemoryFile.fresh.Init exampleSoEnv "a.so" 0x1000 0x3000).2) := by
    rw [hn, ho, e3]
    exact prod_eq_of_fst _ _ h1.1
  have hwhole : (QuickenMemoryFile.fresh.Init exampleSoEnv "a.so" 0x1000 0x3000).2.Init
      exampleSoEnv mi.name 0 UINT64_MAX
      = (true, ((QuickenMemoryFile.fresh.Init exampleSoEnv "a.so" 0x1000 0x3000).2.Init
          exampleSoEnv "a.so" 0 UINT64_MAX).2) := by
    rw [hn]
    exact prod_eq_of_fst _ _ h2.1
  have hnoelf : exampleElfProbe.GetInfo
      (QuickenMemoryFile.fresh.Init exampleSoEnv "a.so" 0x1000 0x3000).2 = none := by
    rw [exampleElfProbe_GetInfo, h1.2]
    rfl
  have hvalid : exampleElfProbe.IsValidElf
      ((QuickenMemoryFile.fresh.Init exampleSoEnv "a.so" 0x1000 0x3000).2.Init
        exampleSoEnv "a.so" 0 UINT64_MAX).2 = true := by
    rw [exampleElfProbe_IsValidElf, h2.2]
    rfl
  exact ⟨_, CreateFileQuickenMemory_whole_file_elf (fun _ => exampleSoEnv) exampleElfProbe
    mi { start := 0x1000, end_ := 0x2000, offset := 0, flags := 1, name := "a.so" }
    _ _ (by rw [hs, he]; decide) (by rw [hfl]; decide) (by rw [hn]; decide)
    (by rw [hn]; decide) (by rw [ho]; decide)
    hinit hnoelf hwhole hvalid hp rfl (by rw [hn]) rfl⟩

/-- C11, counterexample: the executable mapping `[0x2000, 0x5000)` of `a.so` at
file offset `0x1000`, after the read-only mapping of `a.so` at offset 0, in a
state where `elf_start_offset` is `0x1000`. No ELF is found at offset `0x1000`,
the whole file is a valid ELF, and the call returns a memory object with
`elf_offset == 0x1000` but leaves `elf_start_offset` at `0x1000`, not 0. -/
theorem CreateFileQuickenMemory_keeps_stale_start_offset :
    ((exampleStaleMap.CreateFileQuickenMemory (fun _ => exampleSoEnv)
        exampleElfProbe).1.isSome = true)
      ∧ (exampleStaleMap.CreateFileQuickenMemory (fun _ => exampleSoEnv)
          exampleElfProbe).2.elf_offset = 0x1000
      ∧ (exampleStaleMap.CreateFileQuickenMemory (fun _ => exampleSoEnv)
          exampleElfProbe).2.elf_start_offset = 0x1000 := by
  obtain ⟨m2, hrun⟩ := exampleExecMap_whole_file exampleStaleMap rfl rfl rfl rfl rfl rfl
  rw [hrun]
  exact ⟨rfl, rfl, rfl⟩

/-- C11, amended: for every map entry state whose `elf_start_offset` is 0 before
the call, as in an entry just constructed, with `offset != 0`, where no ELF is
found at the mapped offset but the whole file is a valid ELF, and whose
`prev_real_map` is a read-only mapping (`flags == PROT_READ`) of the same file
at offset 0, `CreateFileQuickenMemory` returns the whole-file memory object and
leaves the entry with `elf_start_offset == 0` and `elf_offset == offset`. -/
theorem CreateFileQuickenMemory_split_image (env : Nat → FileEnv) (elf : ElfProbe)
    (mi : QuickenMapInfo) (prev : MapInfoRef) (m1 m2 : QuickenMemoryFile)
    (hstart : mi.elf_start_offset = 0)
    (hrange : mi.start < mi.end_)
    (hdev : mi.flags &&& MAPS_FLAGS_DEVICE_MAP = 0)
    (hname : mi.name ≠ "")
    (hmemfd : StartsWith mi.name "/memfd:" = false)
    (hoffset : mi.offset ≠ 0)
    (hinit : QuickenMemoryFile.fresh.Init (env 0) mi.name mi.offset (sub64 mi.end_ mi.start)
      = (true, m1))
    (hnoelf : elf.GetInfo m1 = none)
    (hwhole : m1.Init (env 1) mi.name 0 UINT64_MAX = (true, m2))
    (hvalid : elf.IsValidElf m2 = true)
    (hprev : mi.prev_real_map = some prev)
    (hpflags : prev.flags = PROT_READ)
    (hpname : prev.name = mi.name)
    (hpoff : prev.offset = 0) :
    (mi.CreateFileQuickenMemory env elf).1 = some m2
      ∧ (mi.CreateFileQuickenMemory env elf).2.elf_start_offset = 0
      ∧ (mi.CreateFileQuickenMemory env elf).2.elf_offset = mi.offset := by
  rw [CreateFileQuickenMemory_whole_file_elf env elf mi prev m1 m2 hrange hdev hname hmemfd
    hoffset hinit hnoelf hwhole hvalid hprev hpflags hpname hpoff]
  exact ⟨rfl, hstart, rfl⟩

/-- C11, witness of the amended statement: the entry that `ParseImpl` builds for
the executable mapping of the example split image is `exampleExecMap`, with
`elf_start_offset == 0`; on it the call returns the whole-file memory and leaves
`elf_start_offset == 0` and `elf_offset == 0x1000`. -/
theorem CreateFileQuickenMemory_split_image_witness :
    ((Maps.new 1024).ParseImpl exampleSplitParseEnv).bind (fun r => r.2.entryAt 1)
        = some exampleExecMap
      ∧ (exampleExecMap.CreateFileQuickenMemory (fun _ => exampleSoEnv)
          exampleElfProbe).1.isSome = true
      ∧ (exampleExecMap.CreateFileQuickenMemory (fun _ => exampleSoEnv)
          exampleElfProbe).2.elf_start_offset = 0
      ∧ (exampleExecMap.CreateFileQuickenMemory (fun _ => exampleSoEnv)
          exampleElfProbe).2.elf_offset = 0x1000 := by
  have h1 := exampleSoEnv_Init QuickenMemoryFile.fresh 0x1000 0x3000 (by decide) (by decide)
    (by decide)
  have h2 := exampleSoEnv_Init
    (QuickenMemoryFile.fresh.Init exampleSoEnv "a.so" 0x1000 0x3000).2 0 UINT64_MAX
    (by decide) (by decide) (by decide)
  have hnoelf : exampleElfProbe.GetInfo
      (QuickenMemoryFile.fresh.Init exampleSoEnv "a.so" 0x1000 0x3000).2 = none := by
    rw [exampleElfProbe_GetInfo, h1.2]
    rfl
  have hvalid : exampleElfProbe.IsValidElf
      ((QuickenMemoryFile.fresh.Init exampleSoEnv "a.so" 0x1000 0x3000).2.Init
        exampleSoEnv "a.so" 0 UINT64_MAX).2 = true := by
    rw [exampleElfProbe_IsValidElf, h2.2]
    rfl
  have h := CreateFileQuickenMemory_split_image (fun _ => exampleSoEnv) exampleElfProbe
    exampleExecMap { start := 0x1000, end_ := 0x2000, offset := 0, flags := 1, name := "a.so" }
    (QuickenMemoryFile.fresh.Init exampleSoEnv "a.so" 0x1000 0x3000).2
    ((QuickenMemoryFile.fresh.Init exampleSoEnv "a.so" 0x1000 0x3000).2.Init
      exampleSoEnv "a.so" 0 UINT64_MAX).2
    rfl (by decide) (by decide) (by decide) (by decide) (by decide)
    (prod_eq_of_fst _ _ h1.1) hnoelf (prod_eq_of_fst _ _ h2.1) hvalid rfl rfl rfl rfl
  refine ⟨by rfl, ?_, h.2.1, h.2.2⟩
  rw [h.1]
  rfl

/-- C13: for an entry with `offset != 0` for which an ELF is found at the mapped
offset (`Init(name, offset, map_size)` succeeds and `Elf::GetInfo` is true),
`CreateFileQuickenMemoryImpl` returns a memory object when the ELF is no larger
than the map or one of the two re-initialisations succeeds, and every non-null
result has `elf_start_offset == offset` and `elf_offset` unchanged; the result
does not depend on the whole-file probe `Elf::IsValidElf`, which is not reached;
and if the ELF is larger than the map and both re-initialisations fail, the call
returns null with `elf_start_offset` reset to 0. -/
theorem CreateFileQuickenMemoryImpl_embedded (env : Nat → FileEnv) (elf : ElfProbe)
    (mi : QuickenMapInfo) (m1 : QuickenMemoryFile) (max_size : Nat)
    (hmemfd : StartsWith mi.name "/memfd:" = false)
    (hoffset : mi.offset ≠ 0)
    (hinit : QuickenMemoryFile.fresh.Init (env 0) mi.name mi.offset (sub64 mi.end_ mi.start)
      = (true, m1))
    (helf : elf.GetInfo m1 = some max_size) :
    (∀ m, (mi.CreateFileQuickenMemoryImpl env elf).1 = some m →
        (mi.CreateFileQuickenMemoryImpl env elf).2.elf_start_offset = mi.offset
        ∧ (mi.CreateFileQuickenMemoryImpl env elf).2.elf_offset = mi.elf_offset)
      ∧ (max_size ≤ sub64 mi.end_ mi.start →
        (mi.CreateFileQuickenMemoryImpl env elf).1 = some m1)
      ∧ (max_size > sub64 mi.end_ mi.start →
        (m1.Init (env 1) mi.name mi.offset max_size).1 = true →
        (mi.CreateFileQuickenMemoryImpl env elf).1
          = some (m1.Init (env 1) mi.name mi.offset max_size).2)
      ∧ (max_size > sub64 mi.end_ mi.start →
        (m1.Init (env 1) mi.name mi.offset max_size).1 = false →
        ((m1.Init (env 1) mi.name mi.offset max_size).2.Init (env 2) mi.name mi.offset
          (sub64 mi.end_ mi.start)).1 = true →
        (mi.CreateFileQuickenMemoryImpl env elf).1
          = some ((m1.Init (env 1) mi.name mi.offset max_size).2.Init (env 2) mi.name
              mi.offset (sub64 mi.end_ mi.start)).2)
      ∧ (∀ probe : QuickenMemoryFile → Bool,
        mi.CreateFileQuickenMemoryImpl env { elf with IsValidElf := probe }
          = mi.CreateFileQuickenMemoryImpl env elf)
      ∧ (max_size > sub64 mi.end_ mi.start →
        (m1.Init (env 1) mi.name mi.offset max_size).1 = false →
        ((m1.Init (env 1) mi.name mi.offset max_size).2.Init (env 2) mi.name mi.offset
          (sub64 mi.end_ mi.start)).1 = false →
        (mi.CreateFileQuickenMemoryImpl env elf).1 = none
        ∧ (mi.CreateFileQuickenMemoryImpl env elf).2.elf_start_offset = 0
        ∧ (mi.CreateFileQuickenMemoryImpl env elf).2.elf_offset = mi.elf_offset) := by
  have hrun : ∀ probe : QuickenMemoryFile → Bool,
      mi.CreateFileQuickenMemoryImpl env { elf with IsValidElf := probe }
        = if max_size > sub64 mi.end_ mi.start then
            match m1.Init (env 1) mi.name mi.offset max_size with
            | (true, m2) => (some m2, { mi with elf_start_offset := mi.offset })
            | (false, m2) =>
              match m2.Init (env 2) mi.name mi.offset (sub64 mi.end_ mi.start) with
              | (true, m3) => (some m3, { mi with elf_start_offset := mi.offset })
              | (false, _) => (none, { mi with elf_start_offset := 0 })
          else (some m1, { mi with elf_start_offset := mi.offset }) := by
    intro probe
    unfold QuickenMapInfo.CreateFileQuickenMemoryImpl
    simp only [hmemfd, Bool.false_eq_true, if_false, hoffset, hinit, helf]
  have hself := hrun elf.IsValidElf
  have heta : ({ elf with IsValidElf := elf.IsValidElf } : ElfProbe) = elf := rfl
  rw [heta] at hself
  have hshape : (mi.CreateFileQuickenMemoryImpl env elf).1 = none
      ∨ ((mi.CreateFileQuickenMemoryImpl env elf).2.elf_start_offset = mi.offset
        ∧ (mi.CreateFileQuickenMemoryImpl env elf).2.elf_offset = mi.elf_offset) := by
    rw [hself]
    by_cases hbig : max_size > sub64 mi.end_ mi.start
    · rw [if_pos hbig]
      cases m1.Init (env 1) mi.name mi.offset max_size with
      | mk ok m2 =>
        cases ok with
        | true => exact Or.inr ⟨rfl, rfl⟩
        | false =>
          simp only
          cases m2.Init (env 2) mi.name mi.offset (sub64 mi.end_ mi.start) with
          | mk ok3 m3 =>
            cases ok3 with
            | true => exact Or.inr ⟨rfl, rfl⟩
            | false => exact Or.inl rfl
    · rw [if_neg hbig]
      exact Or.inr ⟨rfl, rfl⟩
  refine ⟨?_, ?_, ?_, ?_, ?_, ?_⟩
  · intro m hm
    rcases hshape with h | h
    · rw [h] at hm
      cases hm
    · exact h
  · intro hsmall
    rw [hself, if_neg (by omega)]
  · intro hbig h2
    rw [hself, if_pos hbig]
    revert h2
    cases m1.Init (env 1) mi.name mi.offset max_size with
    | mk ok m2 =>
      intro h2
      simp only at h2
      subst h2
      rfl
  · intro hbig h2 h3
    rw [hself, if_pos hbig]
    revert h2 h3
    cases m1.Init (env 1) mi.name mi.offset max_size with
    | mk ok m2 =>
      intro h2 h3
      simp only at h2 h3
      subst h2
      simp only
      revert h3
      cases m2.Init (env 2) mi.name mi.offset (sub64 mi.end_ mi.start) with
      | mk ok3 m3 =>
        intro h3
        simp only at h3
        subst h3
        rfl
  · intro probe
    rw [hrun probe, hself]
  · intro hbig h2 h3
    rw [hself, if_pos hbig]
    revert h2 h3
    cases m1.Init (env 1) mi.name mi.offset max_size with
    | mk ok m2 =>
      intro h2 h3
      simp only at h2 h3
      subst h2
      simp only
      revert h3
      cases m2.Init (env 2) mi.name mi.offset (sub64 mi.end_ mi.start) with
      | mk ok3 m3 =>
        intro h3
        simp only at h3
        subst h3
        exact ⟨rfl, rfl, rfl⟩

/-- C13, witness: for the mapping `[0x2000, 0x5000)` of `a.so` at offset
`0x1000`. Where an ELF of `0x2000` bytes is found at the mapped offset, the call
returns a memory object and `elf_start_offset` is `0x1000`, with `elf_offset`
still 0, whether the whole-file probe would fail or succeed. Where the ELF found
has `0x4000` bytes and the file is removed after the first `Init`, both
re-initialisations fail and the call returns null with `elf_start_offset` 0. -/
theorem CreateFileQuickenMemoryImpl_embedded_witness :
    ((exampleEmbeddedMap.CreateFileQuickenMemoryImpl (fun _ => exampleSoEnv)
        exampleEmbeddedProbe).1.isSome = true
      ∧ (exampleEmbeddedMap.CreateFileQuickenMemoryImpl (fun _ => exampleSoEnv)
          exampleEmbeddedProbe).2.elf_start_offset = 0x1000
      ∧ (exampleEmbeddedMap.CreateFileQuickenMemoryImpl (fun _ => exampleSoEnv)
          exampleEmbeddedProbe).2.elf_offset = 0
      ∧ exampleEmbeddedMap.CreateFileQuickenMemoryImpl (fun _ => exampleSoEnv)
          { exampleEmbeddedProbe with IsValidElf := fun _ => false }
        = exampleEmbeddedMap.CreateFileQuickenMemoryImpl (fun _ => exampleSoEnv)
          exampleEmbeddedProbe)
      ∧ (exampleEmbeddedMap.CreateFileQuickenMemoryImpl exampleVanishingEnv
          exampleLargeProbe).1 = none
      ∧ (exampleEmbeddedMap.CreateFileQuickenMemoryImpl exampleVanishingEnv
          exampleLargeProbe).2.elf_start_offset = 0 := by
  have h1 := exampleSoEnv_Init QuickenMemoryFile.fresh 0x1000 0x3000 (by decide) (by decide)
    (by decide)
  have hinit : QuickenMemoryFile.fresh.Init exampleSoEnv exampleEmbeddedMap.name
      exampleEmbeddedMap.offset (sub64 exampleEmbeddedMap.end_ exampleEmbeddedMap.start)
      = (true, (QuickenMemoryFile.fresh.Init exampleSoEnv "a.so" 0x1000 0x3000).2) :=
    prod_eq_of_fst _ _ h1.1
  have hA := CreateFileQuickenMemoryImpl_embedded (fun _ => exampleSoEnv) exampleEmbeddedProbe
    exampleEmbeddedMap _ 0x2000 (by decide) (by decide) hinit rfl
  have hB := CreateFileQuickenMemoryImpl_embedded exampleVanishingEnv exampleLargeProbe
    exampleEmbeddedMap _ 0x4000 (by decide) (by decide) hinit rfl
  have hsome := hA.2.1 (by decide)
  have hnull := hB.2.2.2.2.2 (by decide)
    (Init_of_no_file _ _ _ _ _ rfl) (Init_of_no_file _ _ _ _ _ rfl)
  refine ⟨⟨?_, (hA.1 _ hsome).1, (hA.1 _ hsome).2, hA.2.2.2.2.1 (fun _ => false)⟩,
    hnull.1, hnull.2.1⟩
  rw [hsome]
  rfl

/-- C12: for an eligible entry (`end > start`, not a device map, readable or
executable) whose own start is a valid ELF and that has no continuation
(`offset != 0`, or an empty name, or no `next_real_map_`, or a
`next_real_map_` with a different name or a file offset `<=` the entry's),
`CreateQuickenMemory` returns one memory range over `[start, end)` with
`elf_start_offset = offset`, `elf_offset = 0` and
`range_offset_end = end - start`. -/
theorem CreateQuickenMemory_self_contained (IsValidElf : MemoryRange → Bool)
    (mi : QuickenMapInfo) (range_offset_end : Nat)
    (hrange : mi.start < mi.end_)
    (hdev : mi.flags &&& MAPS_FLAGS_DEVICE_MAP = 0)
    (hprot : mi.flags &&& PROT_READ ≠ 0 ∨ mi.flags &&& PROT_EXEC ≠ 0)
    (helf : IsValidElf { begin_ := mi.start, length := mi.end_ - mi.start, offset := 0 } = true)
    (hlast : mi.offset ≠ 0 ∨ mi.name = "" ∨ mi.next_real_map_ = none
      ∨ ∃ next, mi.next_real_map_ = some next
          ∧ (next.name ≠ mi.name ∨ next.offset ≤ mi.offset)) :
    mi.CreateQuickenMemory IsValidElf range_offset_end
      = (some (.range { begin_ := mi.start, length := mi.end_ - mi.start, offset := 0 }),
          { mi with elf_offset := 0, elf_start_offset := mi.offset },
          mi.end_ - mi.start) := by
  have h1 : ¬ mi.end_ ≤ mi.start := by omega
  have h2 : ¬ (mi.flags &&& PROT_READ = 0 ∧ mi.flags &&& PROT_EXEC = 0) := by
    intro hboth
    rcases hprot with h | h
    · exact h hboth.1
    · exact h hboth.2
  unfold QuickenMapInfo.CreateQuickenMemory
  simp only [h1, if_false, hdev, ne_eq, not_true_eq_false, h2, helf, if_true]
  cases hnext : mi.next_real_map_ with
  | none => rfl
  | some next =>
    simp only
    have hcond : mi.offset ≠ 0 ∨ mi.name.isEmpty = true ∨ mi.offset ≥ next.offset
        ∨ next.name ≠ mi.name := by
      rcases hlast with h | h | h | ⟨n, hn, h⟩
      · exact Or.inl h
      · exact Or.inr (Or.inl ((String.isEmpty_iff _).2 h))
      · rw [hnext] at h
        cases h
      · rw [hnext] at hn
        cases hn
        rcases h with h | h
        · exact Or.inr (Or.inr (Or.inr h))
        · exact Or.inr (Or.inr (Or.inl h))
    rw [if_pos hcond]

/-- C12, witness: the mapping `[0x7000, 0x9000)` of `b.so` at offset 0, whose
start is a valid ELF and which has no next mapping, resolves to one range of
`0x2000` bytes with `elf_start_offset = 0`. -/
theorem CreateQuickenMemory_self_contained_witness :
    exampleWholeMap.CreateQuickenMemory (fun _ => true) 0
      = (some (.range { begin_ := 0x7000, length := 0x2000, offset := 0 }),
          exampleWholeMap, 0x2000) :=
  CreateQuickenMemory_self_contained (fun _ => true) exampleWholeMap 0
    (by decide) (by decide) (by decide) rfl (Or.inr (Or.inr (Or.inl rfl)))

/-! ### Claims on `Maps::ParseImpl` and `Maps::Parse` -/

theorem parseCallback_tmp_maps (B : QuickenMapInfo → Bool) (st : ParseState) (l : MapLine) :
    (parseCallback B st l).tmp_maps
        = st.tmp_maps
          ++ [QuickenMapInfo.new st.prev_real_map l.start l.end_ l.pgoff
                (markDevice l.flags l.name) l.name]
      ∧ (parseCallback B st l).tmp_idx = st.tmp_idx + 1
      ∧ (parseCallback B st l).prev_real_map
          = (if B (QuickenMapInfo.new st.prev_real_map l.start l.end_ l.pgoff
                (markDevice l.flags l.name) l.name) = true then st.prev_real_map
             else some (QuickenMapInfo.new st.prev_real_map l.start l.end_ l.pgoff
                (markDevice l.flags l.name) l.name).toRef) := by
  unfold parseCallback
  simp only
  cases hb : B (QuickenMapInfo.new st.prev_real_map l.start l.end_ l.pgoff
      (markDevice l.flags l.name) l.name) <;> simp <;> split_ifs <;> simp

/-- The entries carry the data of the lines, with the device flag added. -/
theorem foldl_parseCallback_lines (B : QuickenMapInfo → Bool) (lines : List MapLine) :
    ∀ st : ParseState,
      ((lines.foldl (parseCallback B) st).tmp_maps).map QuickenMapInfo.toLine
          = st.tmp_maps.map QuickenMapInfo.toLine
            ++ lines.map (fun l => { l with flags := markDevice l.flags l.name })
        ∧ (lines.foldl (parseCallback B) st).tmp_idx = st.tmp_idx + lines.length := by
  induction lines with
  | nil => intro st; simp
  | cons l rest ih =>
    intro st
    obtain ⟨h1, h2⟩ := ih (parseCallback B st l)
    obtain ⟨g1, g2, _⟩ := parseCallback_tmp_maps B st l
    rw [List.foldl_cons, h1, h2, g1, g2]
    constructor
    · simp [QuickenMapInfo.toLine, QuickenMapInfo.new]
    · simp only [List.length_cons]
      omega

/-- Every entry is linked to the last entry before it that is not blank. -/
theorem foldl_parseCallback_links (B : QuickenMapInfo → Bool) (lines : List MapLine) :
    ∀ st : ParseState,
      st.prev_real_map = lastReal B st.tmp_maps →
      (∀ i e, st.tmp_maps[i]? = some e → e.prev_real_map = lastReal B (st.tmp_maps.take i)) →
      (lines.foldl (parseCallback B) st).prev_real_map
          = lastReal B (lines.foldl (parseCallback B) st).tmp_maps
        ∧ ∀ i e, (lines.foldl (parseCallback B) st).tmp_maps[i]? = some e →
            e.prev_real_map = lastReal B ((lines.foldl (parseCallback B) st).tmp_maps.take i) := by
  induction lines with
  | nil => intro st h1 h2; exact ⟨h1, h2⟩
  | cons l rest ih =>
    intro st h1 h2
    rw [List.foldl_cons]
    obtain ⟨g1, _, g3⟩ := parseCallback_tmp_maps B st l
    apply ih
    · rw [g3, g1]
      unfold lastReal
      rw [List.reverse_append, List.reverse_singleton, List.singleton_append, List.find?_cons]
      cases hb : B (QuickenMapInfo.new st.prev_real_map l.start l.end_ l.pgoff
          (markDevice l.flags l.name) l.name)
      · simp
      · simp only [Bool.not_true, if_true]
        rw [h1]
        rfl
    · intro i e he
      rw [g1] at he ⊢
      by_cases hi : i < st.tmp_maps.length
      · rw [List.getElem?_append_left hi] at he
        rw [List.take_append_of_le_length (Nat.le_of_lt hi)]
        exact h2 i e he
      · by_cases hi2 : i = st.tmp_maps.length
        · subst hi2
          rw [List.getElem?_append_right (Nat.le_refl _)] at he
          simp only [Nat.sub_self, List.getElem?_cons_zero, Option.some.injEq] at he
          rw [List.take_left' rfl, ← he]
          exact h1
        · rw [List.getElem?_append_right (by omega)] at he
          have : i - st.tmp_maps.length ≠ 0 := by omega
          obtain ⟨k, hk⟩ := Nat.exists_eq_succ_of_ne_zero this
          rw [hk] at he
          simp at he

theorem device_bit_of_or (x : Nat) : (x ||| MAPS_FLAGS_DEVICE_MAP) &&& MAPS_FLAGS_DEVICE_MAP ≠ 0 := by
  intro h
  have hb : Nat.testBit ((x ||| MAPS_FLAGS_DEVICE_MAP) &&& MAPS_FLAGS_DEVICE_MAP) 15 = true := by
    have h15 : Nat.testBit MAPS_FLAGS_DEVICE_MAP 15 = true := by decide
    simp [Nat.testBit_and, Nat.testBit_or, h15]
  rw [h] at hb
  simp at hb

/-- What a successful `ParseImpl` stores in the snapshot. -/
theorem ParseImpl_success (env : ParseEnv) (m m1 : Maps)
    (h : m.ParseImpl env = some (true, m1)) :
    m.maps_capacity_ ≠ 0
      ∧ m1.local_maps_ = some (parseLines env m.maps_capacity_).tmp_maps
      ∧ m1.maps_size_ = (parseLines env m.maps_capacity_).tmp_idx
      ∧ m1.maps_capacity_ = (parseLines env m.maps_capacity_).tmp_capacity
      ∧ (parseLines env m.maps_capacity_).tmp_idx = env.lines.length
      ∧ (parseLines env m.maps_capacity_).tmp_maps.map QuickenMapInfo.toLine
          = env.lines.map (fun l => { l with flags := markDevice l.flags l.name }) := by
  unfold Maps.ParseImpl at h
  by_cases hc : m.maps_capacity_ = 0
  · rw [if_pos hc] at h
    cases h
  · rw [if_neg hc] at h
    simp only at h
    by_cases hr : env.ret = true
    · rw [if_pos hr] at h
      simp only [Option.some.injEq, Prod.mk.injEq, true_and] at h
      subst h
      obtain ⟨f1, f2⟩ := foldl_parseCallback_lines env.IsBlank env.lines
        { prev_map := none, prev_real_map := none, tmp_maps := [], tmp_idx := 0,
          tmp_capacity := m.maps_capacity_ }
      refine ⟨hc, rfl, rfl, rfl, ?_, ?_⟩
      · unfold parseLines
        rw [f2]
        simp
      · unfold parseLines
        rw [f1]
        simp
    · rw [if_neg hr] at h
      simp at h

/-- An entry of a parsed snapshot and the line of the map file it was built
from. -/
theorem ParseImpl_entry_line (env : ParseEnv) (m m1 : Maps)
    (h : m.ParseImpl env = some (true, m1)) (i : Nat) (e : QuickenMapInfo)
    (he : m1.entryAt i = some e) :
    (parseLines env m.maps_capacity_).tmp_maps[i]? = some e
      ∧ ∃ l, env.lines[i]? = some l
        ∧ e.toLine = { l with flags := markDevice l.flags l.name } := by
  obtain ⟨_, h1, _, _, _, h5⟩ := ParseImpl_success env m m1 h
  have hi := Maps_entryAt_lt m1 i e he
  rw [Maps_entryAt_some m1 _ h1 i hi] at he
  refine ⟨he, ?_⟩
  have hmap := congrArg (fun xs => xs[i]?) h5
  simp only [List.getElem?_map, he, Option.map_some'] at hmap
  cases hl : env.lines[i]? with
  | none => rw [hl] at hmap; simp at hmap
  | some l =>
    rw [hl] at hmap
    simp only [Option.map_some', Option.some.injEq] at hmap
    exact ⟨l, rfl, hmap⟩

/-- C17: `ParseImpl` sets `MAPS_FLAGS_DEVICE_MAP` on a mapping exactly when its
name starts with `"/dev/"` and the text after `"/dev/"` does not start with
`"ashmem/"`: a parse that `ReadMapFile` reports as successful stores one entry
for each mapping, in order, with the name of the mapping and with its flags, to
which the bit is added exactly in that case. For every entry that carries the
flag both `CreateQuickenMemory` and `CreateFileQuickenMemory` return null. -/
theorem device_maps_ineligible (env : ParseEnv) (m : Maps)
    (hcap : m.maps_capacity_ ≠ 0) (hret : env.ret = true) :
    ∃ m1, m.ParseImpl env = some (true, m1)
      ∧ m1.maps_size_ = env.lines.length
      ∧ (∀ i l, env.lines[i]? = some l →
          ∃ e, m1.entryAt i = some e ∧ e.name = l.name
            ∧ e.flags = (if StartsWith l.name "/dev/" = true
                  ∧ "ashmem/".toList.isPrefixOf (l.name.toList.drop 5) = false
                then l.flags ||| MAPS_FLAGS_DEVICE_MAP else l.flags)
            ∧ (l.flags &&& MAPS_FLAGS_DEVICE_MAP = 0 →
                (e.flags &&& MAPS_FLAGS_DEVICE_MAP ≠ 0 ↔
                  (StartsWith l.name "/dev/" = true
                    ∧ "ashmem/".toList.isPrefixOf (l.name.toList.drop 5) = false))))
      ∧ (∀ (mi : QuickenMapInfo), mi.flags &&& MAPS_FLAGS_DEVICE_MAP ≠ 0 →
        ∀ (IsValidElf : MemoryRange → Bool) (range_offset_end : Nat) (fenv : Nat → FileEnv)
          (elf : ElfProbe),
          (mi.CreateQuickenMemory IsValidElf range_offset_end).1 = none
            ∧ (mi.CreateFileQuickenMemory fenv elf).1 = none) := by
  have h : m.ParseImpl env
      = some (true,
          { m with
            local_maps_ := some (parseLines env m.maps_capacity_).tmp_maps
            maps_capacity_ := (parseLines env m.maps_capacity_).tmp_capacity
            maps_size_ := (parseLines env m.maps_capacity_).tmp_idx }) := by
    unfold Maps.ParseImpl
    rw [if_neg hcap]
    simp only [hret, if_true]
  obtain ⟨_, h1, h2, _, h4, h5⟩ := ParseImpl_success env m _ h
  refine ⟨_, h, h2.trans h4, ?_, ?_⟩
  · intro i l hl
    have hlen : (parseLines env m.maps_capacity_).tmp_maps.length = env.lines.length := by
      have := congrArg List.length h5
      simpa using this
    have hi : i < env.lines.length := by
      by_contra hcon
      rw [List.getElem?_eq_none (Nat.le_of_not_lt hcon)] at hl
      cases hl
    obtain ⟨e, he⟩ : ∃ e, (parseLines env m.maps_capacity_).tmp_maps[i]? = some e :=
      ⟨_, List.getElem?_eq_getElem (by rw [hlen]; exact hi)⟩
    have hentry := Maps_entryAt_some _ _ h1 i (by rw [h2, h4]; exact hi)
    rw [he] at hentry
    obtain ⟨_, l1, hl1, hline⟩ := ParseImpl_entry_line env m _ h i e hentry
    rw [hl] at hl1
    cases hl1
    have hname : e.name = l.name := congrArg MapLine.name hline
    have hflags : e.flags = markDevice l.flags l.name := congrArg MapLine.flags hline
    have hdev : isDeviceName l.name = true ↔ (StartsWith l.name "/dev/" = true
        ∧ "ashmem/".toList.isPrefixOf (l.name.toList.drop 5) = false) := by
      simp [isDeviceName]
    refine ⟨e, hentry, hname, ?_, ?_⟩
    · rw [hflags]
      unfold markDevice
      by_cases hd : isDeviceName l.name = true
      · rw [if_pos hd, if_pos (hdev.1 hd)]
      · rw [if_neg hd, if_neg (fun hc => hd (hdev.2 hc))]
    · intro hclean
      rw [hflags, ← hdev]
      unfold markDevice
      by_cases hd : isDeviceName l.name = true
      · rw [if_pos hd]
        exact ⟨fun _ => hd, fun _ => device_bit_of_or l.flags⟩
      · rw [if_neg hd]
        exact ⟨fun hc => absurd hclean hc, fun hc => absurd hc hd⟩
  · intro mi hdev IsValidElf range_offset_end fenv elf
    constructor
    · unfold QuickenMapInfo.CreateQuickenMemory
      by_cases h1 : mi.end_ ≤ mi.start
      · rw [if_pos h1]
      · simp only [h1, if_false, ne_eq, hdev, not_false_eq_true, if_true]
    · unfold QuickenMapInfo.CreateFileQuickenMemory
      by_cases h1 : mi.end_ ≤ mi.start
      · rw [if_pos h1]
      · simp only [h1, if_false, ne_eq, hdev, not_false_eq_true, if_true]

/-- C17, witness: in the snapshot parsed from the example map file the entry of
the mapping `/dev/kgsl-3d0` has the flags `0x8003`, and both memory constructors
return null for it; the entry of `/dev/ashmem/x` keeps the flags 3, and
`CreateQuickenMemory` returns a memory object for it. -/
theorem device_maps_ineligible_witness :
    (∃ e, exampleParsedMaps.entryAt 2 = some e ∧ e.name = "/dev/kgsl-3d0"
        ∧ e.flags = 0x8003
        ∧ (e.CreateQuickenMemory (fun _ => true) 0).1 = none
        ∧ (e.CreateFileQuickenMemory (fun _ => exampleSoEnv) exampleElfProbe).1 = none)
      ∧ (∃ e, exampleParsedMaps.entryAt 3 = some e ∧ e.name = "/dev/ashmem/x"
        ∧ e.flags = 3
        ∧ (e.CreateQuickenMemory (fun _ => true) 0).1 ≠ none) := by
  obtain ⟨m1, hp, _, hent, hnull⟩ :=
    device_maps_ineligible exampleParseEnv (Maps.new 1024) (by decide) rfl
  have hm : exampleParsedMaps = m1 := by
    unfold exampleParsedMaps
    rw [hp]
    rfl
  rw [hm]
  obtain ⟨e2, he2, hn2, hf2, _⟩ := hent 2
    { start := 0x3000, end_ := 0x4000, flags := 3, pgoff := 0, name := "/dev/kgsl-3d0" } rfl
  obtain ⟨e3, he3, hn3, hf3, _⟩ := hent 3
    { start := 0x4000, end_ := 0x5000, flags := 3, pgoff := 0, name := "/dev/ashmem/x" } rfl
  have hflag2 : e2.flags = 0x8003 := hf2.trans (by decide)
  have hflag3 : e3.flags = 3 := hf3.trans (by decide)
  refine ⟨⟨e2, he2, hn2, hflag2, ?_⟩, ⟨e3, he3, hn3, hflag3, ?_⟩⟩
  · exact hnull e2 (by rw [hflag2]; decide) (fun _ => true) 0 (fun _ => exampleSoEnv)
      exampleElfProbe
  · have he : exampleParsedMaps.entryAt 3 = some e3 := by rw [hm]; exact he3
    have hv : (exampleParsedMaps.entryAt 3).map
        (fun e => (e.CreateQuickenMemory (fun _ => true) 0).1.isSome) = some true := by rfl
    rw [he] at hv
    simp only [Option.map_some', Option.some.injEq] at hv
    intro hnone
    rw [hnone] at hv
    cases hv

/-- C18, counterexample: in the snapshot parsed from the example map file the
entry of `b.so` is linked through `prev_real_map` to the entry of
`/dev/ashmem/x`, and the entry of `/dev/kgsl-3d0` to the entry of `a.so`. -/
theorem ParseImpl_links_other_file :
    (((Maps.new 1024).ParseImpl exampleParseEnv).bind (fun r => r.2.entryAt 4)).map
        (fun e => (e.name, e.prev_real_map.map (fun r => r.name)))
        = some ("b.so", some "/dev/ashmem/x")
      ∧ (((Maps.new 1024).ParseImpl exampleParseEnv).bind (fun r => r.2.entryAt 2)).map
        (fun e => (e.name, e.prev_real_map.map (fun r => r.name)))
        = some ("/dev/kgsl-3d0", some "a.so") := by
  exact ⟨by rfl, by rfl⟩

/-- C18, amended: `ParseImpl` links each entry to the nearest earlier entry that
is not blank, whatever its backing file: for every entry of a parsed snapshot,
`prev_real_map` is the last of the entries before it for which
`MapInfo::IsBlank` is false, and null when there is none. -/
theorem ParseImpl_prev_real_map (env : ParseEnv) (m m1 : Maps)
    (h : m.ParseImpl env = some (true, m1)) (i : Nat) (e : QuickenMapInfo)
    (he : m1.entryAt i = some e) :
    ∃ es, m1.local_maps_ = some es ∧ es[i]? = some e
      ∧ e.prev_real_map = lastReal env.IsBlank (es.take i) := by
  obtain ⟨_, h1, _, _, _, _⟩ := ParseImpl_success env m m1 h
  obtain ⟨hget, _⟩ := ParseImpl_entry_line env m m1 h i e he
  refine ⟨_, h1, hget, ?_⟩
  have hlinks := foldl_parseCallback_links env.IsBlank env.lines
    { prev_map := none, prev_real_map := none, tmp_maps := [], tmp_idx := 0,
      tmp_capacity := m.maps_capacity_ } rfl (by intro i e hi; simp at hi)
  exact hlinks.2 i e hget

/-- C18, witness of the amended statement: the blank gap of the example map
file is skipped, so the last entry before index 2 that is not blank, to which
the entry of `/dev/kgsl-3d0` is linked, is the entry of `a.so`. -/
theorem ParseImpl_prev_real_map_witness :
    lastReal exampleIsBlank (List.take 2 (exampleParsedMaps.local_maps_.getD []))
      = some (MapInfoRef.mk 0x1000 0x2000 0 1 "a.so") := by
  obtain ⟨es, h1, _, h3⟩ := ParseImpl_prev_real_map exampleParseEnv (Maps.new 1024)
    exampleParsedMaps
    (by rfl) 2
    (QuickenMapInfo.new
      (some { start := 0x1000, end_ := 0x2000, offset := 0, flags := 1, name := "a.so" })
      0x3000 0x4000 0 0x8003 "/dev/kgsl-3d0") (by rfl)
  rw [h1, Option.getD_some]
  exact h3.symm

/-- C19: `Parse` never changes a snapshot in place. When `ParseImpl` fails,
`Parse` returns false and the static members, with every `Maps` object, are
unchanged. When it succeeds, `current_maps_` is a newly built object, every
object that existed before keeps its entries, size and capacity, and
`latest_maps_capacity_` is the capacity of the new snapshot. When the argument
is the current snapshot, `Parse` returns true and changes nothing. -/
theorem Parse_keeps_snapshots (env : ParseEnv) (w : MapsWorld) (maps : Option Nat) :
    (maps ≠ none ∧ maps = w.current_maps_ → Maps.Parse env w maps = some (true, w))
      ∧ (¬ (maps ≠ none ∧ maps = w.current_maps_) →
          (∀ m, (Maps.new w.latest_maps_capacity_).ParseImpl env = some (false, m) →
            Maps.Parse env w maps = some (false, w))
          ∧ (∀ m, (Maps.new w.latest_maps_capacity_).ParseImpl env = some (true, m) →
            ∃ w1, Maps.Parse env w maps = some (true, w1)
              ∧ w1.current_maps_ = some w.objects.length
              ∧ w1.objects[w.objects.length]? = some m
              ∧ (∀ i, i < w.objects.length → w1.objects[i]? = w.objects[i]?)
              ∧ w1.latest_maps_capacity_ = m.maps_capacity_)) := by
  constructor
  · intro hcur
    unfold Maps.Parse
    rw [if_pos hcur]
  · intro hcur
    constructor
    · intro m hm
      unfold Maps.Parse
      rw [if_neg hcur, hm]
    · intro m hm
      refine ⟨MapsWorld.mk (w.objects ++ [m]) (some w.objects.length) m.maps_capacity_,
        ?_, rfl, ?_, ?_, rfl⟩
      · unfold Maps.Parse
        rw [if_neg hcur, hm]
      · simp
      · intro i hi
        exact List.getElem?_append_left hi

/-- C19, witness: the first `Parse` of the example map file returns true and
makes the new object 0 current; a `Parse` whose `ReadMapFile` fails leaves the
world as it is. -/
theorem Parse_keeps_snapshots_witness :
    (Maps.Parse exampleParseEnv exampleMapsWorld none).map
        (fun r => (r.1, r.2.current_maps_)) = some (true, some 0)
      ∧ Maps.Parse { exampleParseEnv with ret := false } exampleMapsWorld none
        = some (false, exampleMapsWorld) := by
  constructor
  · obtain ⟨w1, hrun, hcur, _, _, _⟩ :=
      ((Parse_keeps_snapshots exampleParseEnv exampleMapsWorld none).2 (by decide)).2
        exampleParsedMaps
        (by rfl)
    rw [hrun, Option.map_some', hcur]
    rfl
  · exact ((Parse_keeps_snapshots { exampleParseEnv with ret := false } exampleMapsWorld
      none).2 (by decide)).1 (Maps.new 1024) (by rfl)

/-! ### Claims on `QuickenMapInfo::GetQuickenInterface` -/

/-- What `construct` leaves in the entry: the failure flag and no provider when
it returns null, the returned provider in both pointers otherwise. -/
theorem construct_entry (env : InterfaceEnv) (w : InterfaceWorld) (mi : QuickenMapEntry)
    (key : String) (ha : mi.quicken_interface_atomic_ = none) :
    ((mi.construct env w key).1 = none
        ∧ (mi.construct env w key).2.2.quicken_interface_atomic_ = none
        ∧ (mi.construct env w key).2.2.quicken_interface_failed_ = true)
      ∨ ((mi.construct env w key).1 ≠ none
        ∧ (mi.construct env w key).2.2.quicken_interface_atomic_ = (mi.construct env w key).1) := by
  unfold QuickenMapEntry.construct
  cases env.ElfWrapperInit mi with
  | mk ew rest =>
    obtain ⟨eo, eso, mbe⟩ := rest
    cases ew with
    | none => exact Or.inl ⟨rfl, ha, rfl⟩
    | some elf_wrapper => exact Or.inr ⟨by simp, rfl⟩

/-- The same for the whole call of `GetQuickenInterface`. -/
theorem GetQuickenInterface_entry (env : InterfaceEnv) (w : InterfaceWorld)
    (mi : QuickenMapEntry) :
    ((mi.GetQuickenInterface env w).1 = none
        ∧ (mi.GetQuickenInterface env w).2.2.quicken_interface_atomic_ = none
        ∧ (mi.GetQuickenInterface env w).2.2.quicken_interface_failed_ = true)
      ∨ ((mi.GetQuickenInterface env w).1 ≠ none
        ∧ (mi.GetQuickenInterface env w).2.2.quicken_interface_atomic_
            = (mi.GetQuickenInterface env w).1) := by
  unfold QuickenMapEntry.GetQuickenInterface
  cases ha : mi.quicken_interface_atomic_ with
  | some a => exact Or.inr ⟨by simp, ha⟩
  | none =>
    simp only
    cases hf : mi.quicken_interface_failed_ with
    | true => exact Or.inl ⟨by simp, by simpa using ha, by simpa using hf⟩
    | false =>
      cases hq : mi.quicken_interface_ with
      | some q => exact Or.inr ⟨by simp, by simp⟩
      | none =>
        simp only [Option.isNone_none, Bool.not_false, Bool.and_self, if_true,
          Bool.false_eq_true, if_false]
        unfold QuickenMapEntry.lookupOrConstruct
        cases w.cached_quicken_interface_.lookup (mi.key env) with
        | some it => exact Or.inr ⟨by simp, rfl⟩
        | none => exact construct_entry env w (mi.withNames env) (mi.key env) ha

/-- An entry whose atomic pointer holds a provider answers it at once. -/
theorem GetQuickenInterface_of_atomic (env : InterfaceEnv) (w : InterfaceWorld)
    (mi : QuickenMapEntry) (a : QuickenInterface) (ha : mi.quicken_interface_atomic_ = some a) :
    mi.GetQuickenInterface env w = (some a, w, mi) := by
  unfold QuickenMapEntry.GetQuickenInterface
  rw [ha]

/-- An entry with the failure flag and no provider answers null at once. -/
theorem GetQuickenInterface_of_failed (env : InterfaceEnv) (w : InterfaceWorld)
    (mi : QuickenMapEntry) (ha : mi.quicken_interface_atomic_ = none)
    (hf : mi.quicken_interface_failed_ = true) :
    mi.GetQuickenInterface env w = (none, w, mi) := by
  unfold QuickenMapEntry.GetQuickenInterface
  rw [ha]
  simp only [hf, if_true]

/-- A second call on the entry, in any world and with any environment, returns
what the first call returned and changes neither the world nor the entry. -/
theorem GetQuickenInterface_again (env env1 : InterfaceEnv) (w w1 : InterfaceWorld)
    (mi : QuickenMapEntry) :
    (mi.GetQuickenInterface env w).2.2.GetQuickenInterface env1 w1
      = ((mi.GetQuickenInterface env w).1, w1, (mi.GetQuickenInterface env w).2.2) := by
  rcases GetQuickenInterface_entry env w mi with ⟨h1, h2, h3⟩ | ⟨h1, h2⟩
  · rw [GetQuickenInterface_of_failed env1 w1 _ h2 h3, h1]
  · cases hr : (mi.GetQuickenInterface env w).1 with
    | none => exact absurd hr h1
    | some a =>
      rw [hr] at h2
      rw [GetQuickenInterface_of_atomic env1 w1 _ a h2]

/-- An entry with no provider and no failure flag runs the body under the lock. -/
theorem GetQuickenInterface_fresh (env : InterfaceEnv) (w : InterfaceWorld)
    (mi : QuickenMapEntry) (ha : mi.quicken_interface_atomic_ = none)
    (hq : mi.quicken_interface_ = none) (hf : mi.quicken_interface_failed_ = false) :
    mi.GetQuickenInterface env w = mi.lookupOrConstruct env w := by
  unfold QuickenMapEntry.GetQuickenInterface
  rw [ha]
  simp [hq, hf]

/-- A hit in the cache: the cached provider is returned, the world stays as it
is, and the entry takes the provider and its three values. -/
theorem lookupOrConstruct_hit (env : InterfaceEnv) (w : InterfaceWorld)
    (mi : QuickenMapEntry) (p : QuickenInterface)
    (hc : w.cached_quicken_interface_.lookup (mi.key env) = some p) :
    mi.lookupOrConstruct env w
      = (some p, w,
          { mi.withNames env with
            quicken_interface_ := some p
            elf_load_bias_ := p.load_bias_
            elf_offset := p.elf_offset_
            elf_start_offset := p.elf_start_offset_
            quicken_interface_atomic_ := some p }) := by
  unfold QuickenMapEntry.lookupOrConstruct
  rw [hc]

/-- A miss in the cache leads to `ElfWrapper::Init`. -/
theorem lookupOrConstruct_miss (env : InterfaceEnv) (w : InterfaceWorld)
    (mi : QuickenMapEntry)
    (hc : w.cached_quicken_interface_.lookup (mi.key env) = none) :
    mi.lookupOrConstruct env w = (mi.withNames env).construct env w (mi.key env) := by
  unfold QuickenMapEntry.lookupOrConstruct
  rw [hc]

/-- A provider that `construct` returns is in the cache under the key. -/
theorem construct_cached (env : InterfaceEnv) (w : InterfaceWorld) (mi : QuickenMapEntry)
    (key : String) (p : QuickenInterface) (hp : (mi.construct env w key).1 = some p) :
    (mi.construct env w key).2.1.cached_quicken_interface_.lookup key = some p := by
  revert hp
  unfold QuickenMapEntry.construct
  cases env.ElfWrapperInit mi with
  | mk ew rest =>
    obtain ⟨eo, eso, mbe⟩ := rest
    cases ew with
    | none => intro hp; simp at hp
    | some elf_wrapper =>
      intro hp
      simp only [Option.some.injEq] at hp
      simp only [List.lookup_cons, beq_self_eq_true, hp]

/-- Every call of `construct` calls `ElfWrapper::Init`. -/
theorem construct_calls_Init (env : InterfaceEnv) (w : InterfaceWorld)
    (mi : QuickenMapEntry) (key : String) :
    Call.ElfWrapperInit mi.name mi.start mi.end_ ∈ (mi.construct env w key).2.1.calls := by
  unfold QuickenMapEntry.construct
  cases env.ElfWrapperInit mi with
  | mk ew rest =>
    obtain ⟨eo, eso, mbe⟩ := rest
    cases ew with
    | none => simp
    | some elf_wrapper => simp

/-- A provider returned for an entry with no provider and no failure flag is in
the cache under the key of the entry afterwards. -/
theorem GetQuickenInterface_cached (env : InterfaceEnv) (w : InterfaceWorld)
    (mi : QuickenMapEntry) (p : QuickenInterface)
    (ha : mi.quicken_interface_atomic_ = none) (hq : mi.quicken_interface_ = none)
    (hf : mi.quicken_interface_failed_ = false)
    (hp : (mi.GetQuickenInterface env w).1 = some p) :
    (mi.GetQuickenInterface env w).2.1.cached_quicken_interface_.lookup (mi.key env)
      = some p := by
  rw [GetQuickenInterface_fresh env w mi ha hq hf] at hp ⊢
  cases hc : w.cached_quicken_interface_.lookup (mi.key env) with
  | some it =>
    rw [lookupOrConstruct_hit env w mi it hc] at hp ⊢
    simp only [Option.some.injEq] at hp
    rw [← hp]
    exact hc
  | none =>
    rw [lookupOrConstruct_miss env w mi hc] at hp ⊢
    exact construct_cached env w _ _ p hp

/-- C14, a failing input: the entry `exampleFailedEntry` has the name, start and
end of `exampleEntry 0`, whose call has put `exampleProvider` in the cache under
their common key; the call on `exampleFailedEntry` returns null all the same,
because its failure flag is set. -/
theorem GetQuickenInterface_failed_entry_ignores_cache :
    exampleFailedEntry.key exampleInterfaceEnv = (exampleEntry 0).key exampleInterfaceEnv
      ∧ ((exampleEntry 0).GetQuickenInterface exampleInterfaceEnv
          ((exampleEntry 0x1000).GetQuickenInterface exampleInterfaceEnv
            exampleInterfaceWorld).2.1).1 = some exampleProvider
      ∧ exampleCachedWorld.cached_quicken_interface_.lookup
          (exampleFailedEntry.key exampleInterfaceEnv) = some exampleProvider
      ∧ (exampleFailedEntry.GetQuickenInterface exampleInterfaceEnv exampleCachedWorld).1
          = none :=
  ⟨rfl, rfl, rfl, rfl⟩

/-- C14 (amended): a second call on a map entry returns what the first call
returned, whatever the world, and changes nothing. A provider returned for an
entry that had no provider and no failure flag is in the cache under the key of
the entry afterwards. A call on an entry that has no provider and no failure
flag, while the cache holds a provider under its key, returns that provider,
leaves the world as it is (no `ElfWrapper::Init`, no `TryInitQuickenTable`),
and copies load bias, `elf_offset` and `elf_start_offset` of the provider into
the entry. -/
theorem GetQuickenInterface_idempotent (env env1 env2 : InterfaceEnv)
    (w w1 w2 : InterfaceWorld) (mi other : QuickenMapEntry) (p : QuickenInterface)
    (ha : other.quicken_interface_atomic_ = none) (hq : other.quicken_interface_ = none)
    (hf : other.quicken_interface_failed_ = false)
    (hc : w1.cached_quicken_interface_.lookup (other.key env1) = some p) :
    (mi.GetQuickenInterface env w).2.2.GetQuickenInterface env2 w2
        = ((mi.GetQuickenInterface env w).1, w2, (mi.GetQuickenInterface env w).2.2)
      ∧ (mi.quicken_interface_atomic_ = none → mi.quicken_interface_ = none →
          mi.quicken_interface_failed_ = false →
          ∀ q, (mi.GetQuickenInterface env w).1 = some q →
            (mi.GetQuickenInterface env w).2.1.cached_quicken_interface_.lookup (mi.key env)
              = some q)
      ∧ other.GetQuickenInterface env1 w1
          = (some p, w1,
              { other.withNames env1 with
                quicken_interface_ := some p
                elf_load_bias_ := p.load_bias_
                elf_offset := p.elf_offset_
                elf_start_offset := p.elf_start_offset_
                quicken_interface_atomic_ := some p }) := by
  refine ⟨GetQuickenInterface_again env env2 w w2 mi, ?_, ?_⟩
  · intro ha1 hq1 hf1 q hq2
    exact GetQuickenInterface_cached env w mi q ha1 hq1 hf1 hq2
  · rw [GetQuickenInterface_fresh env1 w1 other ha hq hf]
    exact lookupOrConstruct_hit env1 w1 other p hc

/-- C14 (amended), at `exampleEntry 0` in the world that holds `exampleProvider`
under its key. -/
theorem GetQuickenInterface_idempotent_witness :
    exampleCachedWorld.cached_quicken_interface_.lookup
        ((exampleEntry 0).key exampleInterfaceEnv) = some exampleProvider
      ∧ (exampleEntry 0).GetQuickenInterface exampleInterfaceEnv exampleCachedWorld
          = (some exampleProvider, exampleCachedWorld,
              { (exampleEntry 0).withNames exampleInterfaceEnv with
                quicken_interface_ := some exampleProvider
                elf_load_bias_ := exampleProvider.load_bias_
                elf_offset := exampleProvider.elf_offset_
                elf_start_offset := exampleProvider.elf_start_offset_
                quicken_interface_atomic_ := some exampleProvider }) :=
  ⟨rfl,
    (GetQuickenInterface_idempotent exampleInterfaceEnv exampleInterfaceEnv
      exampleInterfaceEnv exampleInterfaceWorld exampleCachedWorld exampleCachedWorld
      (exampleEntry 0) (exampleEntry 0) exampleProvider rfl rfl rfl rfl).2.2⟩

/-- The calls of a successful `construct`. -/
theorem construct_ok (env : InterfaceEnv) (w : InterfaceWorld) (mi : QuickenMapEntry)
    (key : String) (ew : ElfWrapper) (eo eso : Nat) (mbe : Bool)
    (hi : env.ElfWrapperInit mi = (some ew, eo, eso, mbe)) :
    ∃ p, (mi.construct env w key).1 = some p ∧ p.address = w.constructed
      ∧ (mi.construct env w key).2.1.calls
          = w.calls ++ Call.ElfWrapperInit mi.name mi.start mi.end_
              :: constructionCalls env p ew := by
  unfold QuickenMapEntry.construct
  rw [hi]
  exact ⟨_, rfl, rfl, by simp⟩

/-- The calls on a new provider record it exactly when it is not a JIT cache and
`TryInitQuickenTable` answers `TryInvokeJavaRequestQutGenerate`, and then they
record this provider. -/
theorem constructionCalls_Record (env : InterfaceEnv) (p : QuickenInterface)
    (ew : ElfWrapper) (a : Nat) :
    Call.RecordQutRequestInterface a ∈ constructionCalls env p ew
      ↔ ew.IsJitCache = false
        ∧ env.TryInitQuickenTable p = QutFileError.TryInvokeJavaRequestQutGenerate
        ∧ a = p.address := by
  unfold constructionCalls
  cases ew.IsJitCache with
  | true => simp
  | false =>
    by_cases h : env.TryInitQuickenTable p = QutFileError.TryInvokeJavaRequestQutGenerate
    · simp only [Bool.false_eq_true, if_false, h, if_true]
      split_ifs <;> simp
    · simp only [Bool.false_eq_true, if_false, h]
      split_ifs <;> simp

/-- The calls on a new provider call `TryInitQuickenTable` exactly when it is not
a JIT cache, and then on this provider. -/
theorem constructionCalls_TryInit (env : InterfaceEnv) (p : QuickenInterface)
    (ew : ElfWrapper) (a : Nat) :
    Call.TryInitQuickenTable a ∈ constructionCalls env p ew
      ↔ ew.IsJitCache = false ∧ a = p.address := by
  unfold constructionCalls
  cases ew.IsJitCache with
  | true => simp
  | false =>
    simp only [Bool.false_eq_true, if_false]
    split_ifs <;> simp

/-- C20: for an entry with no provider and no failure flag whose key is not in
the cache and whose `ElfWrapper::Init` succeeds, the call returns a new provider
and appends calls to those made before; among the appended calls, for an image
that is not a JIT cache, `TryInitQuickenTable` is called on the provider and
`RecordQutRequestInterface` is called on it if and only if `TryInitQuickenTable`
answers `TryInvokeJavaRequestQutGenerate`; for a JIT cache neither
`TryInitQuickenTable` nor `RecordQutRequestInterface` is called; and no other
provider is recorded. -/
theorem GetQuickenInterface_deferred_generation (env : InterfaceEnv) (w : InterfaceWorld)
    (mi : QuickenMapEntry) (ew : ElfWrapper) (eo eso : Nat) (mbe : Bool)
    (ha : mi.quicken_interface_atomic_ = none) (hq : mi.quicken_interface_ = none)
    (hf : mi.quicken_interface_failed_ = false)
    (hc : w.cached_quicken_interface_.lookup (mi.key env) = none)
    (hi : env.ElfWrapperInit (mi.withNames env) = (some ew, eo, eso, mbe)) :
    ∃ p, (mi.GetQuickenInterface env w).1 = some p
      ∧ p.address = w.constructed
      ∧ (mi.GetQuickenInterface env w).2.1.calls
          = w.calls ++ (mi.GetQuickenInterface env w).2.1.calls.drop w.calls.length
      ∧ (ew.IsJitCache = false →
          Call.TryInitQuickenTable p.address
              ∈ (mi.GetQuickenInterface env w).2.1.calls.drop w.calls.length
            ∧ (Call.RecordQutRequestInterface p.address
                  ∈ (mi.GetQuickenInterface env w).2.1.calls.drop w.calls.length
                ↔ env.TryInitQuickenTable p
                    = QutFileError.TryInvokeJavaRequestQutGenerate))
      ∧ (ew.IsJitCache = true →
          ∀ a, Call.TryInitQuickenTable a
                ∉ (mi.GetQuickenInterface env w).2.1.calls.drop w.calls.length
              ∧ Call.RecordQutRequestInterface a
                ∉ (mi.GetQuickenInterface env w).2.1.calls.drop w.calls.length)
      ∧ ∀ a, Call.RecordQutRequestInterface a
            ∈ (mi.GetQuickenInterface env w).2.1.calls.drop w.calls.length →
          a = p.address := by
  rw [GetQuickenInterface_fresh env w mi ha hq hf, lookupOrConstruct_miss env w mi hc]
  obtain ⟨p, hp, hadr, hcalls⟩ := construct_ok env w (mi.withNames env) (mi.key env) ew eo eso mbe hi
  have hdrop : ((mi.withNames env).construct env w (mi.key env)).2.1.calls.drop w.calls.length
      = Call.ElfWrapperInit (mi.withNames env).name (mi.withNames env).start
          (mi.withNames env).end_ :: constructionCalls env p ew := by
    rw [hcalls, List.drop_left]
  refine ⟨p, hp, hadr, ?_, ?_, ?_, ?_⟩
  · rw [hdrop]
    exact hcalls
  · intro hj
    rw [hdrop]
    refine ⟨List.mem_cons_of_mem _ ((constructionCalls_TryInit env p ew _).2 ⟨hj, rfl⟩), ?_⟩
    simp only [List.mem_cons, constructionCalls_Record, hj, true_and, and_true]
    simp
  · intro hj a
    rw [hdrop]
    simp [constructionCalls_TryInit, constructionCalls_Record, hj]
  · intro a
    rw [hdrop]
    simp only [List.mem_cons, constructionCalls_Record]
    rintro (h | ⟨_, _, h⟩)
    · simp at h
    · exact h

/-- C20, at `exampleEntry 0` in the example world, where `TryInitQuickenTable`
answers `TryInvokeJavaRequestQutGenerate`. -/
theorem GetQuickenInterface_deferred_generation_witness :
    exampleInterfaceEnv.ElfWrapperInit ((exampleEntry 0).withNames exampleInterfaceEnv)
        = (some exampleElfWrapper, 0, 0, false)
      ∧ ∃ p, ((exampleEntry 0).GetQuickenInterface exampleInterfaceEnv
            exampleInterfaceWorld).1 = some p
        ∧ p.address = exampleInterfaceWorld.constructed
        ∧ ((exampleEntry 0).GetQuickenInterface exampleInterfaceEnv
            exampleInterfaceWorld).2.1.calls
            = exampleInterfaceWorld.calls
              ++ ((exampleEntry 0).GetQuickenInterface exampleInterfaceEnv
                  exampleInterfaceWorld).2.1.calls.drop exampleInterfaceWorld.calls.length
        ∧ (exampleElfWrapper.IsJitCache = false →
            Call.TryInitQuickenTable p.address
                ∈ ((exampleEntry 0).GetQuickenInterface exampleInterfaceEnv
                    exampleInterfaceWorld).2.1.calls.drop exampleInterfaceWorld.calls.length
              ∧ (Call.RecordQutRequestInterface p.address
                    ∈ ((exampleEntry 0).GetQuickenInterface exampleInterfaceEnv
                        exampleInterfaceWorld).2.1.calls.drop
                          exampleInterfaceWorld.calls.length
                  ↔ exampleInterfaceEnv.TryInitQuickenTable p
                      = QutFileError.TryInvokeJavaRequestQutGenerate))
        ∧ (exampleElfWrapper.IsJitCache = true →
            ∀ a, Call.TryInitQuickenTable a
                  ∉ ((exampleEntry 0).GetQuickenInterface exampleInterfaceEnv
                      exampleInterfaceWorld).2.1.calls.drop exampleInterfaceWorld.calls.length
                ∧ Call.RecordQutRequestInterface a
                  ∉ ((exampleEntry 0).GetQuickenInterface exampleInterfaceEnv
                      exampleInterfaceWorld).2.1.calls.drop
                        exampleInterfaceWorld.calls.length)
        ∧ ∀ a, Call.RecordQutRequestInterface a
              ∈ ((exampleEntry 0).GetQuickenInterface exampleInterfaceEnv
                  exampleInterfaceWorld).2.1.calls.drop exampleInterfaceWorld.calls.length →
            a = p.address :=
  ⟨rfl,
    GetQuickenInterface_deferred_generation exampleInterfaceEnv exampleInterfaceWorld
      (exampleEntry 0) exampleElfWrapper 0 0 false rfl rfl rfl rfl rfl⟩

/-! ### Claims on `QuickenInterface::InitSoInfo` -/

theorem digitChar_value (d : Nat) (h : d < 10) : (Nat.digitChar d).toNat - 48 = d := by
  interval_cases d <;> rfl

theorem toDigitsCore_value (fuel : Nat) : ∀ (n : Nat) (ds : List Char), n < fuel →
    decimalValue (Nat.toDigitsCore 10 fuel n ds) 0 = decimalValue ds n := by
  induction fuel with
  | zero => intro n ds h; omega
  | succ fuel ih =>
    intro n ds h
    unfold Nat.toDigitsCore
    simp only
    by_cases h0 : n / 10 = 0
    · rw [if_pos h0]
      have hn : n < 10 := by omega
      simp only [decimalValue, List.foldl_cons, Nat.zero_mul, Nat.zero_add]
      rw [digitChar_value _ (Nat.mod_lt _ (by decide)), Nat.mod_eq_of_lt hn]
    · rw [if_neg h0]
      rw [ih (n / 10) _ (by omega)]
      simp only [decimalValue, List.foldl_cons]
      rw [digitChar_value _ (Nat.mod_lt _ (by decide))]
      congr 1
      omega

/-- The decimal text of a number stands for that number. -/
theorem toString_value (n : Nat) : decimalValue (toString n).data 0 = n := by
  show decimalValue (Nat.toDigits 10 n) 0 = n
  unfold Nat.toDigits
  rw [toDigitsCore_value (n + 1) n [] (by omega)]
  rfl

/-- Different numbers have different decimal texts. -/
theorem toString_nat_inj (a b : Nat) (h : toString a = toString b) : a = b := by
  rw [← toString_value a, ← toString_value b, h]

theorem string_append_cancel_right (a b c : String) (h : a ++ c = b ++ c) : a = b := by
  apply String.ext
  have := congrArg String.data h
  simp only [String.data_append] at this
  exact List.append_cancel_right this

theorem string_append_cancel_left (a b c : String) (h : c ++ a = c ++ b) : a = b := by
  apply String.ext
  have := congrArg String.data h
  simp only [String.data_append] at this
  exact List.append_cancel_left this

/-- C21, counterexample: the image `a.so` of 12 bytes at load offset 3 and the
image `a.so` of 1 byte at load offset 23 differ in size and offset, and the
image `a.so1` of 2 bytes at offset 3 differs from the first in path and size;
all three give `ToHash` the input `a.so123`, and `InitSoInfo` stores the same
hash for them. -/
theorem InitSoInfo_hash_collision :
    hashInput "a.so" 12 3 = "a.so123"
      ∧ hashInput "a.so" 1 23 = "a.so123"
      ∧ hashInput "a.so1" 2 3 = "a.so123"
      ∧ (QuickenInterface.InitSoInfo (exampleSizeEnv 12) exampleProvider
            "a.so" "a.so" "" 3 false).hash_
          = (QuickenInterface.InitSoInfo (exampleSizeEnv 1) exampleProvider
              "a.so" "a.so" "" 23 false).hash_
      ∧ (QuickenInterface.InitSoInfo (exampleSizeEnv 12) exampleProvider
            "a.so" "a.so" "" 3 false).hash_
          = (QuickenInterface.InitSoInfo (exampleSizeEnv 2) exampleProvider
              "a.so1" "a.so1" "" 3 false).hash_ := by
  decide

/-- C21 (amended): the hash that `InitSoInfo` stores is `ToHash` of the path,
the decimal file size and the decimal load offset written one after the other,
and of nothing else; two images that differ in exactly one of path, file size
and load offset give `ToHash` different inputs. -/
theorem InitSoInfo_hash_input (env : InterfaceEnv) (qi : QuickenInterface)
    (sopath soname build_id : String) (elf_start_offset : Nat) (jit_cache : Bool) :
    (QuickenInterface.InitSoInfo env qi sopath soname build_id elf_start_offset jit_cache).hash_
        = env.ToHash (hashInput sopath (env.FileSize sopath) elf_start_offset)
      ∧ ∀ (p1 p2 : String) (s1 s2 o1 o2 : Nat),
          hashInput p1 s1 o1 = hashInput p2 s2 o2 →
            (s1 = s2 → o1 = o2 → p1 = p2)
            ∧ (p1 = p2 → o1 = o2 → s1 = s2)
            ∧ (p1 = p2 → s1 = s2 → o1 = o2) := by
  refine ⟨rfl, ?_⟩
  intro p1 p2 s1 s2 o1 o2 h
  unfold hashInput at h
  refine ⟨?_, ?_, ?_⟩
  · intro hs ho
    rw [hs, ho] at h
    exact string_append_cancel_right _ _ _ (string_append_cancel_right _ _ _ h)
  · intro hp ho
    rw [hp, ho] at h
    have h1 := string_append_cancel_right _ _ _ h
    exact toString_nat_inj _ _ (string_append_cancel_left _ _ _ h1)
  · intro hp hs
    rw [hp, hs] at h
    exact toString_nat_inj _ _ (string_append_cancel_left _ _ _ h)

/-- C21 (amended), at the images `a.so` of 12 bytes at the load offsets 3 and
4: the inputs of `ToHash` differ. -/
theorem InitSoInfo_hash_input_witness :
    hashInput "a.so" 12 3 ≠ hashInput "a.so" 12 4 :=
  fun h =>
    absurd
      (((InitSoInfo_hash_input exampleInterfaceEnv exampleProvider "a.so" "a.so" "" 0
        false).2 "a.so" "a.so" 12 12 3 4 h).2.2 rfl rfl)
      (by decide)

/-! ### Claims on `DwarfEhFrameWithHdrDecoder::Init` -/

/-- C22: when the first four bytes of the header can be read, `Init` fails with
`DWARF_ERROR_UNSUPPORTED_VERSION` in `last_error_.code` if and only if the first
byte is not 1, and in that case the cursor stays behind the four bytes and the
outcome does not depend on `ReadEncodedValue` or `GetEncodedSize`: nothing
further is read. When the four bytes cannot be read, `Init` fails with
`DWARF_ERROR_MEMORY_INVALID` and the cursor as address. -/
theorem Init_version_check (env : DecoderEnv) (d : DwarfEhFrameWithHdrDecoder)
    (offset : Nat) (section_bias : Int) :
    (∀ data cur, env.ReadBytes (d.initMemory offset) 4 = (some data, cur) →
        (((d.Init env offset section_bias).1 = false
            ∧ (d.Init env offset section_bias).2.last_error_.code
                = DwarfErrorCode.DWARF_ERROR_UNSUPPORTED_VERSION)
          ↔ data.getD 0 0 ≠ 1)
        ∧ (data.getD 0 0 ≠ 1 →
            (d.Init env offset section_bias).2.memory_.cur_offset = cur
            ∧ ∀ (rev : DwarfMemory → Nat → Option Nat × Nat) (ges : Nat → Nat),
                d.Init { env with ReadEncodedValue := rev, GetEncodedSize := ges }
                    offset section_bias
                  = d.Init env offset section_bias))
      ∧ (∀ cur, env.ReadBytes (d.initMemory offset) 4 = (none, cur) →
          (d.Init env offset section_bias).1 = false
          ∧ (d.Init env offset section_bias).2.last_error_
              = { code := DwarfErrorCode.DWARF_ERROR_MEMORY_INVALID, address := cur }
          ∧ (d.Init env offset section_bias).2.memory_.cur_offset = cur) := by
  constructor
  · intro data cur h
    constructor
    · constructor
      · intro hfail hv1
        revert hfail
        unfold DwarfEhFrameWithHdrDecoder.Init
        simp only [h, hv1, ne_eq, not_true_eq_false, if_false]
        split_ifs
        · simp
        · rcases env.ReadEncodedValue _ (data.getD 1 0) with ⟨_ | v, cur2⟩
          · simp
          · simp only
            rcases env.ReadEncodedValue _ (data.getD 2 0) with ⟨_ | c, cur3⟩
            · simp
            · simp only
              split_ifs <;> simp
      · intro hv
        unfold DwarfEhFrameWithHdrDecoder.Init
        simp only [h, ne_eq, hv, not_false_eq_true, if_true, and_self]
    · intro hv
      constructor
      · unfold DwarfEhFrameWithHdrDecoder.Init
        simp only [h, ne_eq, hv, not_false_eq_true, if_true]
      · intro rev ges
        unfold DwarfEhFrameWithHdrDecoder.Init
        simp only [h, ne_eq, hv, not_false_eq_true, if_true]
  · intro cur h
    unfold DwarfEhFrameWithHdrDecoder.Init
    simp only [h, and_self]

/-- C22, at the example header with version byte 2: `Init` fails with
`DWARF_ERROR_UNSUPPORTED_VERSION` and the cursor behind the four bytes. -/
theorem Init_version_check_witness :
    (exampleHeaderMemory 2 2).ReadBytes ((exampleDecoder 0).initMemory 0) 4
        = (some [2, 0x1b, 0x03, 0x3b], 4)
      ∧ ((exampleDecoder 0).Init (exampleHeaderMemory 2 2) 0 0).1 = false
      ∧ ((exampleDecoder 0).Init (exampleHeaderMemory 2 2) 0 0).2.last_error_.code
          = DwarfErrorCode.DWARF_ERROR_UNSUPPORTED_VERSION
      ∧ ((exampleDecoder 0).Init (exampleHeaderMemory 2 2) 0 0).2.memory_.cur_offset = 4 :=
  ⟨rfl,
    (((Init_version_check (exampleHeaderMemory 2 2) (exampleDecoder 0) 0 0).1
      [2, 0x1b, 0x03, 0x3b] 4 rfl).1.2 (by decide)).1,
    (((Init_version_check (exampleHeaderMemory 2 2) (exampleDecoder 0) 0 0).1
      [2, 0x1b, 0x03, 0x3b] 4 rfl).1.2 (by decide)).2,
    (((Init_version_check (exampleHeaderMemory 2 2) (exampleDecoder 0) 0 0).1
      [2, 0x1b, 0x03, 0x3b] 4 rfl).2 (by decide)).1⟩

/-- Later lookups in the index leave `fde_count_` as it is. -/
theorem runGetFdeInfo_fde_count (calls : List (DecoderEnv × Nat))
    (d : DwarfEhFrameWithHdrDecoder) : (runGetFdeInfo calls d).fde_count_ = d.fde_count_ := by
  induction calls generalizing d with
  | nil => rfl
  | cons c rest ih =>
    show (runGetFdeInfo rest (GetFdeInfoFromIndex c.1 d c.2).2).fde_count_ = d.fde_count_
    rw [ih]
    exact (GetFdeInfoFromIndex_sameTable c.1 d c.2).count

/-- C23: `Init` fails with `DWARF_ERROR_NO_FDES` exactly when the four header
bytes are read, the version is 1, the table entry size is not zero, both encoded
values are read and the decoded FDE count is 0. After every successful `Init`
the count `fde_count_` is above zero, and it stays so after any later lookups in
the index, so the guard `fde_count_ == 0` of `GetFdeOffsetFromPc` is false. -/
theorem Init_no_fdes (env : DecoderEnv) (d : DwarfEhFrameWithHdrDecoder)
    (offset : Nat) (section_bias : Int) :
    (((d.Init env offset section_bias).1 = false
        ∧ (d.Init env offset section_bias).2.last_error_.code
            = DwarfErrorCode.DWARF_ERROR_NO_FDES)
      ↔ ∃ data cur v cur2 cur3,
          env.ReadBytes (d.initMemory offset) 4 = (some data, cur)
          ∧ data.getD 0 0 = 1
          ∧ env.GetEncodedSize (data.getD 3 0) ≠ 0
          ∧ env.ReadEncodedValue
              { d.initMemory offset with cur_offset := cur, pc_offset := cur }
              (data.getD 1 0) = (some v, cur2)
          ∧ env.ReadEncodedValue
              { d.initMemory offset with cur_offset := cur2, pc_offset := cur2 }
              (data.getD 2 0) = (some 0, cur3))
      ∧ ((d.Init env offset section_bias).1 = true →
          0 < (d.Init env offset section_bias).2.fde_count_
          ∧ ∀ later : List (DecoderEnv × Nat),
              (runGetFdeInfo later (d.Init env offset section_bias).2).fde_count_ ≠ 0) := by
  have hpos : (d.Init env offset section_bias).1 = true →
      0 < (d.Init env offset section_bias).2.fde_count_ := by
    simp only [DwarfEhFrameWithHdrDecoder.Init]
    rcases env.ReadBytes (d.initMemory offset) 4 with ⟨_ | data, cur⟩
    · simp
    · simp only
      split_ifs
      · simp
      · simp
      · rcases env.ReadEncodedValue _ (data.getD 1 0) with ⟨_ | v, cur2⟩
        · simp
        · simp only
          rcases env.ReadEncodedValue _ (data.getD 2 0) with ⟨_ | c, cur3⟩
          · simp
          · simp only
            split_ifs with hc
            · simp
            · intro _
              exact Nat.pos_of_ne_zero hc
  refine ⟨⟨?_, ?_⟩, ?_⟩
  · simp only [DwarfEhFrameWithHdrDecoder.Init]
    rcases h : env.ReadBytes (d.initMemory offset) 4 with ⟨_ | data, cur⟩
    · simp
    · simp only
      split_ifs with hv hs
      · simp
      · simp
      · rcases h1 : env.ReadEncodedValue
            { d.initMemory offset with cur_offset := cur, pc_offset := cur }
            (data.getD 1 0) with ⟨_ | v, cur2⟩
        · simp
        · simp only
          rcases h2 : env.ReadEncodedValue
              { d.initMemory offset with cur_offset := cur2, pc_offset := cur2 }
              (data.getD 2 0) with ⟨_ | c, cur3⟩
          · simp
          · simp only
            split_ifs with hc
            · intro _
              refine ⟨data, cur, v, cur2, cur3, rfl, ?_, hs, h1, ?_⟩
              · by_contra hne
                exact hv hne
              · rw [h2, hc]
            · simp
  · rintro ⟨data, cur, v, cur2, cur3, h, hv, hs, h1, h2⟩
    unfold DwarfEhFrameWithHdrDecoder.Init
    simp only [h, hv, ne_eq, not_true_eq_false, if_false, hs, h1, h2, if_true, and_self]
  · intro hok
    refine ⟨hpos hok, ?_⟩
    intro later
    rw [runGetFdeInfo_fde_count]
    exact Nat.pos_iff_ne_zero.1 (hpos hok)

/-- C23, at the example header with the count 2: `Init` succeeds and
`fde_count_` is 2; with the count 0 it fails with `DWARF_ERROR_NO_FDES`. -/
theorem Init_no_fdes_witness :
    ((exampleDecoder 0).Init (exampleHeaderMemory 1 2) 0 0).1 = true
      ∧ 0 < ((exampleDecoder 0).Init (exampleHeaderMemory 1 2) 0 0).2.fde_count_
      ∧ ((exampleDecoder 0).Init (exampleHeaderMemory 1 0) 0 0).1 = false
      ∧ ((exampleDecoder 0).Init (exampleHeaderMemory 1 0) 0 0).2.last_error_.code
          = DwarfErrorCode.DWARF_ERROR_NO_FDES :=
  ⟨rfl,
    ((Init_no_fdes (exampleHeaderMemory 1 2) (exampleDecoder 0) 0 0).2 rfl).1,
    ((Init_no_fdes (exampleHeaderMemory 1 0) (exampleDecoder 0) 0 0).1.2
      ⟨[1, 0x1b, 0x03, 0x3b], 4, 0x40, 8, 12, rfl, rfl, by decide, rfl, rfl⟩).1,
    ((Init_no_fdes (exampleHeaderMemory 1 0) (exampleDecoder 0) 0 0).1.2
      ⟨[1, 0x1b, 0x03, 0x3b], 4, 0x40, 8, 12, rfl, rfl, by decide, rfl, rfl⟩).2⟩

/-! ### Claims on `DwarfEhFrameDecoder` and `DwarfDebugFrameDecoder` -/

/-- C24: the debug-frame decoder resolves a 32- or 64-bit pointer `p` as
`entries_offset_ + p`, the exception-frame decoder as `cur_offset - p - 4`
(32-bit) and `cur_offset - p - 8` (64-bit), all modulo `2 ^ 64`. For an FDE
whose pointer field sits at position `q`, so that the cursor is behind the field
when the pointer is resolved, and whose CIE is at offset `c <= q`, the stored
value `q - c` resolves back to `c`. -/
theorem GetCieOffsetFromFde_resolution (dbg : DwarfDebugFrameDecoder)
    (eh32 eh64 : DwarfEhFrameDecoder) (p q c : Nat)
    (hc : c ≤ q) (hq : q < 2 ^ 64) (h32 : q - c < 2 ^ 32)
    (hcur32 : eh32.memory_.cur_offset = (q + 4) % 2 ^ 64)
    (hcur64 : eh64.memory_.cur_offset = (q + 8) % 2 ^ 64) :
    dbg.GetCieOffsetFromFde32 p = (dbg.entries_offset_ + p % 2 ^ 32) % 2 ^ 64
      ∧ dbg.GetCieOffsetFromFde64 p = (dbg.entries_offset_ + p) % 2 ^ 64
      ∧ (eh32.GetCieOffsetFromFde32 p + p % 2 ^ 32 + 4) % 2 ^ 64
          = eh32.memory_.cur_offset % 2 ^ 64
      ∧ (eh64.GetCieOffsetFromFde64 p + p + 8) % 2 ^ 64 = eh64.memory_.cur_offset % 2 ^ 64
      ∧ eh32.GetCieOffsetFromFde32 (q - c) = c
      ∧ eh64.GetCieOffsetFromFde64 (q - c) = c := by
  refine ⟨?_, ?_, ?_, ?_, ?_, ?_⟩
  · unfold DwarfDebugFrameDecoder.GetCieOffsetFromFde32
    omega
  · unfold DwarfDebugFrameDecoder.GetCieOffsetFromFde64
    omega
  · unfold DwarfEhFrameDecoder.GetCieOffsetFromFde32 sub64
    omega
  · unfold DwarfEhFrameDecoder.GetCieOffsetFromFde64 sub64
    omega
  · unfold DwarfEhFrameDecoder.GetCieOffsetFromFde32 sub64
    rw [hcur32]
    omega
  · unfold DwarfEhFrameDecoder.GetCieOffsetFromFde64 sub64
    rw [hcur64]
    omega

/-- C24, at a pointer field at position `0x120` whose CIE is at offset `0x100`:
the stored value `0x20` resolves to `0x100`; the debug-frame decoder resolves
`0x20` in a section that starts at `0x400` to `0x420`. -/
theorem GetCieOffsetFromFde_resolution_witness :
    (exampleDebugFrameDecoder 0x400).GetCieOffsetFromFde32 0x20 = 0x420
      ∧ (exampleEhFrameDecoder 0x124).GetCieOffsetFromFde32 (0x120 - 0x100) = 0x100
      ∧ (exampleEhFrameDecoder 0x128).GetCieOffsetFromFde64 (0x120 - 0x100) = 0x100 :=
  ⟨(GetCieOffsetFromFde_resolution (exampleDebugFrameDecoder 0x400)
      (exampleEhFrameDecoder 0x124) (exampleEhFrameDecoder 0x128) 0x20 0x120 0x100
      (by decide) (by decide) (by decide) (by decide) (by decide)).1,
    (GetCieOffsetFromFde_resolution (exampleDebugFrameDecoder 0x400)
      (exampleEhFrameDecoder 0x124) (exampleEhFrameDecoder 0x128) 0x20 0x120 0x100
      (by decide) (by decide) (by decide) (by decide) (by decide)).2.2.2.2.1,
    (GetCieOffsetFromFde_resolution (exampleDebugFrameDecoder 0x400)
      (exampleEhFrameDecoder 0x124) (exampleEhFrameDecoder 0x128) 0x20 0x120 0x100
      (by decide) (by decide) (by decide) (by decide) (by decide)).2.2.2.2.2⟩

/-- C25: `DwarfDebugFrameDecoder::AdjustPcFromFde` is the identity, and
`DwarfEhFrameDecoder::AdjustPcFromFde(pc)` is `pc + cur_offset - 4` modulo
`2 ^ 64`: when the cursor is behind a 4-byte field at position `q`, it is
`pc + q` modulo `2 ^ 64`. -/
theorem AdjustPcFromFde_spec (dbg : DwarfDebugFrameDecoder) (eh : DwarfEhFrameDecoder)
    (pc q : Nat) (hcur : eh.memory_.cur_offset = (q + 4) % 2 ^ 64) :
    dbg.AdjustPcFromFde pc = pc
      ∧ (eh.AdjustPcFromFde pc + 4) % 2 ^ 64 = (pc + eh.memory_.cur_offset) % 2 ^ 64
      ∧ eh.AdjustPcFromFde pc = (pc + q) % 2 ^ 64 := by
  refine ⟨rfl, ?_, ?_⟩
  · unfold DwarfEhFrameDecoder.AdjustPcFromFde sub64
    omega
  · unfold DwarfEhFrameDecoder.AdjustPcFromFde sub64
    rw [hcur]
    omega

/-- C25, at the relative pc `0x30` read from a field at position `0x120`. -/
theorem AdjustPcFromFde_spec_witness :
    (exampleDebugFrameDecoder 0x400).AdjustPcFromFde 0x30 = 0x30
      ∧ (exampleEhFrameDecoder 0x124).AdjustPcFromFde 0x30 = 0x150 :=
  ⟨(AdjustPcFromFde_spec (exampleDebugFrameDecoder 0x400) (exampleEhFrameDecoder 0x124)
      0x30 0x120 (by decide)).1,
    (AdjustPcFromFde_spec (exampleDebugFrameDecoder 0x400) (exampleEhFrameDecoder 0x124)
      0x30 0x120 (by decide)).2.2⟩

/-! ### Claims on failing reads of `GetFdeInfoFromIndex` -/

/-- The function `ReadFdeInfo` answers no entry exactly when the first read
fails, or the first read succeeds and the second fails. -/
theorem ReadFdeInfo_none_iff (env : DecoderEnv) (d : DwarfEhFrameWithHdrDecoder) (i : Nat) :
    (ReadFdeInfo env d i).1 = none ↔
      ((env.ReadEncodedValue
            { d.memory_ with
              data_offset := d.hdr_entries_data_offset_
              cur_offset := entryCursor env d i
              pc_offset := 0 } d.table_encoding_).1 = none
        ∨ ∃ v cur,
            env.ReadEncodedValue
              { d.memory_ with
                data_offset := d.hdr_entries_data_offset_
                cur_offset := entryCursor env d i
                pc_offset := 0 } d.table_encoding_ = (some v, cur)
            ∧ (env.ReadEncodedValue
                { d.memory_ with
                  data_offset := d.hdr_entries_data_offset_
                  cur_offset := cur
                  pc_offset := 0 } d.table_encoding_).1 = none) := by
  simp only [ReadFdeInfo]
  rcases h1 : env.ReadEncodedValue
      { d.memory_ with
        data_offset := d.hdr_entries_data_offset_
        cur_offset := entryCursor env d i
        pc_offset := 0 } d.table_encoding_ with ⟨_ | v, cur⟩
  · simp
  · simp only [false_or, Prod.mk.injEq, Option.some.injEq, reduceCtorEq]
    rcases h2 : env.ReadEncodedValue
        { d.memory_ with
          data_offset := d.hdr_entries_data_offset_
          cur_offset := cur
          pc_offset := 0 } d.table_encoding_ with ⟨_ | o, cur2⟩
    · simp only [true_iff]
      exact ⟨v, cur, ⟨rfl, rfl⟩, h2 ▸ rfl⟩
    · simp only [reduceCtorEq, false_iff, not_exists, not_and]
      rintro v1 c1 ⟨_, hc⟩
      rw [← hc, h2]
      simp

/-- C26: when index `i` is not memoized and one of its two encoded values cannot
be read, `GetFdeInfoFromIndex` returns null, sets `last_error_` to
`DWARF_ERROR_MEMORY_INVALID` with the cursor as address, leaves no entry for `i`
in `fde_info_`, leaves every other entry of `fde_info_` and the table fields of
the decoder as they are, and a later call for `i` reads the entry from memory
again. -/
theorem GetFdeInfoFromIndex_failure_local (env : DecoderEnv)
    (d : DwarfEhFrameWithHdrDecoder) (i : Nat)
    (hnone : d.fde_info_ i = none)
    (hread : (env.ReadEncodedValue
            { d.memory_ with
              data_offset := d.hdr_entries_data_offset_
              cur_offset := entryCursor env d i
              pc_offset := 0 } d.table_encoding_).1 = none
        ∨ ∃ v cur,
            env.ReadEncodedValue
              { d.memory_ with
                data_offset := d.hdr_entries_data_offset_
                cur_offset := entryCursor env d i
                pc_offset := 0 } d.table_encoding_ = (some v, cur)
            ∧ (env.ReadEncodedValue
                { d.memory_ with
                  data_offset := d.hdr_entries_data_offset_
                  cur_offset := cur
                  pc_offset := 0 } d.table_encoding_).1 = none) :
    (GetFdeInfoFromIndex env d i).1 = none
      ∧ (GetFdeInfoFromIndex env d i).2.last_error_
          = { code := DwarfErrorCode.DWARF_ERROR_MEMORY_INVALID,
              address := (GetFdeInfoFromIndex env d i).2.memory_.cur_offset }
      ∧ (GetFdeInfoFromIndex env d i).2.fde_info_ i = none
      ∧ (∀ j, j ≠ i → (GetFdeInfoFromIndex env d i).2.fde_info_ j = d.fde_info_ j)
      ∧ SameTable d (GetFdeInfoFromIndex env d i).2
      ∧ ∀ env1 : DecoderEnv,
          (GetFdeInfoFromIndex env1 (GetFdeInfoFromIndex env d i).2 i).1
            = (ReadFdeInfo env1 d i).1 := by
  have hr := (ReadFdeInfo_none_iff env d i).2 hread
  have hst := GetFdeInfoFromIndex_sameTable env d i
  have hrun : GetFdeInfoFromIndex env d i
      = (none,
          { d with
            memory_ := (ReadFdeInfo env d i).2
            last_error_ :=
              { code := .DWARF_ERROR_MEMORY_INVALID
                address := (ReadFdeInfo env d i).2.cur_offset }
            fde_info_ := fun j => if j = i then none else d.fde_info_ j }) := by
    unfold GetFdeInfoFromIndex
    rw [hnone]
    rcases h : ReadFdeInfo env d i with ⟨_ | e, m⟩
    · rfl
    · rw [h] at hr
      cases hr
  have hi : (GetFdeInfoFromIndex env d i).2.fde_info_ i = none := by
    rw [hrun]
    simp
  refine ⟨?_, ?_, hi, ?_, hst, ?_⟩
  · rw [hrun]
  · rw [hrun]
  · intro j hj
    rw [hrun]
    simp [hj]
  · intro env1
    rw [← ReadFdeInfo_sameTable env1 hst i]
    generalize (GetFdeInfoFromIndex env d i).2 = d1 at hi ⊢
    unfold GetFdeInfoFromIndex
    rw [hi]
    rcases ReadFdeInfo env1 d1 i with ⟨_ | e, m⟩ <;> rfl

/-- C26, at the example table of three entries in a memory that ends after the
first word of entry 1: the call for index 1 fails with the cursor `0xc` as
address, and in the full memory a later call for index 1 reads `(20, 200)`. -/
theorem GetFdeInfoFromIndex_failure_local_witness :
    (GetFdeInfoFromIndex (wordMemory [10, 100, 20]) (exampleDecoder 3) 1).1 = none
      ∧ (GetFdeInfoFromIndex (wordMemory [10, 100, 20]) (exampleDecoder 3) 1).2.last_error_
          = { code := DwarfErrorCode.DWARF_ERROR_MEMORY_INVALID, address := 0xc }
      ∧ (GetFdeInfoFromIndex (wordMemory [10, 100, 20, 200, 30, 300])
            (GetFdeInfoFromIndex (wordMemory [10, 100, 20]) (exampleDecoder 3) 1).2 1).1
          = some { pc := 20, offset := 200 } :=
  ⟨(GetFdeInfoFromIndex_failure_local (wordMemory [10, 100, 20]) (exampleDecoder 3) 1 rfl
      (Or.inr ⟨20, 0xc, rfl, rfl⟩)).1,
    (GetFdeInfoFromIndex_failure_local (wordMemory [10, 100, 20]) (exampleDecoder 3) 1 rfl
      (Or.inr ⟨20, 0xc, rfl, rfl⟩)).2.1,
    ((GetFdeInfoFromIndex_failure_local (wordMemory [10, 100, 20]) (exampleDecoder 3) 1 rfl
      (Or.inr ⟨20, 0xc, rfl, rfl⟩)).2.2.2.2.2 (wordMemory [10, 100, 20, 200, 30, 300])).trans
      rfl⟩

/-! ### Claims on `QuickenMemoryLocal` -/

/-- A copy that does not fault gives `len` bytes. -/
theorem copyLocal_length (mem : Nat → Option Nat) (len : Nat) :
    ∀ (src : Nat) (bytes : List Nat), copyLocal mem src len = some bytes →
      bytes.length = len := by
  induction len with
  | zero =>
    intro src bytes h
    simp only [copyLocal, Option.some.injEq] at h
    rw [← h]
    rfl
  | succ len ih =>
    intro src bytes h
    unfold copyLocal at h
    cases hb : mem src with
    | none => rw [hb] at h; simp at h
    | some b =>
      cases hbs : copyLocal mem (src + 1) len with
      | none => rw [hb, hbs] at h; simp at h
      | some bs =>
        rw [hb, hbs] at h
        simp only [Option.some.injEq] at h
        rw [← h, List.length_cons, ih (src + 1) bs hbs]

/-- A copy from mapped addresses does not fault. -/
theorem copyLocal_mapped (mem : Nat → Option Nat) (len : Nat) :
    ∀ src : Nat, (∀ i, i < len → (mem (src + i)).isSome = true) →
      (copyLocal mem src len).isSome = true := by
  induction len with
  | zero => intro src _; rfl
  | succ len ih =>
    intro src h
    have h0 := h 0 (Nat.succ_pos len)
    have hrest := ih (src + 1) (fun i hi => by
      have := h (i + 1) (Nat.succ_lt_succ hi)
      rwa [Nat.add_assoc, Nat.add_comm 1 i])
    unfold copyLocal
    rw [Nat.add_zero] at h0
    cases hb : mem src with
    | none => rw [hb] at h0; simp at h0
    | some b =>
      cases hbs : copyLocal mem (src + 1) len with
      | none => rw [hbs] at hrest; simp at hrest
      | some bs => rfl

/-- C27: `ReadTag` returns -1 for every address. `Read` never reports a short
count: for every address and length, the count it returns is `len`, with `len`
bytes written; and it does return when the `len` addresses from `remote_src` on
are mapped. -/
theorem QuickenMemoryLocal_Read_full (ptr_bits : Nat) (mem : Nat → Option Nat)
    (remote_src len addr : Nat) :
    QuickenMemoryLocal.ReadTag addr = -1
      ∧ (∀ r, QuickenMemoryLocal.Read ptr_bits mem remote_src len = some r →
          r.1 = len ∧ r.2.length = len)
      ∧ ((∀ i, i < len → (mem (remote_src % 2 ^ ptr_bits + i)).isSome = true) →
          (QuickenMemoryLocal.Read ptr_bits mem remote_src len).map Prod.fst = some len) := by
  refine ⟨rfl, ?_, ?_⟩
  · intro r hr
    unfold QuickenMemoryLocal.Read at hr
    cases hc : copyLocal mem (remote_src % 2 ^ ptr_bits) len with
    | none => rw [hc] at hr; simp at hr
    | some bytes =>
      rw [hc] at hr
      simp only [Option.some.injEq] at hr
      rw [← hr]
      exact ⟨rfl, copyLocal_length mem len _ bytes hc⟩
  · intro hm
    have := copyLocal_mapped mem len _ hm
    unfold QuickenMemoryLocal.Read
    cases hc : copyLocal mem (remote_src % 2 ^ ptr_bits) len with
    | none => rw [hc] at this; simp at this
    | some bytes => rfl

/-- C27, at the example memory: a read of 4 bytes at `0x1004` reports 4 bytes. -/
theorem QuickenMemoryLocal_Read_full_witness :
    QuickenMemoryLocal.Read 64 exampleLocalMemory 0x1004 4 = some (4, [4, 5, 6, 7])
      ∧ (QuickenMemoryLocal.Read 64 exampleLocalMemory 0x1004 4).map Prod.fst = some 4 :=
  ⟨rfl,
    (QuickenMemoryLocal_Read_full 64 exampleLocalMemory 0x1004 4 0).2.2
      (by decide)⟩

/-! ### Claims on the lower bound of `GetFdeFromPc` -/

/-- C29, failing input: the index holds the one entry `(10, 100)` and the FDE at
offset 100 has the range `[100, 200)`. For `pc = 50` the index lookup answers
offset 100, the FDE is not of zero length and `50 < 200`, so `GetFdeFromPc`
returns this FDE, whose `pc_start` is above `pc`. -/
theorem GetFdeFromPc_returns_fde_above_pc :
    (GetFdeFromPc (wordMemory [10, 100]) (exampleOps [(100, exampleFde 100 200)]) 1
        (exampleDecoder 1) 50).map Prod.fst = some (some (exampleFde 100 200))
      ∧ ¬ ((exampleFde 100 200).pc_start ≤ 50) := by
  constructor
  · rfl
  · decide

/-! ### Claims on `QuickenMapInfo::InitFileMemoryFromPreviousReadOnlyMap` -/

/-- What `InitFileMemoryFromPreviousReadOnlyMap` guarantees: when it returns
true, `prev_real_map` is not null and has `flags == PROT_READ`, and the entry
has `elf_offset = offset - prev_real_map->offset` (modulo `2 ^ 64`) and
`elf_start_offset = prev_real_map->offset`; when it returns false the entry is
unchanged. -/
theorem InitFileMemoryFromPreviousReadOnlyMap_spec (env : FileEnv) (elf : ElfProbe)
    (mi : QuickenMapInfo) (memory : QuickenMemoryFile) :
    ((mi.InitFileMemoryFromPreviousReadOnlyMap env elf memory).1 = true →
        ∃ prev, mi.prev_real_map = some prev ∧ prev.flags = PROT_READ
          ∧ (mi.InitFileMemoryFromPreviousReadOnlyMap env elf memory).2.2
              = { mi with
                  elf_offset := sub64 mi.offset prev.offset
                  elf_start_offset := prev.offset })
      ∧ ((mi.InitFileMemoryFromPreviousReadOnlyMap env elf memory).1 = false →
          (mi.InitFileMemoryFromPreviousReadOnlyMap env elf memory).2.2 = mi) := by
  unfold QuickenMapInfo.InitFileMemoryFromPreviousReadOnlyMap
  cases hp : mi.prev_real_map with
  | none => simp
  | some prev =>
    simp only
    by_cases hf : prev.flags = PROT_READ
    · simp only [hf, ne_eq, not_true_eq_false, if_false]
      rcases memory.Init env mi.name prev.offset (sub64 mi.end_ prev.end_) with ⟨_ | _, m1⟩
      · simp
      · simp only
        cases elf.GetInfo m1 with
        | none => simp
        | some max_size =>
          simp only
          split_ifs
          · simp
          · rcases m1.Init env mi.name prev.offset max_size with ⟨_ | _, m2⟩
            · simp
            · simp [hf]
    · simp [hf]

/-- The successful path of `InitFileMemoryFromPreviousReadOnlyMap`. -/
theorem InitFileMemoryFromPreviousReadOnlyMap_success (env : FileEnv) (elf : ElfProbe)
    (mi : QuickenMapInfo) (memory m1 m2 : QuickenMemoryFile) (prev : MapInfoRef)
    (max_size : Nat)
    (hprev : mi.prev_real_map = some prev) (hflags : prev.flags = PROT_READ)
    (h1 : memory.Init env mi.name prev.offset (sub64 mi.end_ prev.end_) = (true, m1))
    (hinfo : elf.GetInfo m1 = some max_size)
    (hmax : ¬ max_size < sub64 mi.end_ prev.end_)
    (h2 : m1.Init env mi.name prev.offset max_size = (true, m2)) :
    mi.InitFileMemoryFromPreviousReadOnlyMap env elf memory
      = (true, m2,
          { mi with
            elf_offset := sub64 mi.offset prev.offset
            elf_start_offset := prev.offset }) := by
  unfold QuickenMapInfo.InitFileMemoryFromPreviousReadOnlyMap
  simp only [hprev, hflags, ne_eq, not_true_eq_false, if_false, h1, hinfo, hmax, h2]

theorem exampleContainerProbe_GetInfo (m : QuickenMemoryFile) :
    exampleContainerProbe.GetInfo m = if m.init_offset_ = 0x1000 then some 0x3000 else none :=
  rfl

/-- C30, failing input: the entry `a.so` `[0x3000, 0x5000)` at file offset
`0x2000` whose `prev_real_map` is the read-only map of another file, `c.so`, at
file offset `0x1000`; the file `a.so` holds an ELF at offset `0x1000`. The call
returns true and sets `elf_offset` and `elf_start_offset` from the map of
`c.so`, although the names differ. -/
theorem InitFileMemoryFromPreviousReadOnlyMap_other_name :
    (exampleForeignPrevMap.InitFileMemoryFromPreviousReadOnlyMap exampleSoEnv
        exampleContainerProbe QuickenMemoryFile.fresh).1 = true
      ∧ exampleForeignPrevMap.prev_real_map.map (fun r => (r.flags, r.name))
          = some (PROT_READ, "c.so")
      ∧ exampleForeignPrevMap.name = "a.so"
      ∧ (exampleForeignPrevMap.InitFileMemoryFromPreviousReadOnlyMap exampleSoEnv
          exampleContainerProbe QuickenMemoryFile.fresh).2.2.elf_offset = 0x1000
      ∧ (exampleForeignPrevMap.InitFileMemoryFromPreviousReadOnlyMap exampleSoEnv
          exampleContainerProbe QuickenMemoryFile.fresh).2.2.elf_start_offset = 0x1000 := by
  have h1 := exampleSoEnv_Init QuickenMemoryFile.fresh 0x1000 0x2000 (by decide) (by decide)
    (by decide)
  have h2 := exampleSoEnv_Init
    (QuickenMemoryFile.fresh.Init exampleSoEnv "a.so" 0x1000 0x2000).2 0x1000 0x3000
    (by decide) (by decide) (by decide)
  have e1 : exampleForeignPrevMap.name = "a.so" := rfl
  have e3 : sub64 exampleForeignPrevMap.end_ 0x3000 = 0x2000 := by decide
  have hinit : QuickenMemoryFile.fresh.Init exampleSoEnv exampleForeignPrevMap.name 0x1000
      (sub64 exampleForeignPrevMap.end_ 0x3000)
      = (true, (QuickenMemoryFile.fresh.Init exampleSoEnv "a.so" 0x1000 0x2000).2) := by
    rw [e1, e3]
    exact prod_eq_of_fst _ _ h1.1
  have hinfo : exampleContainerProbe.GetInfo
      (QuickenMemoryFile.fresh.Init exampleSoEnv "a.so" 0x1000 0x2000).2 = some 0x3000 := by
    rw [exampleContainerProbe_GetInfo, if_pos h1.2]
  have hmax : ¬ 0x3000 < sub64 exampleForeignPrevMap.end_ 0x3000 := by
    rw [e3]
    decide
  have hagain : (QuickenMemoryFile.fresh.Init exampleSoEnv "a.so" 0x1000 0x2000).2.Init
      exampleSoEnv exampleForeignPrevMap.name 0x1000 0x3000
      = (true, ((QuickenMemoryFile.fresh.Init exampleSoEnv "a.so" 0x1000 0x2000).2.Init
          exampleSoEnv "a.so" 0x1000 0x3000).2) := by
    rw [e1]
    exact prod_eq_of_fst _ _ h2.1
  have hrun := InitFileMemoryFromPreviousReadOnlyMap_success exampleSoEnv
    exampleContainerProbe exampleForeignPrevMap QuickenMemoryFile.fresh _ _
    { start := 0x2000, end_ := 0x3000, offset := 0x1000, flags := 1, name := "c.so" }
    0x3000 rfl rfl hinit hinfo hmax hagain
  rw [hrun]
  exact ⟨rfl, rfl, rfl, by decide, rfl⟩

/-! ### Claims on the upper end of `GetFdeOffsetFromPc` -/

/-- C31: for an index of `N >= 1` entries that all decode, with strictly
increasing pc keys, and every pc above `key[N-1]`, the call
`GetFdeOffsetFromPc` returns true and writes the offset of the last entry to
`*fde_offset`; fuel `N` is enough for the loop. -/
theorem GetFdeOffsetFromPc_above_max (env : DecoderEnv) (d : DwarfEhFrameWithHdrDecoder)
    (key off : Nat → Nat) (pc fuel : Nat)
    (hw : 0 < env.size_bits)
    (hcache : CacheConsistent env d)
    (hn : 1 ≤ d.fde_count_)
    (hdec : ∀ i, i < d.fde_count_ →
      (ReadFdeInfo env d i).1 = some { pc := key i, offset := off i })
    (hmono : ∀ i j, i < j → j < d.fde_count_ → key i < key j)
    (hhi : key (d.fde_count_ - 1) < pc)
    (hfuel : d.fde_count_ ≤ fuel) :
    ∃ d', GetFdeOffsetFromPc env fuel d pc
      = some ((true, some (off (d.fde_count_ - 1))), d') := by
  obtain ⟨d', h⟩ := GetFdeOffsetFromPc_spec env d key off pc fuel hn
    (TableView_of_consistent env d key off _ hcache hdec) hmono
    (fde_count_bound env d key off _ hw hdec hmono) hfuel
  rcases h with ⟨hlt, _⟩ | ⟨j, hj, _, hmax, hrun⟩
  · have := key_mono_le key d.fde_count_ hmono 0 (d.fde_count_ - 1) (Nat.zero_le _) (by omega)
    omega
  · have hlast := hmax (d.fde_count_ - 1) (by omega) (Nat.le_of_lt hhi)
    have hj1 : j = d.fde_count_ - 1 := by omega
    subst hj1
    exact ⟨d', hrun⟩

/-- C31, witness: in the table `(10,100), (20,200), (30,300)` the pc 1000
resolves to the offset 300 of the last entry. -/
theorem GetFdeOffsetFromPc_above_max_witness :
    (GetFdeOffsetFromPc (wordMemory [10, 100, 20, 200, 30, 300]) 3 (exampleDecoder 3) 1000).map
      Prod.fst = some (true, some 300) := by
  obtain ⟨d', hrun⟩ :=
    GetFdeOffsetFromPc_above_max (wordMemory [10, 100, 20, 200, 30, 300]) (exampleDecoder 3)
      (fun i => 10 * (i + 1)) (fun i => 100 * (i + 1)) 1000 3 (by decide)
      (by intro i e h; cases h) (by decide)
      (by
        intro i hi
        have hi3 : i < 3 := hi
        interval_cases i <;> rfl)
      (by
        intro i j hij _
        show 10 * (i + 1) < 10 * (j + 1)
        omega)
      (by decide) (by decide)
  rw [hrun]
  rfl

/-! ### Claims on `Maps::Find` for any snapshot -/

/-- An entry that the loop of `Find` returns contains `pc`. -/
theorem findLoop_returns_match (es : List QuickenMapInfo) (pc : Nat) :
    ∀ (fuel first last : Nat) (e : QuickenMapInfo),
      Maps.findLoop es pc fuel first last = some (some e) → e.start ≤ pc ∧ pc < e.end_ := by
  intro fuel
  induction fuel with
  | zero =>
    intro first last e h
    unfold Maps.findLoop at h
    split_ifs at h
    cases h
  | succ fuel ih =>
    intro first last e h
    unfold Maps.findLoop at h
    split_ifs at h with hlt
    · simp only at h
      cases hc : es[(first + last) / 2]? with
      | none => rw [hc] at h; cases h
      | some cur =>
        rw [hc] at h
        simp only at h
        split_ifs at h with hm hl
        · have := Option.some.inj (Option.some.inj h)
          rw [← this]
          exact ⟨hm.1, hm.2⟩
        · exact ih _ _ e h
        · exact ih _ _ e h
    · cases h

/-- The loop of `Find` ends on every array, ordered or not: the distance
`last - first` is enough fuel. -/
theorem findLoop_terminates (es : List QuickenMapInfo) (pc : Nat) :
    ∀ (fuel first last : Nat), last ≤ es.length → last - first ≤ fuel →
      ∃ r, Maps.findLoop es pc fuel first last = some r := by
  intro fuel
  induction fuel with
  | zero =>
    intro first last _ hf
    have : ¬ first < last := by omega
    exact ⟨none, by simp [Maps.findLoop, this]⟩
  | succ fuel ih =>
    intro first last hl hf
    by_cases hlt : first < last
    · have hidx : (first + last) / 2 < es.length := by omega
      unfold Maps.findLoop
      rw [if_pos hlt]
      simp only [List.getElem?_eq_getElem hidx]
      split_ifs
      · exact ⟨_, rfl⟩
      · exact ih first _ (by omega) (by omega)
      · exact ih _ last hl (by omega)
    · exact ⟨none, by simp [Maps.findLoop, hlt]⟩

/-- C32: `Find` is sound for every snapshot, ordered or not. Any entry that it
returns satisfies `start <= pc < end`, so its range is not empty and `pc` is not
its `end`. It returns null when `local_maps_` is null or the snapshot has no
entries. When the array holds `maps_size_` entries the loop ends, with
`maps_size_` as fuel, since `last - first` decreases in every round. -/
theorem Maps_Find_sound (m : Maps) (pc fuel : Nat) :
    (∀ e, m.Find fuel pc = some (some e) →
        e.start ≤ pc ∧ pc < e.end_ ∧ e.start ≠ e.end_ ∧ pc ≠ e.end_)
      ∧ (m.local_maps_ = none → m.Find fuel pc = some none)
      ∧ (m.maps_size_ = 0 → m.Find fuel pc = some none)
      ∧ (∀ es, m.local_maps_ = some es → m.maps_size_ ≤ es.length → m.maps_size_ ≤ fuel →
          ∃ r, m.Find fuel pc = some r) := by
  refine ⟨?_, ?_, ?_, ?_⟩
  · intro e h
    unfold Maps.Find at h
    cases hes : m.local_maps_ with
    | none => rw [hes] at h; cases h
    | some es =>
      rw [hes] at h
      have := findLoop_returns_match es pc fuel 0 m.maps_size_ e h
      omega
  · intro hnull
    unfold Maps.Find
    rw [hnull]
  · intro h0
    unfold Maps.Find
    cases m.local_maps_ with
    | none => rfl
    | some es =>
      simp only [h0]
      cases fuel <;> simp [Maps.findLoop]
  · intro es hes hlen hfuel
    unfold Maps.Find
    rw [hes]
    exact findLoop_terminates es pc fuel 0 m.maps_size_ hlen (by omega)

/-- C32, at the unordered example snapshot: for `pc = 200` the loop looks at
`[100,300)` first and returns it; for `pc = 450` it misses `[400,500)` and
returns null; the empty entry `[200,200)` is not returned. -/
theorem Maps_Find_sound_witness :
    exampleUnorderedMaps.Find 3 200 = some (some (exampleMap 100 300 0 1 "a.so"))
      ∧ (100 ≤ 200 ∧ 200 < 300 ∧ (100 : Nat) ≠ 300 ∧ (200 : Nat) ≠ 300)
      ∧ exampleUnorderedMaps.Find 3 450 = some none :=
  ⟨rfl,
    (Maps_Find_sound exampleUnorderedMaps 200 3).1 (exampleMap 100 300 0 1 "a.so") rfl,
    rfl⟩

/-! ### Claims on the offsets of `CreateQuickenMemory` -/

/-- The result of `CreateQuickenMemory` is null, or the two offsets of the entry
add up to its file offset. -/
theorem CreateQuickenMemory_null_or_offsets (IsValidElf : MemoryRange → Bool)
    (mi : QuickenMapInfo) (range_offset_end : Nat) :
    (mi.CreateQuickenMemory IsValidElf range_offset_end).1 = none ∨
        (mi.CreateQuickenMemory IsValidElf range_offset_end).2.1.elf_start_offset
          + (mi.CreateQuickenMemory IsValidElf range_offset_end).2.1.elf_offset = mi.offset := by
  unfold QuickenMapInfo.CreateQuickenMemory
  simp only []
  repeat' split
  all_goals first
    | (left; rfl)
    | (right; rfl)
    | (right
       rename_i h
       have h1 := (not_or.1 (not_or.1 (not_or.1 h).2).2).2
       simp only []
       omega)

/-- C33: for every entry and every outcome of the ELF probe, when
`CreateQuickenMemory` returns a memory object the entry has
`elf_start_offset + elf_offset == offset`, as a sum of natural numbers (no
wrap-around); when it returns null because `end <= start`, `elf_offset` and
`elf_start_offset` are unchanged. -/
theorem CreateQuickenMemory_offset_invariant (IsValidElf : MemoryRange → Bool)
    (mi : QuickenMapInfo) (range_offset_end : Nat) :
    ((mi.CreateQuickenMemory IsValidElf range_offset_end).1 ≠ none →
        (mi.CreateQuickenMemory IsValidElf range_offset_end).2.1.elf_start_offset
          + (mi.CreateQuickenMemory IsValidElf range_offset_end).2.1.elf_offset = mi.offset)
      ∧ (mi.end_ ≤ mi.start →
          (mi.CreateQuickenMemory IsValidElf range_offset_end).1 = none
          ∧ (mi.CreateQuickenMemory IsValidElf range_offset_end).2.1.elf_offset = mi.elf_offset
          ∧ (mi.CreateQuickenMemory IsValidElf range_offset_end).2.1.elf_start_offset
              = mi.elf_start_offset) := by
  constructor
  · intro hne
    rcases CreateQuickenMemory_null_or_offsets IsValidElf mi range_offset_end with h | h
    · exact absurd h hne
    · exact h
  · intro h
    unfold QuickenMapInfo.CreateQuickenMemory
    rw [if_pos h]
    exact ⟨rfl, rfl, rfl⟩

/-- C33, at the split image `exampleExecMap` with no ELF at its own start: the
result is not null, `elf_start_offset` is 0 and `elf_offset` is `0x1000`, the
file offset of the entry. -/
theorem CreateQuickenMemory_offset_invariant_witness :
    (exampleExecMap.CreateQuickenMemory (fun _ => false) 0).1 ≠ none
      ∧ (exampleExecMap.CreateQuickenMemory (fun _ => false) 0).2.1.elf_start_offset
          + (exampleExecMap.CreateQuickenMemory (fun _ => false) 0).2.1.elf_offset
        = exampleExecMap.offset :=
  ⟨by decide,
    (CreateQuickenMemory_offset_invariant (fun _ => false) exampleExecMap 0).1 (by decide)⟩

/-! ### Claims on the readable length after `QuickenMemoryFile::Init` -/

/-- For a page size `2 ^ k` the mapping offset `offset & ~(pagesize - 1)` is
`offset` rounded down to a multiple of the page size. -/
theorem alignedOffset_eq (env : FileEnv) (k offset : Nat) (hp : env.pagesize = 2 ^ k)
    (hk : k ≤ 64) (ho : offset < 2 ^ 64) :
    alignedOffset env offset = 2 ^ k * (offset / 2 ^ k) := by
  unfold alignedOffset
  rw [hp]
  apply Nat.eq_of_testBit_eq
  intro j
  have hlt : 2 ^ k - 1 < 2 ^ 64 :=
    Nat.lt_of_lt_of_le (Nat.sub_lt (Nat.two_pow_pos k) Nat.one_pos)
      (Nat.pow_le_pow_right (by decide) hk)
  have hmask : 2 ^ 64 - 1 - (2 ^ k - 1) = 2 ^ 64 - (2 ^ k - 1 + 1) := by omega
  rw [Nat.testBit_and, hmask, Nat.testBit_two_pow_sub_succ hlt, Nat.testBit_two_pow_sub_one,
    Nat.testBit_mul_pow_two, ← Nat.shiftRight_eq_div_pow, Nat.testBit_shiftRight]
  by_cases hjk : k ≤ j
  · have e : k + (j - k) = j := by omega
    rw [e]
    by_cases hj : j < 64
    · simp [hjk, hj, Nat.not_lt.2 hjk]
    · have hbit : offset.testBit j = false :=
        Nat.testBit_lt_two_pow (Nat.lt_of_lt_of_le ho
          (Nat.pow_le_pow_right (by decide) (Nat.not_lt.1 hj)))
      simp [hbit]
  · have hlt2 : j < k := Nat.not_le.1 hjk
    simp [hjk, hlt2]

/-- The mapping offset and `offset_` add up to `offset`, and `offset_` is
`offset mod pagesize`. -/
theorem alignedOffset_add (env : FileEnv) (k offset : Nat) (hp : env.pagesize = 2 ^ k)
    (hk : k ≤ 64) (ho : offset < 2 ^ 64) :
    alignedOffset env offset + (offset &&& (env.pagesize - 1)) = offset
      ∧ (offset &&& (env.pagesize - 1)) = offset % env.pagesize := by
  rw [alignedOffset_eq env k offset hp hk ho, hp, Nat.and_pow_two_sub_one_eq_mod]
  exact ⟨Nat.div_add_mod offset (2 ^ k), rfl⟩


/-- C34: for a page size that is a power of two, a file of `S` bytes, an offset
below `S` and every `size`, a successful `Init(file, offset, size)` leaves
`size_ == min(S - offset, size)`, also when `size + (offset mod pagesize)`
overflows 64 bits, and `data_` starts `offset mod pagesize` bytes into the
mapping; and the second bounds check (`aligned_offset > S` or `offset > S`) is
false once `offset < S` has passed. -/
theorem Init_readable_length (env : FileEnv) (q q1 : QuickenMemoryFile) (file : String)
    (bytes : List Nat) (k offset size : Nat)
    (hpage : env.pagesize = 2 ^ k) (hk : k ≤ 31)
    (hfile : env.files file = some bytes) (hS : bytes.length < 2 ^ 63)
    (hoff : offset < bytes.length) (hsize : size < 2 ^ 64)
    (h : q.Init env file offset size = (true, q1)) :
    q1.size_ = min (bytes.length - offset) size
      ∧ q1.offset_ = offset % env.pagesize
      ∧ (∀ i, q1.data_ i = (q1.map_addr_.getD (fun _ => 0)) (offset % env.pagesize + i))
      ∧ ¬ (alignedOffset env offset > bytes.length ∨ offset > bytes.length) := by
  obtain ⟨bytes1, hf1, _, _, _, hmap, hoff_, _, hsz⟩ := Init_success env q q1 file offset size h
  rw [hfile] at hf1
  have hb : bytes = bytes1 := Option.some.inj hf1
  subst hb
  have ho64 : offset < 2 ^ 64 := by
    have : (2:Nat) ^ 63 < 2 ^ 64 := by decide
    omega
  obtain ⟨hsum, hmod⟩ := alignedOffset_add env k offset hpage (by omega) ho64
  have hpl : env.pagesize ≤ 2 ^ 31 := by
    rw [hpage]
    exact Nat.pow_le_pow_right (by decide) hk
  have hml : offset % env.pagesize < env.pagesize :=
    Nat.mod_lt _ (by rw [hpage]; exact Nat.two_pow_pos k)
  have h31 : (2:Nat) ^ 31 < 2 ^ 63 := by decide
  have h63 : (2:Nat) ^ 63 + 2 ^ 63 = 2 ^ 64 := by decide
  refine ⟨?_, ?_, ?_, ?_⟩
  · rw [hsz, hmod]
    unfold mapLength
    simp only [hmod]
    split_ifs with hc
    · omega
    · rw [hmod] at hsum
      have : ¬ (size + offset % env.pagesize < 2 ^ 64
          ∧ size + offset % env.pagesize < bytes.length - alignedOffset env offset) := hc
      rcases Nat.lt_or_ge (size + offset % env.pagesize) (2 ^ 64) with h1 | h1
      · have h2 : ¬ size + offset % env.pagesize < bytes.length - alignedOffset env offset :=
          fun h2 => hc ⟨h1, h2⟩
        omega
      · omega
  · rw [hoff_, hmod]
  · intro i
    unfold QuickenMemoryFile.data_
    rw [hmap, hoff_, hmod]
    rfl
  · omega

/-- C34, at a file of 4 bytes, offset 1 and the default size `UINT64_MAX`, for
which `size + 1` overflows 64 bits: `size_` is 3. -/
theorem Init_readable_length_witness :
    (QuickenMemoryFile.fresh.Init (exampleFileEnv 16 [1, 2, 3, 4]) "f" 1 UINT64_MAX).1 = true
      ∧ (QuickenMemoryFile.fresh.Init (exampleFileEnv 16 [1, 2, 3, 4]) "f" 1 UINT64_MAX).2.size_
          = min (4 - 1) UINT64_MAX
      ∧ (QuickenMemoryFile.fresh.Init (exampleFileEnv 16 [1, 2, 3, 4]) "f" 1 UINT64_MAX).2.size_
          = 3 :=
  ⟨rfl,
    (Init_readable_length (exampleFileEnv 16 [1, 2, 3, 4]) QuickenMemoryFile.fresh
      (QuickenMemoryFile.fresh.Init (exampleFileEnv 16 [1, 2, 3, 4]) "f" 1 UINT64_MAX).2
      "f" [1, 2, 3, 4] 12 1 UINT64_MAX rfl (by decide) rfl (by decide) (by decide) (by decide)
      rfl).1,
    rfl⟩

/-! ### Claims on providers whose table could not be initialised -/

/-- C35: for an entry with no provider and no failure flag whose key is not in
the cache, `GetQuickenInterface` returns a provider whenever `ElfWrapper::Init`
succeeds, whatever `TryInitQuickenTable` returns: the failure flag stays unset,
the provider is put in the cache under the key `name:start:end` built from the
name without the delete suffix, and the returned provider, the entry and the
cache are the same for every `TryInitQuickenTable`. When `ElfWrapper::Init` fails
the call returns null and the cache is unchanged. -/
theorem GetQuickenInterface_caches_provider (env : InterfaceEnv) (w : InterfaceWorld)
    (mi : QuickenMapEntry)
    (ha : mi.quicken_interface_atomic_ = none) (hq : mi.quicken_interface_ = none)
    (hf : mi.quicken_interface_failed_ = false)
    (hc : w.cached_quicken_interface_.lookup (mi.key env) = none) :
    (∀ ew eo eso mbe, env.ElfWrapperInit (mi.withNames env) = (some ew, eo, eso, mbe) →
        ∃ p, (mi.GetQuickenInterface env w).1 = some p
          ∧ (mi.GetQuickenInterface env w).2.2.quicken_interface_failed_ = false
          ∧ (mi.GetQuickenInterface env w).2.1.cached_quicken_interface_
              = (so_key (env.RemoveMapsDeleteSuffix mi.name) mi.start mi.end_, p)
                  :: w.cached_quicken_interface_
          ∧ (mi.GetQuickenInterface env w).2.1.cached_quicken_interface_.lookup
              (so_key (env.RemoveMapsDeleteSuffix mi.name) mi.start mi.end_) = some p
          ∧ ∀ t : QuickenInterface → QutFileError,
              (mi.GetQuickenInterface { env with TryInitQuickenTable := t } w).1 = some p
              ∧ (mi.GetQuickenInterface { env with TryInitQuickenTable := t } w).2.2
                  = (mi.GetQuickenInterface env w).2.2
              ∧ (mi.GetQuickenInterface { env with TryInitQuickenTable := t }
                    w).2.1.cached_quicken_interface_
                  = (mi.GetQuickenInterface env w).2.1.cached_quicken_interface_)
      ∧ (∀ eo eso mbe, env.ElfWrapperInit (mi.withNames env) = (none, eo, eso, mbe) →
          (mi.GetQuickenInterface env w).1 = none
          ∧ (mi.GetQuickenInterface env w).2.1.cached_quicken_interface_
              = w.cached_quicken_interface_) := by
  have hrun : ∀ env1 : InterfaceEnv, mi.key env1 = mi.key env →
      mi.GetQuickenInterface env1 w = (mi.withNames env1).construct env1 w (mi.key env1) := by
    intro env1 hk
    rw [GetQuickenInterface_fresh env1 w mi ha hq hf,
      lookupOrConstruct_miss env1 w mi (by rw [hk]; exact hc)]
  constructor
  · intro ew eo eso mbe hi
    have hi1 : ∀ t : QuickenInterface → QutFileError,
        ({ env with TryInitQuickenTable := t } : InterfaceEnv).ElfWrapperInit
            (mi.withNames { env with TryInitQuickenTable := t })
          = (some ew, eo, eso, mbe) := fun _ => hi
    have h0 := hrun env rfl
    unfold QuickenMapEntry.construct at h0
    rw [hi] at h0
    simp only at h0
    have ht : ∀ t : QuickenInterface → QutFileError,
        (mi.GetQuickenInterface { env with TryInitQuickenTable := t } w).1
            = (mi.GetQuickenInterface env w).1
          ∧ (mi.GetQuickenInterface { env with TryInitQuickenTable := t } w).2.2
            = (mi.GetQuickenInterface env w).2.2
          ∧ (mi.GetQuickenInterface { env with TryInitQuickenTable := t }
                w).2.1.cached_quicken_interface_
            = (mi.GetQuickenInterface env w).2.1.cached_quicken_interface_ := by
      intro t
      have h1 := hrun { env with TryInitQuickenTable := t } rfl
      unfold QuickenMapEntry.construct at h1
      rw [hi1 t] at h1
      simp only at h1
      rw [h0, h1]
      exact ⟨rfl, rfl, rfl⟩
    have hkey : (so_key (env.RemoveMapsDeleteSuffix mi.name) mi.start mi.end_
        == mi.key env) = true := by
      unfold QuickenMapEntry.key
      exact beq_self_eq_true _
    refine ⟨_, congrArg Prod.fst h0, ?_, ?_, ?_, ?_⟩
    · rw [h0]
      exact hf
    · rw [h0]
      rfl
    · rw [h0]
      simp only [List.lookup_cons, hkey]
    · intro t
      obtain ⟨t1, t2, t3⟩ := ht t
      exact ⟨t1.trans (congrArg Prod.fst h0), t2, t3⟩
  · intro eo eso mbe hi
    rw [hrun env rfl]
    unfold QuickenMapEntry.construct
    rw [hi]
    exact ⟨rfl, rfl⟩

/-- C35, at `exampleEntry 0` in the example world, where `TryInitQuickenTable`
reports an error (`TryInvokeJavaRequestQutGenerate`): the provider is returned
and cached under `a.so:4096:8192`. -/
theorem GetQuickenInterface_caches_provider_witness :
    exampleInterfaceEnv.TryInitQuickenTable exampleProvider ≠ QutFileError.NoneError
      ∧ ((exampleEntry 0).GetQuickenInterface exampleInterfaceEnv exampleInterfaceWorld).1
          = some exampleProvider
      ∧ ((exampleEntry 0).GetQuickenInterface exampleInterfaceEnv
          exampleInterfaceWorld).2.1.cached_quicken_interface_
          = [("a.so:4096:8192", exampleProvider)]
      ∧ ∃ p, ((exampleEntry 0).GetQuickenInterface exampleInterfaceEnv
            exampleInterfaceWorld).1 = some p
          ∧ ((exampleEntry 0).GetQuickenInterface exampleInterfaceEnv
              exampleInterfaceWorld).2.2.quicken_interface_failed_ = false :=
  ⟨by decide, rfl, rfl,
    (((GetQuickenInterface_caches_provider exampleInterfaceEnv exampleInterfaceWorld
        (exampleEntry 0) rfl rfl rfl rfl).1 exampleElfWrapper 0 0 false rfl).imp
      (fun _ h => ⟨h.1, h.2.1⟩))⟩

/-! ### Claims on `CreateQuickenInterfaceForGenerate` -/

/-- The setters of `FillQuickenInterfaceForGenerate` leave the build id as it
is. -/
theorem FillQuickenInterfaceForGenerate_build_id (qi : GeneratingInterface) (elf : Elf) :
    (FillQuickenInterfaceForGenerate qi elf).build_id_ = qi.build_id_ := by
  unfold FillQuickenInterfaceForGenerate
  simp only []
  repeat' split
  all_goals rfl

/-- C36: the build id that `CreateQuickenInterfaceForGenerate` gives to the
provider is `FakeBuildId(sopath)` for every ELF, and the provider does not
depend on `GetBuildID()` of the ELF: two ELFs that differ only in their build
id give the same provider. -/
theorem CreateQuickenInterfaceForGenerate_build_id (env : InterfaceEnv)
    (ToBuildId : String → String) (address : Nat) (sopath : String) (elf : Elf)
    (elf_start_offset : Nat) :
    (CreateQuickenInterfaceForGenerate env ToBuildId address sopath elf
        elf_start_offset).build_id_ = env.FakeBuildId sopath
      ∧ ∀ other_build_id : String,
          CreateQuickenInterfaceForGenerate env ToBuildId address sopath
              { elf with GetBuildID := other_build_id } elf_start_offset
            = CreateQuickenInterfaceForGenerate env ToBuildId address sopath elf
                elf_start_offset := by
  constructor
  · have he : ("" : String).isEmpty = true := by decide
    unfold CreateQuickenInterfaceForGenerate
    simp only [he, if_true]
    rw [FillQuickenInterfaceForGenerate_build_id]
    rfl
  · intro other_build_id
    rfl

/-- C36, at the example ELF with the build id `abcd` and with no build id: the
provider gets the build id `FakeBuildId(sopath)` both times. -/
theorem CreateQuickenInterfaceForGenerate_build_id_witness :
    (CreateQuickenInterfaceForGenerate exampleInterfaceEnv (fun _ => "real") 0 "a.so"
        (exampleElf "abcd") 0).build_id_ = exampleInterfaceEnv.FakeBuildId "a.so"
      ∧ CreateQuickenInterfaceForGenerate exampleInterfaceEnv (fun _ => "real") 0 "a.so"
          (exampleElf "") 0
        = CreateQuickenInterfaceForGenerate exampleInterfaceEnv (fun _ => "real") 0 "a.so"
          (exampleElf "abcd") 0 :=
  ⟨(CreateQuickenInterfaceForGenerate_build_id exampleInterfaceEnv (fun _ => "real") 0 "a.so"
      (exampleElf "abcd") 0).1,
    (CreateQuickenInterfaceForGenerate_build_id exampleInterfaceEnv (fun _ => "real") 0 "a.so"
      (exampleElf "abcd") 0).2 ""⟩

/-! ### Claims on the array of `Maps::ParseImpl` -/

/-- The capacity after one callback: it grows by `CAPACITY_INCREMENT` exactly
when the write has made the array full. -/
theorem parseCallback_tmp_capacity (B : QuickenMapInfo → Bool) (st : ParseState) (l : MapLine) :
    (parseCallback B st l).tmp_capacity
      = (if st.tmp_idx + 1 = st.tmp_capacity then st.tmp_capacity + CAPACITY_INCREMENT
         else st.tmp_capacity) := by
  unfold parseCallback
  simp only
  cases B (QuickenMapInfo.new st.prev_real_map l.start l.end_ l.pgoff
      (markDevice l.flags l.name) l.name) <;> simp <;> split_ifs <;> rfl

/-- The write index stays below the capacity through all callbacks. -/
theorem foldl_parseCallback_bound (B : QuickenMapInfo → Bool) (lines : List MapLine) :
    ∀ st : ParseState, st.tmp_idx < st.tmp_capacity →
      (lines.foldl (parseCallback B) st).tmp_idx
        < (lines.foldl (parseCallback B) st).tmp_capacity := by
  induction lines with
  | nil => intro st h; exact h
  | cons l rest ih =>
    intro st h
    rw [List.foldl_cons]
    apply ih
    rw [parseCallback_tmp_capacity, (parseCallback_tmp_maps B st l).2.1]
    unfold CAPACITY_INCREMENT
    split_ifs <;> omega

/-- C37: given `maps_capacity_ != 0`, before each callback (after any `k` of
the mappings) the write index is `k` and strictly below the capacity, which
grows by 1024 as soon as a write makes the array full. After a successful parse
of `n` mappings `maps_size_ == n < maps_capacity_`, the entries are the mappings
in the order of delivery, and each entry is linked to the most recent entry
before it that is not blank. On failure the snapshot is unchanged. -/
theorem ParseImpl_array_bounds (env : ParseEnv) (m : Maps) (hcap : m.maps_capacity_ ≠ 0) :
    (∀ k, k ≤ env.lines.length →
        (parseLines { env with lines := env.lines.take k } m.maps_capacity_).tmp_idx = k
        ∧ k < (parseLines { env with lines := env.lines.take k } m.maps_capacity_).tmp_capacity)
      ∧ (∀ (st : ParseState) (l : MapLine),
          (parseCallback env.IsBlank st l).tmp_capacity
            = (if st.tmp_idx + 1 = st.tmp_capacity then st.tmp_capacity + 1024
               else st.tmp_capacity))
      ∧ (env.ret = true →
          ∃ m1 es, m.ParseImpl env = some (true, m1)
            ∧ m1.maps_size_ = env.lines.length
            ∧ m1.maps_size_ < m1.maps_capacity_
            ∧ m1.local_maps_ = some es
            ∧ es.map QuickenMapInfo.toLine
                = env.lines.map (fun l => { l with flags := markDevice l.flags l.name })
            ∧ ∀ i e, es[i]? = some e →
                e.prev_real_map = lastReal env.IsBlank (es.take i))
      ∧ (env.ret = false → m.ParseImpl env = some (false, m)) := by
  have hinit : ∀ ls : List MapLine,
      (ls.foldl (parseCallback env.IsBlank)
          { prev_map := none, prev_real_map := none, tmp_maps := [], tmp_idx := 0,
            tmp_capacity := m.maps_capacity_ }).tmp_idx = ls.length
        ∧ (ls.foldl (parseCallback env.IsBlank)
          { prev_map := none, prev_real_map := none, tmp_maps := [], tmp_idx := 0,
            tmp_capacity := m.maps_capacity_ }).tmp_idx
          < (ls.foldl (parseCallback env.IsBlank)
          { prev_map := none, prev_real_map := none, tmp_maps := [], tmp_idx := 0,
            tmp_capacity := m.maps_capacity_ }).tmp_capacity := by
    intro ls
    refine ⟨?_, foldl_parseCallback_bound env.IsBlank ls _ (Nat.pos_of_ne_zero hcap)⟩
    rw [(foldl_parseCallback_lines env.IsBlank ls _).2]
    exact Nat.zero_add _
  refine ⟨?_, ?_, ?_, ?_⟩
  · intro k hk
    have h := hinit (env.lines.take k)
    have hlen : (env.lines.take k).length = k := by
      rw [List.length_take]
      exact Nat.min_eq_left hk
    unfold parseLines
    rw [hlen] at h
    exact ⟨h.1, by rw [h.1] at h; exact h.2⟩
  · intro st l
    exact parseCallback_tmp_capacity env.IsBlank st l
  · intro hret
    have hrun : m.ParseImpl env = some (true,
        { m with
          local_maps_ := some (parseLines env m.maps_capacity_).tmp_maps
          maps_capacity_ := (parseLines env m.maps_capacity_).tmp_capacity
          maps_size_ := (parseLines env m.maps_capacity_).tmp_idx }) := by
      unfold Maps.ParseImpl
      rw [if_neg hcap]
      simp only [hret, if_true]
    obtain ⟨_, _, _, _, h5, h6⟩ := ParseImpl_success env m _ hrun
    have hb := hinit env.lines
    have hlinks := foldl_parseCallback_links env.IsBlank env.lines
      { prev_map := none, prev_real_map := none, tmp_maps := [], tmp_idx := 0,
        tmp_capacity := m.maps_capacity_ } rfl (by intro i e hi; simp at hi)
    exact ⟨_, _, hrun, h5, hb.2, rfl, h6, hlinks.2⟩
  · intro hret
    unfold Maps.ParseImpl
    rw [if_neg hcap]
    simp only [hret, Bool.false_eq_true, if_false]

/-- C37, at the example map file of five mappings and the capacity 5: the
array is full after the fifth write and grows to 1029, so
`maps_size_ == 5 < maps_capacity_`. -/
theorem ParseImpl_array_bounds_witness :
    ((Maps.new 5).ParseImpl exampleParseEnv).map
        (fun r => (r.1, r.2.maps_size_, r.2.maps_capacity_)) = some (true, 5, 1029)
      ∧ (parseLines { exampleParseEnv with lines := exampleParseEnv.lines.take 4 } 5).tmp_idx
          = 4
      ∧ 4 < (parseLines { exampleParseEnv with lines := exampleParseEnv.lines.take 4 }
              5).tmp_capacity :=
  ⟨rfl,
    ((ParseImpl_array_bounds exampleParseEnv (Maps.new 5) (by decide)).1 4 (by decide)).1,
    ((ParseImpl_array_bounds exampleParseEnv (Maps.new 5) (by decide)).1 4 (by decide)).2⟩

/-! ### Claims on the cache key of `GetQuickenInterface` -/

theorem digitChar_ne_colon (d : Nat) (h : d < 10) : Nat.digitChar d ≠ ':' := by
  interval_cases d <;> decide

theorem toDigitsCore_no_colon (fuel : Nat) : ∀ (n : Nat) (ds : List Char),
    (∀ c ∈ ds, c ≠ ':') → ∀ c ∈ Nat.toDigitsCore 10 fuel n ds, c ≠ ':' := by
  induction fuel with
  | zero => intro n ds h; exact h
  | succ fuel ih =>
    intro n ds h
    unfold Nat.toDigitsCore
    simp only
    have hcons : ∀ c ∈ Nat.digitChar (n % 10) :: ds, c ≠ ':' := by
      intro c hc
      rcases List.mem_cons.1 hc with rfl | hc
      · exact digitChar_ne_colon _ (Nat.mod_lt _ (by decide))
      · exact h c hc
    split_ifs
    · exact hcons
    · exact ih _ _ hcons

/-- The decimal text of a number holds no colon. -/
theorem toString_no_colon (n : Nat) : ∀ c ∈ (toString n).data, c ≠ ':' :=
  toDigitsCore_no_colon (n + 1) n [] (fun _ h => absurd h (List.not_mem_nil _))

theorem split_at_first_colon : ∀ (u v p q : List Char),
    (∀ c ∈ u, c ≠ ':') → (∀ c ∈ v, c ≠ ':') → u ++ ':' :: p = v ++ ':' :: q →
    u = v ∧ p = q := by
  intro u
  induction u with
  | nil =>
    intro v p q _ hv h
    cases v with
    | nil => exact ⟨rfl, (List.cons.inj h).2⟩
    | cons b v =>
      have := (List.cons.inj h).1
      exact absurd this.symm (hv b (List.mem_cons_self _ _))
  | cons a u ih =>
    intro v p q hu hv h
    cases v with
    | nil =>
      have := (List.cons.inj h).1
      exact absurd this (hu a (List.mem_cons_self _ _))
    | cons b v =>
      obtain ⟨hab, hrest⟩ := List.cons.inj h
      obtain ⟨h1, h2⟩ := ih v p q (fun c hc => hu c (List.mem_cons_of_mem _ hc))
        (fun c hc => hv c (List.mem_cons_of_mem _ hc)) hrest
      exact ⟨by rw [hab, h1], h2⟩

/-- A text is cut in one way only at its last colon. -/
theorem split_at_last_colon (a b x y : List Char)
    (hx : ∀ c ∈ x, c ≠ ':') (hy : ∀ c ∈ y, c ≠ ':')
    (h : a ++ ':' :: x = b ++ ':' :: y) : a = b ∧ x = y := by
  have hr := congrArg List.reverse h
  simp only [List.reverse_append, List.reverse_cons, List.append_assoc,
    List.singleton_append] at hr
  obtain ⟨h1, h2⟩ := split_at_first_colon x.reverse y.reverse a.reverse b.reverse
    (fun c hc => hx c (List.mem_reverse.1 hc)) (fun c hc => hy c (List.mem_reverse.1 hc)) hr
  exact ⟨List.reverse_injective h2, List.reverse_injective h1⟩

theorem so_key_data (name : String) (s e : Nat) :
    (so_key name s e).data
      = (name.data ++ ':' :: (toString s).data) ++ ':' :: (toString e).data := by
  unfold so_key
  simp only [String.data_append, List.append_assoc]
  rfl

/-- C40: the key `name + ":" + to_string(start) + ":" + to_string(end)` is
injective: two triples give the same key only if they are equal, whatever
characters the names contain. -/
theorem so_key_injective (n1 n2 : String) (s1 s2 e1 e2 : Nat)
    (h : so_key n1 s1 e1 = so_key n2 s2 e2) : n1 = n2 ∧ s1 = s2 ∧ e1 = e2 := by
  have hd := congrArg String.data h
  rw [so_key_data, so_key_data] at hd
  obtain ⟨h1, h2⟩ := split_at_last_colon _ _ _ _ (toString_no_colon e1) (toString_no_colon e2) hd
  obtain ⟨h3, h4⟩ := split_at_last_colon _ _ _ _ (toString_no_colon s1) (toString_no_colon s2) h1
  exact ⟨String.ext h3, toString_nat_inj _ _ (String.ext h4), toString_nat_inj _ _ (String.ext h2)⟩

/-- C40, at a name with a colon and a digit: the key of `("lib:1", 2, 3)` is
`lib:1:2:3`, and the key of `("lib", 1, 23)` differs from it. -/
theorem so_key_injective_witness :
    so_key "lib:1" 2 3 = "lib:1:2:3"
      ∧ (("lib:1" : String) = "lib:1" ∧ 2 = 2 ∧ 3 = 3)
      ∧ so_key "lib" 1 23 ≠ so_key "lib:1" 2 3 :=
  ⟨by decide, so_key_injective "lib:1" "lib:1" 2 2 3 3 rfl,
    fun h => absurd (so_key_injective "lib" "lib:1" 1 2 23 3 h).2.1 (by decide)⟩

/-! ### Claims on `LockFreeQueue`: the chain of nodes -/

theorem Linked_of_agree (objs objs' : Nat → Node) : ∀ l : List Nat,
    (∀ i ∈ l, (objs' i).next_.ptr_ = (objs i).next_.ptr_) → Linked objs l → Linked objs' l
  | [], _, _ => trivial
  | a :: rest, h, hl =>
    ⟨(h a (List.mem_cons_self _ _)).trans hl.1,
      Linked_of_agree objs objs' rest (fun i hi => h i (List.mem_cons_of_mem _ hi)) hl.2⟩

theorem lastOf_mem : ∀ (body : List Nat) (h : Nat), lastOf h body ∈ h :: body
  | [], _ => List.mem_cons_self _ _
  | b :: rest, _ => List.mem_cons_of_mem _ (lastOf_mem rest b)

theorem Linked_last (objs : Nat → Node) : ∀ (body : List Nat) (h : Nat),
    Linked objs (h :: body) → (objs (lastOf h body)).next_.ptr_ = none
  | [], _, hl => hl.1
  | b :: rest, _, hl => Linked_last objs rest b hl.2

theorem lastOf_append : ∀ (body : List Nat) (h n : Nat), lastOf h (body ++ [n]) = n
  | [], _, _ => rfl
  | b :: rest, _, n => lastOf_append rest b n

theorem Linked_snoc (objs objs' : Nat → Node) (n : Nat) : ∀ (body : List Nat) (h : Nat),
    Linked objs (h :: body) → (h :: body).Nodup →
    (∀ i ∈ h :: body, i ≠ lastOf h body → (objs' i).next_.ptr_ = (objs i).next_.ptr_) →
    (objs' (lastOf h body)).next_.ptr_ = some n → (objs' n).next_.ptr_ = none →
    Linked objs' (h :: (body ++ [n]))
  | [], _, _, _, _, hlast, hn => ⟨hlast, hn, trivial⟩
  | b :: rest, h, hl, hnd, hag, hlast, hn => by
    have hne : h ≠ lastOf b rest := by
      intro he
      have hm := lastOf_mem rest b
      rw [← he] at hm
      exact (List.nodup_cons.1 hnd).1 hm
    refine ⟨?_, Linked_snoc objs objs' n rest b hl.2 (List.nodup_cons.1 hnd).2
      (fun i hi hne' => hag i (List.mem_cons_of_mem _ hi) hne') hlast hn⟩
    have h1 := hag h (List.mem_cons_self _ _) hne
    exact h1.trans hl.1

theorem setNode_objects (q : LockFreeQueue) (i : Nat) (n : Node) (j : Nat) :
    (q.setNode i n).objects j = if j = i then n else q.objects j :=
  rfl

/-- What `allocate` does in a state that holds values: it fails when the free
list is empty and the storage is used up, and otherwise hands out a node of
zero bytes that is in neither list. -/
theorem allocate_spec (q : LockFreeQueue) (h : Nat) (body fl vals : List Nat)
    (hq : Holds q h body fl [] vals) :
    (fl = [] ∧ q.available_ = q.Reserved ∧ FreeList.allocate q = (none, q))
      ∨ ∃ n fl1, (FreeList.allocate q).1 = some n
          ∧ Holds (FreeList.allocate q).2 h body fl1 [n] vals
          ∧ (FreeList.allocate q).2.objects n = Node.zero
          ∧ (FreeList.allocate q).2.Reserved = q.Reserved
          ∧ (FreeList.allocate q).2.size_bits = q.size_bits
          ∧ (fl1 = fl ∨ fl = n :: fl1) := by
  cases fl with
  | nil =>
    have hfree : q.free_ = none := hq.free_ptr
    by_cases hfull : q.available_ ≥ q.Reserved
    · left
      have heq : q.available_ = q.Reserved := Nat.le_antisymm hq.avail hfull
      refine ⟨rfl, heq, ?_⟩
      unfold FreeList.allocate FixedObjectStorage.provide
      rw [hfree]
      simp only [hfull, if_true]
      congr 1
      clear hq hfull
      obtain ⟨sb, R, objs, av, fr, hd, tl⟩ := q
      simp only at heq hfree
      subst heq
      subst hfree
      rfl
    · right
      have hrun : FreeList.allocate q
          = (some q.available_, { q with available_ := q.available_ + 1 }) := by
        unfold FreeList.allocate FixedObjectStorage.provide
        rw [hfree]
        simp only [hfull, if_false]
      refine ⟨q.available_, [], ?_, ?_, ?_, ?_, ?_, Or.inl rfl⟩
      · rw [hrun]
      · rw [hrun]
        have hnot : q.available_ ∉ h :: body ++ [] ++ [] := fun hm =>
          Nat.lt_irrefl _ (hq.below _ hm)
        exact
          { head_ptr := hq.head_ptr
            tail_ptr := hq.tail_ptr
            linked := hq.linked
            values := hq.values
            nonzero := hq.nonzero
            free_ptr := hq.free_ptr
            free_linked := hq.free_linked
            nodup := by
              have hnd0 : (h :: body ++ []).Nodup := by simpa using hq.nodup
              refine List.Nodup.append hnd0 (List.nodup_singleton _) ?_
              intro i hi hi2
              rw [List.mem_singleton] at hi2
              rw [hi2] at hi
              exact hnot (by simpa using hi)
            below := by
              intro i hi
              rcases List.mem_append.1 hi with hi | hi
              · exact Nat.lt_succ_of_lt (hq.below i (by simpa using hi))
              · rw [List.mem_singleton] at hi
                rw [hi]
                exact Nat.lt_succ_self _
            count := by
              have := hq.count
              simp only [List.length_append, List.length_cons, List.length_nil,
                List.append_nil] at this ⊢
              omega
            avail := Nat.succ_le_of_lt (Nat.not_le.1 hfull)
            untouched := fun i hi => hq.untouched i (Nat.le_of_succ_le hi)
            head_tag := hq.head_tag
            tail_tag := hq.tail_tag }
      · rw [hrun]
        exact hq.untouched _ (Nat.le_refl _)
      · rw [hrun]
      · rw [hrun]
  | cons f fl1 =>
    right
    have hfree : q.free_ = some f := hq.free_ptr
    have hrun : FreeList.allocate q
        = (some f, ({ q with free_ := (q.objects f).next_.ptr_ }).setNode f Node.zero) := by
      unfold FreeList.allocate
      rw [hfree]
    have hperm : List.Perm (h :: body ++ fl1 ++ [f]) (h :: body ++ f :: fl1 ++ []) := by
      rw [List.append_nil, List.append_assoc]
      exact List.Perm.append_left _ (List.perm_append_singleton f fl1)
    have hnd : (h :: body ++ fl1 ++ [f]).Nodup := hperm.nodup_iff.2 hq.nodup
    have hf1 : f ∉ h :: body ++ fl1 := by
      intro hm
      exact (List.disjoint_of_nodup_append hnd) hm (List.mem_singleton_self f)
    have hfc : f ∉ h :: body := fun hm => hf1 (List.mem_append_left _ hm)
    have hff : f ∉ fl1 := fun hm => hf1 (List.mem_append_right _ hm)
    have hobj : ∀ i, i ≠ f →
        (({ q with free_ := (q.objects f).next_.ptr_ }).setNode f Node.zero).objects i
          = q.objects i := by
      intro i hi
      rw [setNode_objects, if_neg hi]
    refine ⟨f, fl1, ?_, ?_, ?_, ?_, ?_, Or.inr rfl⟩
    · rw [hrun]
    · rw [hrun]
      exact
        { head_ptr := hq.head_ptr
          tail_ptr := hq.tail_ptr
          linked := Linked_of_agree _ _ _ (fun i hi => by
            rw [hobj i (fun he => hfc (he ▸ hi))]) hq.linked
          values := by
            rw [← hq.values]
            apply List.map_congr_left
            intro i hi
            rw [hobj i (fun he => hfc (he ▸ List.mem_cons_of_mem _ hi))]
          nonzero := hq.nonzero
          free_ptr := hq.free_linked.1
          free_linked := Linked_of_agree _ _ _ (fun i hi => by
            rw [hobj i (fun he => hff (he ▸ hi))]) hq.free_linked.2
          nodup := hnd
          below := fun i hi => hq.below i (hperm.mem_iff.1 hi)
          count := by rw [hperm.length_eq]; exact hq.count
          avail := hq.avail
          untouched := fun i hi => by
            have hlt : f < q.available_ := hq.below f (by simp)
            have hi1 : q.available_ ≤ i := hi
            rw [hobj i (by omega)]
            exact hq.untouched i hi
          head_tag := hq.head_tag
          tail_tag := hq.tail_tag }
    · rw [hrun, setNode_objects, if_pos rfl]
    · rw [hrun]
      rfl
    · rw [hrun]
      rfl

theorem offerLoop_step (n fuel L : Nat) (q : LockFreeQueue)
    (htail : q.tail_.ptr_ = some L) (hnext : (q.objects L).next_.ptr_ = none) :
    LockFreeQueue.offerLoop n (fuel + 1) q
      = some (true,
          { q.setNode L
              { q.objects L with
                next_ :=
                  { ptr_ := some n
                    tag_ := ((q.objects L).next_.tag_ + 1) % 2 ^ q.size_bits } } with
            tail_ := { ptr_ := some n, tag_ := (q.tail_.tag_ + 1) % 2 ^ q.size_bits } }) := by
  unfold LockFreeQueue.offerLoop
  simp only [htail, hnext]
  rfl

theorem offer_step (q q1 : LockFreeQueue) (t n fuel : Nat) (ht : t ≠ 0)
    (hal : FreeList.allocate q = (some n, q1)) (hzero : q1.objects n = Node.zero) :
    q.offer fuel t
      = LockFreeQueue.offerLoop n fuel (q1.setNode n { Node.zero with t_ := t }) := by
  unfold LockFreeQueue.offer
  rw [if_neg ht, hal]
  simp only [setNode_objects, if_true, hzero]
  rw [if_neg]
  simp [Node.zero]

/-- What `offer` does in a state that holds `vals`: with fewer than
`Reserved - 1` values it returns true, the state holds `vals ++ [t]` and the
new tail node is the one that `allocate` handed out; otherwise it returns false
and leaves the state as it is. -/
theorem offer_spec (q : LockFreeQueue) (h : Nat) (body fl vals : List Nat)
    (hq : Holds q h body fl [] vals) (t fuel : Nat) (ht : t ≠ 0) (hfuel : 1 ≤ fuel) :
    (vals.length < q.Reserved - 1
        ∧ ∃ q1 body1 fl1, q.offer fuel t = some (true, q1)
          ∧ Holds q1 h body1 fl1 [] (vals ++ [t])
          ∧ q1.Reserved = q.Reserved ∧ q1.size_bits = q.size_bits
          ∧ q1.tail_.ptr_ = (FreeList.allocate q).1)
      ∨ (¬ vals.length < q.Reserved - 1 ∧ q.offer fuel t = some (false, q)) := by
  have hlen : vals.length = body.length := by
    rw [← hq.values, List.length_map]
  obtain ⟨f, hf⟩ : ∃ f, fuel = f + 1 := ⟨fuel - 1, by omega⟩
  subst hf
  rcases allocate_spec q h body fl vals hq with ⟨hfl, hfull, hal⟩ | ⟨n, fl1, hn, H1, hzero, hR, hS, _⟩
  · right
    have hc := hq.count
    rw [hfl] at hc
    simp only [List.append_nil, List.length_cons] at hc
    refine ⟨by omega, ?_⟩
    unfold LockFreeQueue.offer
    rw [if_neg ht, hal]
  · left
    have hal : FreeList.allocate q = (some n, (FreeList.allocate q).2) := Prod.ext hn rfl
    generalize (FreeList.allocate q).2 = q1 at hal H1 hzero hR hS
    have hc := H1.count
    have hav := H1.avail
    simp only [List.length_append, List.length_cons, List.length_nil] at hc
    refine ⟨by omega, ?_⟩
    have hperm : List.Perm (h :: (body ++ [n]) ++ fl1 ++ []) (h :: body ++ fl1 ++ [n]) := by
      rw [List.append_nil, ← List.cons_append, List.append_assoc, List.append_assoc]
      exact List.Perm.append_left _ List.perm_append_comm
    have hnd : (h :: body ++ fl1 ++ [n]).Nodup := H1.nodup
    have hnd1 : (h :: body ++ fl1).Nodup := (List.nodup_append.1 hnd).1
    have hchain : (h :: body).Nodup := (List.nodup_append.1 hnd1).1
    have hn1 : n ∉ h :: body ++ fl1 := fun hm =>
      (List.disjoint_of_nodup_append hnd) hm (List.mem_singleton_self n)
    have hnc : n ∉ h :: body := fun hm => hn1 (List.mem_append_left _ hm)
    have hnf : n ∉ fl1 := fun hm => hn1 (List.mem_append_right _ hm)
    have hLm : lastOf h body ∈ h :: body := lastOf_mem body h
    have hLn : lastOf h body ≠ n := fun he => hnc (he ▸ hLm)
    have hLf : lastOf h body ∉ fl1 := fun hm =>
      (List.disjoint_of_nodup_append hnd1) hLm hm
    have hnext : (q1.objects (lastOf h body)).next_.ptr_ = none := Linked_last _ _ _ H1.linked
    have hstep := offerLoop_step n f (lastOf h body) (q1.setNode n { Node.zero with t_ := t })
      H1.tail_ptr (by rw [setNode_objects, if_neg hLn]; exact hnext)
    rw [← offer_step q q1 t n (f + 1) ht hal hzero] at hstep
    refine ⟨_, body ++ [n], fl1, hstep, ?_, hR, hS, hn.symm⟩
    have hobj : ∀ i, i ≠ n → i ≠ lastOf h body →
        (((q1.setNode n { Node.zero with t_ := t }).setNode (lastOf h body)
          { (q1.setNode n { Node.zero with t_ := t }).objects (lastOf h body) with
            next_ :=
              { ptr_ := some n
                tag_ := (((q1.setNode n { Node.zero with t_ := t }).objects
                  (lastOf h body)).next_.tag_ + 1)
                    % 2 ^ (q1.setNode n { Node.zero with t_ := t }).size_bits } }).objects i)
          = q1.objects i := by
      intro i h1 h2
      rw [setNode_objects, if_neg h2, setNode_objects, if_neg h1]
    have hobjL : (((q1.setNode n { Node.zero with t_ := t }).setNode (lastOf h body)
          { (q1.setNode n { Node.zero with t_ := t }).objects (lastOf h body) with
            next_ :=
              { ptr_ := some n
                tag_ := (((q1.setNode n { Node.zero with t_ := t }).objects
                  (lastOf h body)).next_.tag_ + 1)
                    % 2 ^ (q1.setNode n { Node.zero with t_ := t }).size_bits } }).objects
          (lastOf h body))
        = { q1.objects (lastOf h body) with
            next_ :=
              { ptr_ := some n
                tag_ := ((q1.objects (lastOf h body)).next_.tag_ + 1) % 2 ^ q1.size_bits } } := by
      rw [setNode_objects, if_pos rfl, setNode_objects, if_neg hLn]
      rfl
    have hobjn : (((q1.setNode n { Node.zero with t_ := t }).setNode (lastOf h body)
          { (q1.setNode n { Node.zero with t_ := t }).objects (lastOf h body) with
            next_ :=
              { ptr_ := some n
                tag_ := (((q1.setNode n { Node.zero with t_ := t }).objects
                  (lastOf h body)).next_.tag_ + 1)
                    % 2 ^ (q1.setNode n { Node.zero with t_ := t }).size_bits } }).objects n)
        = { Node.zero with t_ := t } := by
      rw [setNode_objects, if_neg (Ne.symm hLn), setNode_objects, if_pos rfl]
    exact
      { head_ptr := H1.head_ptr
        tail_ptr := by
          rw [lastOf_append]
        linked := by
          refine Linked_snoc q1.objects _ n body h H1.linked hchain ?_ ?_ ?_
          · intro i hi hne
            show (_ : Node).next_.ptr_ = _
            rw [hobj i (fun he => hnc (he ▸ hi)) hne]
          · show (_ : Node).next_.ptr_ = _
            rw [hobjL]
          · show (_ : Node).next_.ptr_ = _
            rw [hobjn]
            rfl
        values := by
          rw [List.map_append, ← H1.values]
          congr 1
          · apply List.map_congr_left
            intro i hi
            have hin : i ≠ n := fun he => hnc (he ▸ List.mem_cons_of_mem _ hi)
            show (_ : Node).t_ = _
            by_cases hiL : i = lastOf h body
            · rw [hiL, hobjL]
            · rw [hobj i hin hiL]
          · show [(_ : Node).t_] = _
            rw [hobjn]
        nonzero := by
          intro v hv
          rcases List.mem_append.1 hv with hv | hv
          · exact H1.nonzero v hv
          · rw [List.mem_singleton] at hv
            rw [hv]
            exact ht
        free_ptr := H1.free_ptr
        free_linked := Linked_of_agree _ _ _ (fun i hi => by
          show (_ : Node).next_.ptr_ = _
          rw [hobj i (fun he => hnf (he ▸ hi)) (fun he => hLf (he ▸ hi))]) H1.free_linked
        nodup := hperm.nodup_iff.2 hnd
        below := fun i hi => H1.below i (hperm.mem_iff.1 hi)
        count := by
          rw [hperm.length_eq]
          exact H1.count
        avail := H1.avail
        untouched := fun i hi => by
          have hi1 : q1.available_ ≤ i := hi
          have hnl : n < q1.available_ := H1.below n (by simp)
          have hLl : lastOf h body < q1.available_ :=
            H1.below _ (List.mem_append_left _ (List.mem_append_left _ hLm))
          show (_ : Node) = _
          rw [hobj i (by omega) (by omega)]
          exact H1.untouched i hi
        head_tag := H1.head_tag
        tail_tag := by
          show (q1.tail_.tag_ + 1) % 2 ^ q1.size_bits
            = (q1.head_.tag_ + (vals ++ [t]).length) % 2 ^ q1.size_bits
          rw [H1.tail_tag, List.length_append, List.length_singleton, Nat.mod_add_mod,
            Nat.add_assoc] }

/-- What `poll` does in a state that holds `vals`: on an empty queue it returns
false and leaves `ret` and the state as they are; otherwise it returns true
with the oldest value in `ret`, the state holds the other values and the old
head node is the first of the free list. -/
theorem poll_spec (q : LockFreeQueue) (h : Nat) (body fl vals : List Nat)
    (hq : Holds q h body fl [] vals) (ret fuel : Nat) (hfuel : 1 ≤ fuel) :
    (vals = [] ∧ q.poll fuel ret = some ((false, ret), q))
      ∨ ∃ v rest q1 h1 body1 fl1, vals = v :: rest
          ∧ q.poll fuel ret = some ((true, v), q1)
          ∧ Holds q1 h1 body1 fl1 [] rest
          ∧ q1.Reserved = q.Reserved ∧ q1.size_bits = q.size_bits
          ∧ q1.free_ = q.head_.ptr_ := by
  obtain ⟨f, hf⟩ : ∃ f, fuel = f + 1 := ⟨fuel - 1, by omega⟩
  subst hf
  cases body with
  | nil =>
    left
    have hv : vals = [] := by
      rw [← hq.values]
      rfl
    refine ⟨hv, ?_⟩
    have htag : q.tail_.tag_ = q.head_.tag_ := by
      rw [hq.tail_tag, hv]
      exact Nat.mod_eq_of_lt hq.head_tag
    have heq : q.head_ = q.tail_ := by
      have h1 := hq.head_ptr
      have h2 := hq.tail_ptr
      cases hh : q.head_ with
      | mk p1 t1 =>
        cases ht : q.tail_ with
        | mk p2 t2 =>
          rw [hh] at h1 htag
          rw [ht] at h2 htag
          simp only at h1 h2 htag
          rw [h1, h2, htag]
          rfl
    have hnext : (q.objects h).next_.ptr_ = none := hq.linked.1
    have hhp := hq.head_ptr
    unfold LockFreeQueue.poll
    simp only [hhp, if_pos heq, hnext]
  | cons b rest1 =>
    right
    obtain ⟨v, rest, hvals⟩ : ∃ v rest, vals = v :: rest := by
      rw [← hq.values]
      exact ⟨_, _, rfl⟩
    have hval : (q.objects b).t_ = v ∧ rest1.map (fun i => (q.objects i).t_) = rest := by
      have := hq.values
      rw [hvals, List.map_cons] at this
      exact List.cons.inj this
    have hnd : (h :: (b :: rest1) ++ fl ++ []).Nodup := hq.nodup
    rw [List.append_nil] at hnd
    have hhn : h ∉ (b :: rest1) ++ fl := (List.nodup_cons.1 hnd).1
    have hnd2 : ((b :: rest1) ++ fl).Nodup := (List.nodup_cons.1 hnd).2
    have hhc : h ∉ b :: rest1 := fun hm => hhn (List.mem_append_left _ hm)
    have hhf : h ∉ fl := fun hm => hhn (List.mem_append_right _ hm)
    have hLm : lastOf b rest1 ∈ b :: rest1 := lastOf_mem rest1 b
    have hne : q.head_ ≠ q.tail_ := by
      intro he
      have h1 := hq.head_ptr
      have h2 : q.tail_.ptr_ = some (lastOf b rest1) := hq.tail_ptr
      rw [he, h2] at h1
      exact hhc ((Option.some.inj h1) ▸ hLm)
    have hnext : (q.objects h).next_.ptr_ = some b := hq.linked.1
    have hv0 : v ≠ 0 := hq.nonzero v (by rw [hvals]; exact List.mem_cons_self _ _)
    have hrun : q.poll (f + 1) ret
        = some ((true, v),
            FreeList.deallocate
              { q with
                head_ := { ptr_ := some b, tag_ := (q.head_.tag_ + 1) % 2 ^ q.size_bits } }
              (some h)) := by
      unfold LockFreeQueue.poll
      simp only [hq.head_ptr, hne, if_false, hnext, hval.1, hv0]
    have hobj : ∀ i, i ≠ h →
        (FreeList.deallocate
          { q with
            head_ := { ptr_ := some b, tag_ := (q.head_.tag_ + 1) % 2 ^ q.size_bits } }
          (some h)).objects i = q.objects i := by
      intro i hi
      show (if i = h then _ else q.objects i) = q.objects i
      rw [if_neg hi]
    have hobjh : ((FreeList.deallocate
          { q with
            head_ := { ptr_ := some b, tag_ := (q.head_.tag_ + 1) % 2 ^ q.size_bits } }
          (some h)).objects h).next_.ptr_ = q.free_ := by
      show ((if h = h then _ else q.objects h) : Node).next_.ptr_ = q.free_
      rw [if_pos rfl]
    have hperm : List.Perm (b :: rest1 ++ (h :: fl) ++ []) (h :: (b :: rest1) ++ fl ++ []) := by
      rw [List.append_nil, List.append_nil]
      exact List.perm_middle
    refine ⟨v, rest, _, b, rest1, h :: fl, hvals, hrun, ?_, rfl, rfl, hq.head_ptr.symm⟩
    exact
      { head_ptr := rfl
        tail_ptr := hq.tail_ptr
        linked := Linked_of_agree _ _ _ (fun i hi => by
          rw [hobj i (fun he => hhc (he ▸ hi))]) hq.linked.2
        values := by
          rw [← hval.2]
          apply List.map_congr_left
          intro i hi
          rw [hobj i (fun he => hhc (he ▸ List.mem_cons_of_mem _ hi))]
        nonzero := fun x hx => hq.nonzero x (by rw [hvals]; exact List.mem_cons_of_mem _ hx)
        free_ptr := rfl
        free_linked :=
          ⟨hobjh.trans hq.free_ptr,
            Linked_of_agree _ _ _ (fun i hi => by
              rw [hobj i (fun he => hhf (he ▸ hi))]) hq.free_linked⟩
        nodup := hperm.nodup_iff.2 hq.nodup
        below := fun i hi => hq.below i (hperm.mem_iff.1 hi)
        count := by
          rw [hperm.length_eq]
          exact hq.count
        avail := hq.avail
        untouched := fun i hi => by
          have hi1 : q.available_ ≤ i := hi
          have hl : h < q.available_ := hq.below h (by simp)
          rw [hobj i (by omega)]
          exact hq.untouched i hi
        head_tag := Nat.mod_lt _ (Nat.two_pow_pos _)
        tail_tag := by
          show q.tail_.tag_ = ((q.head_.tag_ + 1) % 2 ^ q.size_bits + rest.length) % 2 ^ q.size_bits
          rw [hq.tail_tag, hvals, List.length_cons, Nat.mod_add_mod]
          congr 1
          omega }

/-- A new queue over a storage of at least one node holds no values. -/
theorem new_holds (size_bits Reserved : Nat) (hR : 1 ≤ Reserved) :
    Holds (LockFreeQueue.new size_bits Reserved) 0 [] [] [] []
      ∧ (LockFreeQueue.new size_bits Reserved).Reserved = Reserved := by
  have hne : ¬ (0 ≥ Reserved) := by omega
  have hal : FreeList.allocate
      { size_bits := size_bits, Reserved := Reserved, objects := fun _ => Node.zero,
        available_ := 0, free_ := none,
        head_ := { ptr_ := none, tag_ := 0 }, tail_ := { ptr_ := none, tag_ := 0 } }
      = (some 0,
          { size_bits := size_bits, Reserved := Reserved, objects := fun _ => Node.zero,
            available_ := 1, free_ := none,
            head_ := { ptr_ := none, tag_ := 0 }, tail_ := { ptr_ := none, tag_ := 0 } }) := by
    unfold FreeList.allocate FixedObjectStorage.provide
    simp only [hne, if_false]
  unfold LockFreeQueue.new
  simp only [hal]
  refine ⟨?_, by trivial⟩
  exact
    { head_ptr := rfl
      tail_ptr := rfl
      linked := ⟨rfl, trivial⟩
      values := rfl
      nonzero := fun v hv => absurd hv (List.not_mem_nil v)
      free_ptr := rfl
      free_linked := trivial
      nodup := by simp
      below := by
        intro i hi
        simp only [List.append_nil, List.mem_singleton] at hi
        rw [hi]
        exact Nat.one_pos
      count := rfl
      avail := hR
      untouched := fun _ _ => rfl
      head_tag := Nat.mod_lt _ (Nat.two_pow_pos _)
      tail_tag := by
        show 1 % 2 ^ size_bits = (1 % 2 ^ size_bits + 0) % 2 ^ size_bits
        rw [Nat.add_zero, Nat.mod_mod] }


theorem fifoRun_offer (c : Nat) (vals : List Nat) (t : Nat) (ops : List QueueOp) :
    fifoRun c vals (QueueOp.offer t :: ops)
      = (if vals.length < c then QueueResult.offered true :: fifoRun c (vals ++ [t]) ops
         else QueueResult.offered false :: fifoRun c vals ops) :=
  rfl

theorem fifoRun_poll_nil (c ret : Nat) (ops : List QueueOp) :
    fifoRun c [] (QueueOp.poll ret :: ops) = QueueResult.polled false ret :: fifoRun c [] ops :=
  rfl

theorem fifoRun_poll_cons (c ret v : Nat) (rest : List Nat) (ops : List QueueOp) :
    fifoRun c (v :: rest) (QueueOp.poll ret :: ops)
      = QueueResult.polled true v :: fifoRun c rest ops :=
  rfl

theorem fifoValues_offer (c : Nat) (vals : List Nat) (t : Nat) (ops : List QueueOp) :
    fifoValues c vals (QueueOp.offer t :: ops)
      = (if vals.length < c then fifoValues c (vals ++ [t]) ops else fifoValues c vals ops) :=
  rfl

theorem run_offer (fuel : Nat) (q q1 q2 : LockFreeQueue) (t : Nat) (ok : Bool)
    (ops : List QueueOp) (rs : List QueueResult)
    (h1 : q.offer fuel t = some (ok, q1)) (h2 : q1.run fuel ops = some (rs, q2)) :
    q.run fuel (QueueOp.offer t :: ops) = some (QueueResult.offered ok :: rs, q2) := by
  show (match q.offer fuel t with
    | none => none
    | some (ok, q1) =>
      match LockFreeQueue.run fuel q1 ops with
      | none => none
      | some (rs, q2) => some (QueueResult.offered ok :: rs, q2)) = _
  rw [h1]
  simp only [h2]

theorem run_poll (fuel : Nat) (q q1 q2 : LockFreeQueue) (ret ret1 : Nat) (ok : Bool)
    (ops : List QueueOp) (rs : List QueueResult)
    (h1 : q.poll fuel ret = some ((ok, ret1), q1)) (h2 : q1.run fuel ops = some (rs, q2)) :
    q.run fuel (QueueOp.poll ret :: ops) = some (QueueResult.polled ok ret1 :: rs, q2) := by
  show (match q.poll fuel ret with
    | none => none
    | some ((ok, ret1), q1) =>
      match LockFreeQueue.run fuel q1 ops with
      | none => none
      | some (rs, q2) => some (QueueResult.polled ok ret1 :: rs, q2)) = _
  rw [h1]
  simp only [h2]

/-- A run of one thread from a state that holds `vals` gives the answers of the
reference queue of capacity `Reserved - 1`, and ends in a state that holds the
values of the reference queue. -/
theorem run_refines (fuel : Nat) (hfuel : 1 ≤ fuel) : ∀ (ops : List QueueOp)
    (q : LockFreeQueue) (h : Nat) (body fl vals : List Nat),
    Holds q h body fl [] vals → (∀ t, QueueOp.offer t ∈ ops → t ≠ 0) →
    ∃ q1 h1 body1 fl1, q.run fuel ops = some (fifoRun (q.Reserved - 1) vals ops, q1)
      ∧ Holds q1 h1 body1 fl1 [] (fifoValues (q.Reserved - 1) vals ops)
      ∧ q1.Reserved = q.Reserved := by
  intro ops
  induction ops with
  | nil =>
    intro q h body fl vals hq _
    exact ⟨q, h, body, fl, rfl, hq, rfl⟩
  | cons op ops ih =>
    intro q h body fl vals hq hnz
    have hnz1 : ∀ t, QueueOp.offer t ∈ ops → t ≠ 0 :=
      fun t ht => hnz t (List.mem_cons_of_mem _ ht)
    cases op with
    | offer t =>
      have ht : t ≠ 0 := hnz t (List.mem_cons_self _ _)
      rw [fifoRun_offer, fifoValues_offer]
      rcases offer_spec q h body fl vals hq t fuel ht hfuel with
        ⟨hlt, q1, body1, fl1, hrun, H1, hR, _, _⟩ | ⟨hge, hrun⟩
      · obtain ⟨q2, h2, body2, fl2, hrest, H2, hR2⟩ := ih q1 h body1 fl1 _ H1 hnz1
        rw [hR] at hrest H2
        rw [if_pos hlt, if_pos hlt]
        exact ⟨q2, h2, body2, fl2, run_offer fuel q q1 q2 t true ops _ hrun hrest, H2,
          hR2.trans hR⟩
      · obtain ⟨q2, h2, body2, fl2, hrest, H2, hR2⟩ := ih q h body fl _ hq hnz1
        rw [if_neg hge, if_neg hge]
        exact ⟨q2, h2, body2, fl2, run_offer fuel q q q2 t false ops _ hrun hrest, H2, hR2⟩
    | poll ret =>
      rcases poll_spec q h body fl vals hq ret fuel hfuel with
        ⟨hv, hrun⟩ | ⟨v, rest, q1, h1, body1, fl1, hv, hrun, H1, hR, _, _⟩
      · subst hv
        obtain ⟨q2, h2, body2, fl2, hrest, H2, hR2⟩ := ih q h body fl _ hq hnz1
        rw [fifoRun_poll_nil]
        exact ⟨q2, h2, body2, fl2, run_poll fuel q q q2 ret ret false ops _ hrun hrest, H2,
          hR2⟩
      · subst hv
        obtain ⟨q2, h2, body2, fl2, hrest, H2, hR2⟩ := ih q1 h1 body1 fl1 _ H1 hnz1
        rw [hR] at hrest H2
        rw [fifoRun_poll_cons]
        exact ⟨q2, h2, body2, fl2, run_poll fuel q q1 q2 ret v true ops _ hrun hrest, H2,
          hR2.trans hR⟩

theorem fifoRun_all_offers (c : Nat) : ∀ (ops : List QueueOp) (vals : List Nat),
    QueueResult.offered false ∉ fifoRun c vals ops →
      fifoRun c vals ops = fifoAnswers vals ops := by
  intro ops
  induction ops with
  | nil => intro vals _; rfl
  | cons op ops ih =>
    intro vals hno
    cases op with
    | offer t =>
      rw [fifoRun_offer] at hno ⊢
      by_cases hlt : vals.length < c
      · rw [if_pos hlt] at hno ⊢
        show _ = QueueResult.offered true :: fifoAnswers (vals ++ [t]) ops
        rw [ih (vals ++ [t]) (fun hm => hno (List.mem_cons_of_mem _ hm))]
      · rw [if_neg hlt] at hno
        exact absurd (List.mem_cons_self _ _) hno
    | poll ret =>
      cases vals with
      | nil =>
        rw [fifoRun_poll_nil] at hno ⊢
        show _ = QueueResult.polled false ret :: fifoAnswers [] ops
        rw [ih [] (fun hm => hno (List.mem_cons_of_mem _ hm))]
      | cons v rest =>
        rw [fifoRun_poll_cons] at hno ⊢
        show _ = QueueResult.polled true v :: fifoAnswers rest ops
        rw [ih rest (fun hm => hno (List.mem_cons_of_mem _ hm))]

theorem fifoValues_length (c : Nat) : ∀ (ops : List QueueOp) (vals : List Nat),
    vals.length ≤ c → (fifoValues c vals ops).length ≤ c := by
  intro ops
  induction ops with
  | nil => intro vals h; exact h
  | cons op ops ih =>
    intro vals h
    cases op with
    | offer t =>
      rw [fifoValues_offer]
      by_cases hlt : vals.length < c
      · rw [if_pos hlt]
        apply ih
        rw [List.length_append, List.length_singleton]
        omega
      · rw [if_neg hlt]
        exact ih vals h
    | poll ret =>
      cases vals with
      | nil => exact ih [] h
      | cons v rest =>
        apply ih rest
        rw [List.length_cons] at h
        omega

theorem fifo_offers (c : Nat) : ∀ (ts vals : List Nat), vals.length + ts.length ≤ c →
    fifoRun c vals (ts.map QueueOp.offer) = ts.map (fun _ => QueueResult.offered true)
      ∧ fifoValues c vals (ts.map QueueOp.offer) = vals ++ ts := by
  intro ts
  induction ts with
  | nil => intro vals _; exact ⟨rfl, (List.append_nil _).symm⟩
  | cons t ts ih =>
    intro vals h
    rw [List.length_cons] at h
    have hlt : vals.length < c := by omega
    have h1 := ih (vals ++ [t]) (by rw [List.length_append, List.length_singleton]; omega)
    rw [List.map_cons, fifoRun_offer, fifoValues_offer, if_pos hlt, if_pos hlt, h1.1, h1.2,
      List.append_assoc]
    exact ⟨rfl, rfl⟩

theorem offers_nonzero (ts : List Nat) (h : ∀ x ∈ ts, x ≠ 0) :
    ∀ t, QueueOp.offer t ∈ ts.map QueueOp.offer → t ≠ 0 := by
  intro t ht
  obtain ⟨x, hx, he⟩ := List.mem_map.1 ht
  exact (QueueOp.offer.inj he) ▸ h x hx

theorem allocate_of_free (q : LockFreeQueue) (n : Nat) (h : q.free_ = some n) :
    (FreeList.allocate q).1 = some n := by
  unfold FreeList.allocate
  rw [h]

/-- C38: in a run of one thread on a new queue, whose offered values are not
zero, every call returns; when all the offers of the run succeed the answers are
those of a first-in first-out queue: each successful poll returns the oldest
value offered and not yet polled, and a poll on the empty queue returns false
and leaves its output argument as it was. In any run the answers are those of
the first-in first-out queue that takes `Reserved - 1` values. -/
theorem LockFreeQueue_fifo (size_bits Reserved fuel : Nat) (ops : List QueueOp)
    (hR : 1 ≤ Reserved) (hfuel : 1 ≤ fuel) (hnz : ∀ t, QueueOp.offer t ∈ ops → t ≠ 0) :
    ∃ rs q1, (LockFreeQueue.new size_bits Reserved).run fuel ops = some (rs, q1)
      ∧ (QueueResult.offered false ∉ rs → rs = fifoAnswers [] ops)
      ∧ rs = fifoRun (Reserved - 1) [] ops := by
  obtain ⟨H0, hR0⟩ := new_holds size_bits Reserved hR
  obtain ⟨q1, _, _, _, hrun, _, _⟩ := run_refines fuel hfuel ops _ _ _ _ _ H0 hnz
  rw [hR0] at hrun
  exact ⟨_, q1, hrun, fun hno => fifoRun_all_offers _ ops [] hno, rfl⟩

/-- C38, at a run on a queue over four nodes with fuel 1: the polls
return 7, 8 and 9 in the order of the offers, and the poll on the empty queue
returns false and leaves 5 in its output argument. -/
theorem LockFreeQueue_fifo_witness :
    ∃ q1, (LockFreeQueue.new 64 4).run 1
        [QueueOp.offer 7, QueueOp.offer 8, QueueOp.poll 0, QueueOp.offer 9, QueueOp.poll 0,
          QueueOp.poll 0, QueueOp.poll 5]
      = some ([QueueResult.offered true, QueueResult.offered true, QueueResult.polled true 7,
          QueueResult.offered true, QueueResult.polled true 8, QueueResult.polled true 9,
          QueueResult.polled false 5], q1) := by
  obtain ⟨rs, q1, hrun, hall, hrs⟩ := LockFreeQueue_fifo 64 4 1
    [QueueOp.offer 7, QueueOp.offer 8, QueueOp.poll 0, QueueOp.offer 9, QueueOp.poll 0,
      QueueOp.poll 0, QueueOp.poll 5] (by decide) (by decide)
    (by intro t ht; simp at ht; omega)
  refine ⟨q1, ?_⟩
  rw [hrun, hall (by rw [hrs]; decide)]
  rfl

/-- C39: in a run of one thread on a new queue over `Reserved` nodes the queue
holds at most `Reserved - 1` values after any calls; with no polls the first
`Reserved - 1` offers return true and the next offer returns false and leaves
the state as it is; a poll then puts the old head node on the free list, and
the next offer returns true with that node as the new tail. -/
theorem LockFreeQueue_capacity (size_bits Reserved fuel : Nat) (hR : 1 ≤ Reserved)
    (hfuel : 1 ≤ fuel) :
    (∀ ops, (∀ t, QueueOp.offer t ∈ ops → t ≠ 0) →
      ∃ rs q1 h body fl vals,
        (LockFreeQueue.new size_bits Reserved).run fuel ops = some (rs, q1)
          ∧ Holds q1 h body fl [] vals ∧ vals.length ≤ Reserved - 1)
    ∧ (∀ ts t, ts.length = Reserved - 1 → (∀ x ∈ ts, x ≠ 0) → t ≠ 0 →
        ∃ q1 h body fl,
          (LockFreeQueue.new size_bits Reserved).run fuel (ts.map QueueOp.offer)
              = some (ts.map (fun _ => QueueResult.offered true), q1)
            ∧ Holds q1 h body fl [] ts
            ∧ q1.offer fuel t = some (false, q1)
            ∧ (∀ ret, 2 ≤ Reserved →
                ∃ v rest q2 q3 h3 body3 fl3, ts = v :: rest
                  ∧ q1.poll fuel ret = some ((true, v), q2)
                  ∧ q2.free_ = q1.head_.ptr_
                  ∧ q2.offer fuel t = some (true, q3)
                  ∧ q3.tail_.ptr_ = q1.head_.ptr_
                  ∧ Holds q3 h3 body3 fl3 [] (rest ++ [t]))) := by
  obtain ⟨H0, hR0⟩ := new_holds size_bits Reserved hR
  constructor
  · intro ops hnz
    obtain ⟨q1, h1, body1, fl1, hrun, H1, _⟩ := run_refines fuel hfuel ops _ _ _ _ _ H0 hnz
    rw [hR0] at H1
    exact ⟨_, q1, h1, body1, fl1, _, hrun, H1, fifoValues_length _ ops [] (Nat.zero_le _)⟩
  · intro ts t hlen hts ht
    obtain ⟨q1, h1, body1, fl1, hrun, H1, hR1⟩ :=
      run_refines fuel hfuel (ts.map QueueOp.offer) _ _ _ _ _ H0 (offers_nonzero ts hts)
    rw [hR0] at hrun H1 hR1
    have hf := fifo_offers (Reserved - 1) ts [] (by rw [List.length_nil]; omega)
    rw [hf.1] at hrun
    rw [hf.2, List.nil_append] at H1
    refine ⟨q1, h1, body1, fl1, hrun, H1, ?_, ?_⟩
    · rcases offer_spec q1 h1 body1 fl1 ts H1 t fuel ht hfuel with ⟨hlt, _⟩ | ⟨_, hoff⟩
      · rw [hR1] at hlt
        omega
      · exact hoff
    · intro ret hR2
      rcases poll_spec q1 h1 body1 fl1 ts H1 ret fuel hfuel with
        ⟨hv, _⟩ | ⟨v, rest, q2, h2, body2, fl2, hv, hpoll, H2, hRq2, _, hfree⟩
      · rw [hv, List.length_nil] at hlen
        omega
      · have hrest : rest.length < q2.Reserved - 1 := by
          rw [hRq2, hR1, ← hlen, hv, List.length_cons]
          omega
        rcases offer_spec q2 h2 body2 fl2 rest H2 t fuel ht hfuel with
          ⟨_, q3, body3, fl3, hoff, H3, _, _, htail⟩ | ⟨hge, _⟩
        · refine ⟨v, rest, q2, q3, h2, body3, fl3, hv, hpoll, hfree, hoff, ?_, H3⟩
          rw [htail]
          rw [H1.head_ptr] at hfree ⊢
          exact allocate_of_free q2 h1 hfree
        · exact absurd hrest hge

/-- C39, at a queue over three nodes with fuel 1: the offers of 7 and 8 return
true and the offer of 9 returns false; after that the poll returns 7 and the
next offer of 9 returns true. -/
theorem LockFreeQueue_capacity_witness :
    (∃ q1, (LockFreeQueue.new 64 3).run 1 [QueueOp.offer 7, QueueOp.offer 8]
        = some ([QueueResult.offered true, QueueResult.offered true], q1)
      ∧ q1.offer 1 9 = some (false, q1)
      ∧ ∃ q2 q3, q1.poll 1 0 = some ((true, 7), q2) ∧ q2.free_ = q1.head_.ptr_
          ∧ q2.offer 1 9 = some (true, q3) ∧ q3.tail_.ptr_ = q1.head_.ptr_) := by
  obtain ⟨q1, _, _, _, hrun, _, hoff, hnext⟩ :=
    (LockFreeQueue_capacity 64 3 1 (by decide) (by decide)).2 [7, 8] 9 rfl (by decide)
      (by decide)
  obtain ⟨v, rest, q2, q3, _, _, _, hv, hpoll, hfree, hoff2, htail, _⟩ := hnext 0 (by decide)
  have hv7 : v = 7 := (List.cons.inj hv).1.symm
  rw [hv7] at hpoll
  exact ⟨q1, hrun, hoff, q2, q3, hpoll, hfree, hoff2, htail⟩

end wechat_backtrace
